import Mathlib

/-! Semaphores, locks with priority donation and condition variables.

A shallow embedding of `src/threads/synch.c`.

The kernel state is one record: the thread table, the running thread, and the
tables of semaphores, locks and condition variables.  A C pointer becomes an
index into the matching table.  Every function of `synch.c` is a function from
states to states; it returns `none` where the C code stops in a failed `ASSERT`
or reads through a null pointer, an empty list or a negative array index.

A function that can suspend its caller (`sema_down`, `lock_acquire`) is
embedded as the code that runs from its entry, or from the wake-up, to the next
suspension or to the return.  The scheduler is outside `synch.c`: which ready
thread runs next is a separate, unconstrained `schedule` step.

`intr_disable` / `intr_set_level` delimit the masked sections: the bodies of
`sema_down`, `sema_try_down` and `sema_up`.  The lock functions run with
interrupts on, so they are embedded twice: as the function that a call computes
when no interrupt falls inside it (`lock_acquire`, `lock_try_acquire`,
`lock_release`; runs of such calls are `lock_run`), and statement by statement
with a preemption possible between any two statements (`lock_stmt`; runs are
`stmt_run`).  States are constructed with either; what is claimed of all
reachable states is claimed over `stmt_run`.
-/

namespace Synch

/-- Thread identifier: the index of a `struct thread` in the thread table. -/
abbrev Tid := Nat

/-- Lock identifier: the index of a `struct lock` in the lock table. -/
abbrev Lid := Nat

/-- Number of values of the C type `unsigned` on the i386 target. -/
def UINT_RANGE : Nat := 4294967296

/-- Modelled from the spec: `enum thread_status` is declared in
`threads/thread.h`, which is not among the sources; `synch.c` names
`THREAD_READY`. -/
inductive thread_status where
  | THREAD_RUNNING
  | THREAD_READY
  | THREAD_BLOCKED
  | THREAD_DYING
  deriving DecidableEq, Repr

/-- Modelled from the spec: `struct thread` is declared in `threads/thread.h`,
which is not among the sources.  The fields are those `synch.c` reads and
writes: the effective priority, the array of recorded priorities with its
running size (slot 0 holds the base priority, which the reset branch of
`lock_release` restores), the count of held locks with incoming donations, the
lock the thread is blocked on, and the scheduling status.  The declared
capacity of the array is unknown, so slots are indexed by all of `Nat`. -/
structure thread where
  status : thread_status
  priority : Int
  priorities : Nat → Int
  size : Int
  donation_no : Int
  waiting_for : Option Lid

/-- Modelled from the spec: `struct semaphore` is declared in `threads/synch.h`,
which is not among the sources.  The fields are those `synch.c` uses: the
`unsigned` counter and the queue of waiting threads. -/
structure semaphore where
  value : Nat
  waiters : List Tid
  deriving DecidableEq, Repr

/-- Modelled from the spec: `struct lock` is declared in `threads/synch.h`,
which is not among the sources.  The fields are those `synch.c` uses: the
holder, the embedded semaphore and the donation flag. -/
structure lock where
  holder : Option Tid
  semaphore : semaphore
  is_donated : Bool
  deriving DecidableEq, Repr

/-- One semaphore in a list (`struct semaphore_elem`). -/
structure semaphore_elem where
  semaphore : semaphore
  deriving DecidableEq, Repr

/-- Modelled from the spec: `struct condition` is declared in
`threads/synch.h`, which is not among the sources.  Its one field is the queue
of waiting `semaphore_elem`s, each named here by the thread on whose stack it
lives. -/
structure condition where
  waiters : List Tid
  deriving DecidableEq, Repr

/-- A `struct semaphore *`: a free-standing semaphore, the semaphore embedded
in a lock, or the one inside the `semaphore_elem` on a waiting thread's stack. -/
inductive sema_ref where
  | plain (n : Nat)
  | of_lock (l : Lid)
  | of_waiter (t : Tid)
  deriving DecidableEq, Repr

/-- The kernel state that `synch.c` works on. -/
structure State where
  threads : Tid → thread
  running : Option Tid
  semas : Nat → semaphore
  locks : Lid → lock
  conds : Nat → condition
  waiter : Tid → semaphore_elem

/-- Store `th` as the record of thread `t`. -/
def set_thread (st : State) (t : Tid) (th : thread) : State :=
  { st with threads := Function.update st.threads t th }

/-- Store `lk` as the record of lock `l`. -/
def set_lock (st : State) (l : Lid) (lk : lock) : State :=
  { st with locks := Function.update st.locks l lk }

/-- Store `c` as the record of condition variable `c_id`. -/
def set_cond (st : State) (c_id : Nat) (c : condition) : State :=
  { st with conds := Function.update st.conds c_id c }

/-- Read through a semaphore pointer. -/
def get_sema (st : State) : sema_ref → semaphore
  | .plain n => st.semas n
  | .of_lock l => (st.locks l).semaphore
  | .of_waiter t => (st.waiter t).semaphore

/-- Write through a semaphore pointer. -/
def set_sema (st : State) (r : sema_ref) (s : semaphore) : State :=
  match r with
  | .plain n => { st with semas := Function.update st.semas n s }
  | .of_lock l => set_lock st l { st.locks l with semaphore := s }
  | .of_waiter t => { st with waiter := Function.update st.waiter t { semaphore := s } }

/-! ## Collaborators outside `synch.c` -/

/-- Modelled from the spec: `thread_current` is defined in `threads/thread.c`,
which is not among the sources; it is the identity of the running thread. -/
def thread_current (st : State) : Option Tid := st.running

/-- Modelled from the spec: `thread_block` (`threads/thread.c`, not among the
sources) suspends the running thread: it becomes blocked and gives up the
processor. -/
def thread_block (st : State) : Option State :=
  match thread_current st with
  | none => none
  | some cur =>
    some { set_thread st cur { st.threads cur with status := .THREAD_BLOCKED } with
           running := none }

/-- Modelled from the spec: `thread_unblock` (`threads/thread.c`, not among
the sources) marks the target runnable. -/
def thread_unblock (st : State) (t : Tid) : State :=
  set_thread st t { st.threads t with status := .THREAD_READY }

/-- Modelled from the spec: `thread_yield` (`threads/thread.c`, not among the
sources) gives up the processor; the running thread stays runnable. -/
def thread_yield (st : State) : Option State :=
  match thread_current st with
  | none => none
  | some cur =>
    some { set_thread st cur { st.threads cur with status := .THREAD_READY } with
           running := none }

/-- Modelled from the spec: the scheduler (`threads/thread.c`, not among the
sources) hands the free processor to a ready thread.  The choice is left to the
caller of this step. -/
def schedule (st : State) (t : Tid) : Option State :=
  match st.running with
  | some _ => none
  | none =>
    if (st.threads t).status = .THREAD_READY then
      some { set_thread st t { st.threads t with status := .THREAD_RUNNING } with
             running := some t }
    else none

/-- Modelled from the spec: `compare_priority` is defined in
`threads/thread.c`, which is not among the sources.  The thread-priority
comparator orders by effective priority, greater priority first. -/
def compare_priority (st : State) (a b : Tid) : Bool :=
  decide ((st.threads b).priority < (st.threads a).priority)

/-- Modelled from the spec: `list_insert_ordered` is defined in `lib/kernel/list.c`,
which is not among the sources.  The element goes in front of the first entry
it is strictly less than, so entries that compare equal keep insertion order. -/
def list_insert_ordered {α : Type} (less : α → α → Bool) (elem : α) : List α → List α
  | [] => [elem]
  | e :: rest =>
    if less elem e then elem :: e :: rest
    else e :: list_insert_ordered less elem rest

/-- Modelled from the spec: `list_sort` is defined in `lib/kernel/list.c`,
which is not among the sources.  A full resort by the comparator that keeps
entries that compare equal in their previous order. -/
def list_sort {α : Type} (less : α → α → Bool) (l : List α) : List α :=
  l.foldl (fun acc x => list_insert_ordered less x acc) []

/-! ## Semaphores -/

/-- Embedding of `sema_init`: set the counter, empty the wait queue. -/
def sema_init (st : State) (sema : sema_ref) (value : Nat) : State :=
  set_sema st sema { value := value % UINT_RANGE, waiters := [] }

/-- Embedding of `sema_down` from the loop test to the next suspension or to
the return.  While the counter is 0 the caller is queued in priority order and
blocked (result flag `false`); a woken caller re-enters at the loop test, which
is this same code.  Once the counter is positive it is decremented and the call
returns (result flag `true`). -/
def sema_down (st : State) (sema : sema_ref) : Option (State × Bool) :=
  match thread_current st with
  | none => none
  | some cur =>
    let s := get_sema st sema
    if s.value = 0 then
      let st1 := set_sema st sema
        { s with waiters := list_insert_ordered (compare_priority st) cur s.waiters }
      match thread_block st1 with
      | none => none
      | some st2 => some (st2, false)
    else
      some (set_sema st sema { s with value := s.value - 1 }, true)

/-- Embedding of `sema_try_down`: decrement only if the counter is positive. -/
def sema_try_down (st : State) (sema : sema_ref) : State × Bool :=
  let s := get_sema st sema
  if 0 < s.value then
    (set_sema st sema { s with value := s.value - 1 }, true)
  else
    (st, false)

/-- Embedding of `sema_up`: if a thread waits, resort the queue and unblock its
front; then increment the `unsigned` counter and yield.  The resorted queue is
empty exactly when the queue is, so the `list_empty` test is the match on it. -/
def sema_up (st : State) (sema : sema_ref) : Option State :=
  let s := get_sema st sema
  let st1 :=
    match list_sort (compare_priority st) s.waiters with
    | [] => st
    | front :: rest =>
      thread_unblock (set_sema st sema { s with waiters := rest }) front
  let s1 := get_sema st1 sema
  let st2 := set_sema st1 sema { s1 with value := (s1.value + 1) % UINT_RANGE }
  thread_yield st2

/-! ## Locks -/

/-- Modelled from the spec: the search inside `search_array`
(`threads/thread.c`, not among the sources): index of the first of the `n`
slots from `i` on that holds `elem`. -/
def find_entry (priorities : Nat → Int) (elem : Int) : Nat → Nat → Option Nat
  | _, 0 => none
  | i, n + 1 =>
    if priorities i = elem then some i else find_entry priorities elem (i + 1) n

/-- Modelled from the spec: `search_array` is defined in `threads/thread.c`,
which is not among the sources.  The spec has it find the donated-priority
entry on the thread's stack that matches `elem` and drop entries from that
point, not the entire stack, so that donations from a different, still held
lock survive.  That purpose is met in either release order only when the
matching entry alone leaves the stack, which is how it is taken here: the
entries above the match move down one slot and the running size goes down by
one.  The donated entries are the slots from 1 up to the running size (slot 0
is the base priority); the lowest matching slot is taken, and a stack without a
matching entry is left as it is. -/
def search_array (t : thread) (elem : Int) : thread :=
  match find_entry t.priorities elem 1 (t.size.toNat - 1) with
  | some i =>
    { t with
      priorities := fun j => if j < i then t.priorities j else t.priorities (j + 1)
      size := t.size - 1 }
  | none => t

/-- Embedding of `lock_held_by_current_thread`: holder identity equality. -/
def lock_held_by_current_thread (st : State) (l : Lid) : Option Bool :=
  match thread_current st with
  | none => none
  | some cur => some (decide ((st.locks l).holder = some cur))

/-- The three assignments of the donation loop body on the holder's record:
`priorities[size] = p; size += 1; priority = p`.  A negative size is an array
write at a negative index: `none`. -/
def push_donation (th : thread) (p : Int) : Option thread :=
  if th.size < 0 then none
  else
    some { th with
      priorities := Function.update th.priorities th.size.toNat p
      size := th.size + 1
      priority := p }

/-- The `while (temp->waiting_for != NULL)` loop of `lock_acquire`: follow the
chain of blocking locks from `temp`; at each link record `temp`'s priority on
the holder's array, bump its size, overwrite the holder's priority, and stop at
a holder that is ready.  `fuel` bounds the number of iterations; the result is
`none` when it runs out, when a lock on the chain has no holder, or when a
holder's size is negative. -/
def donation_walk : Nat → State → Tid → Option State
  | 0, st, temp =>
    match (st.threads temp).waiting_for with
    | none => some st
    | some _ => none
  | fuel + 1, st, temp =>
    match (st.threads temp).waiting_for with
    | none => some st
    | some cur_lock =>
      match (st.locks cur_lock).holder with
      | none => none
      | some h =>
        match push_donation (st.threads h) (st.threads temp).priority with
        | none => none
        | some th =>
          if th.status = .THREAD_READY then some (set_thread st h th)
          else donation_walk fuel (set_thread st h th) h

/-- Embedding of `lock_acquire` up to the call of `sema_down`: the assertions
and the donation block.  `sort_ready_list` reorders the scheduler's ready list,
which is not part of this state. -/
def lock_acquire_enter (fuel : Nat) (st : State) (l : Lid) : Option State :=
  match thread_current st with
  | none => none
  | some cur =>
    if (st.locks l).holder = some cur then none
    else
      match (st.locks l).holder with
      | none => some st
      | some h =>
        let st1 := set_thread st cur { st.threads cur with waiting_for := some l }
        if (st1.threads h).priority < (st1.threads cur).priority then
          match donation_walk fuel st1 cur with
          | none => none
          | some st2 =>
            let st3 :=
              if (st2.locks l).is_donated then st2
              else
                set_thread st2 h
                  { st2.threads h with donation_no := (st2.threads h).donation_no + 1 }
            some (set_lock st3 l { st3.locks l with is_donated := true })
        else some st1

/-- Embedding of the tail of `lock_acquire`: `sema_down` on the lock's
semaphore and, once it returns, the two assignments that record the caller as
holder and clear its `waiting_for`.  A caller that blocks inside `sema_down`
runs this same code again when it is woken. -/
def lock_acquire_wake (st : State) (l : Lid) : Option State :=
  match thread_current st with
  | none => none
  | some cur =>
    match sema_down st (.of_lock l) with
    | none => none
    | some (st1, false) => some st1
    | some (st1, true) =>
      let st2 := set_lock st1 l { st1.locks l with holder := some cur }
      some (set_thread st2 cur { st2.threads cur with waiting_for := none })

/-- Embedding of `lock_acquire` from its entry to its return or to the point
where the caller blocks. -/
def lock_acquire (fuel : Nat) (st : State) (l : Lid) : Option State :=
  match lock_acquire_enter fuel st l with
  | none => none
  | some st1 => lock_acquire_wake st1 l

/-- Embedding of `lock_try_acquire`. -/
def lock_try_acquire (st : State) (l : Lid) : Option (State × Bool) :=
  match thread_current st with
  | none => none
  | some cur =>
    if (st.locks l).holder = some cur then none
    else
      match sema_try_down st (.of_lock l) with
      | (st1, true) => some (set_lock st1 l { st1.locks l with holder := some cur }, true)
      | (st1, false) => some (st1, false)

/-- The assignments of the `if (lock->is_donated)` block of `lock_release` on
the releasing thread's record: `donation_no -= 1`, `search_array` with the
front waiter's priority, and `priority = priorities[size - 1]`.  A read at a
negative index gives `none`. -/
def drop_donation (t : thread) (elem : Int) : Option thread :=
  let t2 := search_array { t with donation_no := t.donation_no - 1 } elem
  if t2.size - 1 < 0 then none
  else some { t2 with priority := t2.priorities (t2.size - 1).toNat }

/-- The `if (lock->is_donated)` block of `lock_release`.  `list_front` of an
empty wait queue gives `none`. -/
def release_donation (st : State) (cur : Tid) (l : Lid) : Option State :=
  if (st.locks l).is_donated then
    match (st.locks l).semaphore.waiters with
    | [] => none
    | front :: _ =>
      match drop_donation (st.threads cur) (st.threads front).priority with
      | none => none
      | some t => some (set_lock (set_thread st cur t) l { st.locks l with is_donated := false })
  else some st

/-- The `if (donation_no == 0)` block of `lock_release` on the releasing
thread's record: `size = 1; priority = priorities[0]`. -/
def reset_donations (t : thread) : thread :=
  if t.donation_no = 0 then { t with size := 1, priority := t.priorities 0 } else t

/-- Embedding of `lock_release` up to the call of `sema_up`: the assertions,
the resort of the wait queue, the donation bookkeeping and the clearing of the
holder. -/
def lock_release_enter (st : State) (l : Lid) : Option State :=
  match thread_current st with
  | none => none
  | some cur =>
    if (st.locks l).holder ≠ some cur then none
    else
      let sorted := list_sort (compare_priority st) (st.locks l).semaphore.waiters
      let st1 := set_sema st (.of_lock l) { (st.locks l).semaphore with waiters := sorted }
      match release_donation st1 cur l with
      | none => none
      | some st3 =>
        let st4 := set_thread st3 cur (reset_donations (st3.threads cur))
        some (set_lock st4 l { st4.locks l with holder := none })

/-- Embedding of `lock_release`: everything up to the call of `sema_up`, then
`sema_up` on the lock's semaphore. -/
def lock_release (st : State) (l : Lid) : Option State :=
  match lock_release_enter st l with
  | none => none
  | some st5 => sema_up st5 (.of_lock l)

/-! ## Condition variables -/

/-- Embedding of `compare_sema`: compare the priorities of the threads at the
front of the two entries' wait queues.  `list_front` of an empty queue gives
`none`. -/
def compare_sema (st : State) (l1 l2 : Tid) : Option Bool :=
  match (st.waiter l1).semaphore.waiters, (st.waiter l2).semaphore.waiters with
  | f1 :: _, f2 :: _ => some (decide ((st.threads f2).priority < (st.threads f1).priority))
  | _, _ => none

/-- Modelled from the spec: `list_insert_ordered` (`lib/kernel/list.c`, not
among the sources) run with a comparator that can fail, as `compare_sema` can. -/
def list_insert_ordered_partial {α : Type} (less : α → α → Option Bool) (elem : α) :
    List α → Option (List α)
  | [] => some [elem]
  | e :: rest =>
    match less elem e with
    | none => none
    | some true => some (elem :: e :: rest)
    | some false =>
      match list_insert_ordered_partial less elem rest with
      | none => none
      | some r => some (e :: r)

/-- Modelled from the spec: `list_sort` (`lib/kernel/list.c`, not among the
sources) run with a comparator that can fail: the sort fails as soon as a
comparison does. -/
def list_sort_partial {α : Type} (less : α → α → Option Bool) (l : List α) :
    Option (List α) :=
  l.foldl
    (fun acc x =>
      match acc with
      | none => none
      | some a => list_insert_ordered_partial less x a)
    (some [])

/-- Embedding of `cond_init`. -/
def cond_init (st : State) (c : Nat) : State :=
  set_cond st c { waiters := [] }

/-- Embedding of `cond_signal`: assert that the caller holds the lock, resort
the waiter queue with `compare_sema`, and up the front entry's semaphore. -/
def cond_signal (st : State) (c : Nat) (l : Lid) : Option State :=
  match lock_held_by_current_thread st l with
  | none => none
  | some false => none
  | some true =>
    match list_sort_partial (compare_sema st) (st.conds c).waiters with
    | none => none
    | some sorted =>
      let st1 := set_cond st c { st.conds c with waiters := sorted }
      match sorted with
      | [] => some st1
      | front :: rest =>
        sema_up (set_cond st1 c { st1.conds c with waiters := rest }) (.of_waiter front)

/-! ## Initial states and runs -/

/-- Modelled from the spec: thread creation lives in `threads/thread.c`, which
is not among the sources.  A thread without donations has its effective
priority equal to its base priority, which is recorded in slot 0 of the array,
size 1, donation count 0 and no lock to wait for: the state that the reset
branch of `lock_release` restores. -/
def fresh_thread (priority : Int) : thread :=
  { status := .THREAD_READY
    priority := priority
    priorities := fun i => if i = 0 then priority else 0
    size := 1
    donation_no := 0
    waiting_for := none }

/-- A state right after initialisation: every thread is ready with base
priority `base t`, no thread runs yet, every semaphore is at 0 with an empty
queue, every lock is as `lock_init` leaves it, every condition variable as
`cond_init` leaves it. -/
def boot (base : Tid → Int) : State :=
  { threads := fun t => fresh_thread (base t)
    running := none
    semas := fun _ => { value := 0, waiters := [] }
    locks := fun _ => { holder := none, semaphore := { value := 1, waiters := [] },
                        is_donated := false }
    conds := fun _ => { waiters := [] }
    waiter := fun _ => { semaphore := { value := 0, waiters := [] } } }

/-- What can happen around one semaphore: the scheduler dispatches a ready
thread, the running thread is preempted, or the running thread executes
`sema_up` or (re-)enters `sema_down`. -/
inductive sema_event where
  | run (t : Tid)
  | preempt
  | up
  | down
  deriving DecidableEq, Repr

/-- A state together with the number of `sema_up` calls and of completed
`sema_down` calls observed so far. -/
structure sema_obs where
  st : State
  ups : Nat
  downs : Nat

/-- Effect of one event on the observed semaphore `sema`. -/
def sema_event_step (sema : sema_ref) (o : sema_obs) : sema_event → Option sema_obs
  | .run t =>
    match schedule o.st t with
    | none => none
    | some st => some { o with st := st }
  | .preempt =>
    match thread_yield o.st with
    | none => none
    | some st => some { o with st := st }
  | .up =>
    match sema_up o.st sema with
    | none => none
    | some st => some { o with st := st, ups := o.ups + 1 }
  | .down =>
    match sema_down o.st sema with
    | none => none
    | some (st, true) => some { o with st := st, downs := o.downs + 1 }
    | some (st, false) => some { o with st := st }

/-- Run a sequence of events; `none` if one of them cannot happen. -/
def sema_run (sema : sema_ref) : sema_obs → List sema_event → Option sema_obs
  | o, [] => some o
  | o, e :: es =>
    match sema_event_step sema o e with
    | none => none
    | some o1 => sema_run sema o1 es

/-- What an observer sees of a semaphore after a run: counter, queue, and the
two operation counts. -/
def sema_view (sema : sema_ref) (o : Option sema_obs) : Option (Nat × List Tid × Nat × Nat) :=
  o.map fun r => ((get_sema r.st sema).value, (get_sema r.st sema).waiters, r.ups, r.downs)

/-- Whether no `sema_up` of a run starts with the counter at `2^32 - 1`, the
one value at which the `unsigned` increment `sema->value++` wraps to 0. -/
def sema_run_no_wrap (sema : sema_ref) : sema_obs → List sema_event → Bool
  | _, [] => true
  | o, e :: es =>
    (decide (e = .up → (get_sema o.st sema).value + 1 < UINT_RANGE)) &&
      match sema_event_step sema o e with
      | none => true
      | some o1 => sema_run_no_wrap sema o1 es

/-- What can happen around the locks when no interrupt falls inside a lock
function: the scheduler dispatches a ready thread, the running thread is
preempted between two calls, or the running thread calls `lock_acquire` (with a
bound on the iterations of its donation loop), continues a `lock_acquire` in
which it was blocked, calls `lock_try_acquire`, or calls `lock_release`.  These
are some of the executions of the code, not all of them: every run of these
events is a run of `stmt_run` (`lock_run_stmt_run`), which has in addition the
executions with a preemption inside a call. -/
inductive lock_event where
  | run (t : Tid)
  | preempt
  | acquire (l : Lid) (fuel : Nat)
  | wake
  | try_acquire (l : Lid)
  | release (l : Lid)
  deriving DecidableEq, Repr

/-- Effect of one event, each call running without interruption to its return
or to the point where the caller blocks.  A thread starts a new call only when
it is not in the middle of a `lock_acquire` (its `waiting_for` is empty); a
thread whose `waiting_for` names a lock is inside `lock_acquire` on that lock
and continues there.  The assertions of the called function are checked by the
function. -/
def lock_event_step (st : State) : lock_event → Option State
  | .run t => schedule st t
  | .preempt => thread_yield st
  | .acquire l fuel =>
    match thread_current st with
    | none => none
    | some cur =>
      match (st.threads cur).waiting_for with
      | some _ => none
      | none => lock_acquire fuel st l
  | .wake =>
    match thread_current st with
    | none => none
    | some cur =>
      match (st.threads cur).waiting_for with
      | none => none
      | some l => lock_acquire_wake st l
  | .try_acquire l =>
    match thread_current st with
    | none => none
    | some cur =>
      match (st.threads cur).waiting_for with
      | some _ => none
      | none =>
        match lock_try_acquire st l with
        | none => none
        | some (st1, _) => some st1
  | .release l =>
    match thread_current st with
    | none => none
    | some cur =>
      match (st.threads cur).waiting_for with
      | some _ => none
      | none => lock_release st l

/-- Run a sequence of lock events; `none` if one of them cannot happen. -/
def lock_run : State → List lock_event → Option State
  | st, [] => some st
  | st, e :: es =>
    match lock_event_step st e with
    | none => none
    | some st1 => lock_run st1 es

/-- What an observer sees of a thread: status, effective priority, the
recorded priorities below the running size, the donation count and the lock it
waits for. -/
def thread_view (st : State) (t : Tid) :
    thread_status × Int × List Int × Int × Option Lid :=
  let th := st.threads t
  (th.status, th.priority, (List.range th.size.toNat).map th.priorities, th.donation_no,
    th.waiting_for)

/-- A queue is in wake-up order when no entry has a lower priority than one
behind it. -/
def descending (st : State) (l : List Tid) : Prop :=
  l.Pairwise (fun a b => (st.threads b).priority ≤ (st.threads a).priority)

/-- Example state: thread 0 (base 0) holds lock 0; thread 1 (base 10) holds
lock 1 and then blocks on lock 0; thread 2 (base 20) blocks on lock 0, ahead of
thread 1 in the queue; thread 3 (base 30) then blocks on lock 1, which raises
thread 1 to 30 while it is queued; thread 0 runs again. -/
def resort_example : State :=
  (lock_run (boot fun t => 10 * (t : Int))
    [.run 0, .acquire 0 1, .preempt, .run 1, .acquire 1 1, .acquire 0 1, .run 2, .acquire 0 1,
     .run 3, .acquire 1 2, .run 0]).getD (boot fun _ => 0)

/-- The lock invariant: the lock is free with its semaphore at 1, or held with
its semaphore at 0. -/
def lock_ok (lk : lock) : Prop :=
  (lk.holder = none ∧ lk.semaphore.value = 1) ∨ (lk.holder ≠ none ∧ lk.semaphore.value = 0)

/-- Example state: threads 1, 2, 3 (base priorities 10, 20, 30) queue up in
this order on lock 0 held by thread 0 (base 0); thread 0 releases it and
thread 3, once woken, completes its `lock_acquire`. -/
def queue_example : State :=
  (lock_run (boot fun t => 10 * (t : Int))
    [.run 0, .acquire 0 1, .preempt, .run 1, .acquire 0 1, .run 2, .acquire 0 1,
     .run 3, .acquire 0 1, .run 0, .release 0, .run 3, .wake]).getD (boot fun _ => 0)

/-- Example state: thread 0 (base priority 1) holds lock 0 and is ready;
thread 1 (base priority 5) is running. -/
def donation_example : State :=
  (lock_run (boot fun t => if t = 0 then 1 else 5)
    [.run 0, .acquire 0 1, .preempt, .run 1]).getD (boot fun _ => 0)

/-- Example state: thread 0 (base 1) holds lock 1; thread 1 (base 5) holds
lock 2 and is blocked on lock 1; thread 3 (base 10) is running. -/
def chain_example : State :=
  (lock_run (boot fun t => if t = 0 then 1 else if t = 1 then 5 else 10)
    [.run 0, .acquire 1 1, .preempt, .run 1, .acquire 2 1, .acquire 1 1, .run 3]).getD
    (boot fun _ => 0)

/-- Priority of the thread at the front of an entry's wait queue, the key that
`compare_sema` compares (0 stands in for an entry without a queued thread,
where `compare_sema` has no value). -/
def entry_priority (st : State) (w : Tid) : Int :=
  match (st.waiter w).semaphore.waiters with
  | f :: _ => (st.threads f).priority
  | [] => 0

/-- The state seen through the entries of a condition variable: the record
shown for index `w` carries the priority of entry `w`, so that the ordering of
entries by `compare_sema` reads as the ordering of threads by
`compare_priority`. -/
def entry_view (st : State) : State :=
  { st with threads := fun w => { st.threads w with priority := entry_priority st w } }

/-- Embedding of `cond_wait` up to the yield inside `lock_release`: the
assertions, `sema_init` of the caller's `semaphore_elem`, its insertion into
the waiter queue, and `lock_release`.  The insertion calls
`list_insert_ordered` with `compare_priority`, the comparator of threads, on
list elements that sit in `semaphore_elem`s; what it reads there is a matter
of memory layout, so the resulting position `pos` in the queue is a parameter
(positions past the end mean the end). -/
def cond_wait_enter (st : State) (c : Nat) (l : Lid) (pos : Nat) : Option State :=
  match lock_held_by_current_thread st l with
  | none => none
  | some false => none
  | some true =>
    match thread_current st with
    | none => none
    | some cur =>
      let st1 := sema_init st (.of_waiter cur) 0
      let ws := (st1.conds c).waiters
      let st2 := set_cond st1 c { st1.conds c with waiters := ws.take pos ++ cur :: ws.drop pos }
      lock_release st2 l

/-- Embedding of the rest of `cond_wait`, from `sema_down` on the caller's
private semaphore on: a caller that blocks there runs this same code again
when it is woken; once `sema_down` returns, `lock_acquire` is entered. -/
def cond_wait_resume (fuel : Nat) (st : State) (l : Lid) : Option State :=
  match thread_current st with
  | none => none
  | some cur =>
    match sema_down st (.of_waiter cur) with
    | none => none
    | some (st1, false) => some st1
    | some (st1, true) => lock_acquire fuel st1 l

/-- What can happen around a monitor: a lock event, the entry of `cond_wait`
(with the queue position its insertion yields), the continuation of a
`cond_wait` at its `sema_down` (by a thread that has entered `cond_wait` on
lock `l` and not yet passed that `sema_down`), or `cond_signal`. -/
inductive monitor_event where
  | lock (e : lock_event)
  | wait (c : Nat) (l : Lid) (pos : Nat)
  | wait_resume (l : Lid) (fuel : Nat)
  | signal (c : Nat) (l : Lid)
  deriving DecidableEq, Repr

/-- Effect of one monitor event. -/
def monitor_step (st : State) : monitor_event → Option State
  | .lock e => lock_event_step st e
  | .wait c l pos => cond_wait_enter st c l pos
  | .wait_resume l fuel => cond_wait_resume fuel st l
  | .signal c l => cond_signal st c l

/-- Run a sequence of monitor events; `none` if one of them cannot happen. -/
def monitor_run : State → List monitor_event → Option State
  | st, [] => some st
  | st, e :: es =>
    match monitor_step st e with
    | none => none
    | some st1 => monitor_run st1 es

/-- Example state: threads 1, 2, 3 (base priorities 10, 20, 30) have each
taken lock 0, called `cond_wait` on condition variable 0 and blocked on their
private semaphore; thread 0 (base 0) then takes lock 0 and is running. -/
def monitor_example : State :=
  (monitor_run (boot fun t => 10 * (t : Int))
    [.lock (.run 1), .lock (.acquire 0 1), .wait 0 0 0, .lock (.run 1), .wait_resume 0 1,
     .lock (.run 2), .lock (.acquire 0 1), .wait 0 0 1, .lock (.run 2), .wait_resume 0 1,
     .lock (.run 3), .lock (.acquire 0 1), .wait 0 0 1, .lock (.run 3), .wait_resume 0 1,
     .lock (.run 0), .lock (.acquire 0 1)]).getD (boot fun _ => 0)

/-- How the holder of a lock can differ after a step: not at all, cleared, or
set to the thread that ran the step and is still running after it. -/
def holder_change (st st1 : State) (l : Lid) : Prop :=
  (st1.locks l).holder = (st.locks l).holder ∨ (st1.locks l).holder = none ∨
    ∃ t, st.running = some t ∧ st1.running = some t ∧ (st1.locks l).holder = some t

/-- Example state: thread 1 (base 10) has called `cond_wait` on condition
variable 0 with lock 0 and blocked; thread 0 has taken the lock, signalled and
released it; thread 1 is dispatched again, still inside `cond_wait`. -/
def wait_example : State :=
  (monitor_run (boot fun t => 10 * (t : Int))
    [.lock (.run 1), .lock (.acquire 0 1), .wait 0 0 0, .lock (.run 1), .wait_resume 0 1,
     .lock (.run 0), .lock (.acquire 0 1), .signal 0 0, .lock (.run 0), .lock (.release 0),
     .lock (.run 1)]).getD (boot fun _ => 0)

/-- Example state: thread 0 (base priority 10) holds lock 1 and is blocked in
`cond_wait` on condition variable 0 (monitor lock 0); thread 1 (base 1) holds
lock 2 and is blocked on lock 1, which it entered without donating; thread 2
(base 5) is running. -/
def lowering_example : State :=
  (monitor_run (boot fun t => if t = 0 then 10 else if t = 1 then 1 else 5)
    [.lock (.run 0), .lock (.acquire 1 1), .lock (.acquire 0 1), .wait 0 0 0, .lock (.run 0),
     .wait_resume 0 1, .lock (.run 1), .lock (.acquire 2 1), .lock (.acquire 1 1),
     .lock (.run 2)]).getD (boot fun _ => 0)

/-- Example state: thread 0 (base 5) has released lock 1, on which thread 2
(base 20, now woken) and thread 1 (base 10, still queued and blocked) were
waiting; thread 1 holds lock 2; lock 1 has no holder until thread 2 runs;
thread 3 (base 20) is running. -/
def orphan_example : State :=
  (lock_run (boot fun t => if t = 0 then 5 else if t = 1 then 10 else 20)
    [.run 0, .acquire 1 1, .preempt, .run 1, .acquire 2 1, .acquire 1 1, .run 2, .acquire 1 1,
     .run 0, .release 1, .run 3]).getD (boot fun _ => 0)

/-- Example state: thread 0 (base 5) holds lock 1 and is blocked in
`cond_wait` on condition variable 0 (monitor lock 0); thread 1 (base 1) holds
lock 2 and is blocked on lock 1, which it entered without donating; thread 2
(base 10) is running. -/
def relay_example : State :=
  (monitor_run (boot fun t => if t = 0 then 5 else if t = 1 then 1 else 10)
    [.lock (.run 0), .lock (.acquire 1 1), .lock (.acquire 0 1), .wait 0 0 0, .lock (.run 0),
     .wait_resume 0 1, .lock (.run 1), .lock (.acquire 2 1), .lock (.acquire 1 1),
     .lock (.run 2)]).getD (boot fun _ => 0)

/-- Example state: thread 0 (base priority 10) holds lock 0 and is ready;
thread 1 (base priority 1) is running. -/
def contended_example : State :=
  (lock_run (boot fun t => if t = 0 then 10 else 1)
    [.run 0, .acquire 0 1, .preempt, .run 1]).getD (boot fun _ => 0)

/-- Indicator of a donated lock in a thread's hands: 1 when thread `t` is the
holder of lock `l` and the lock's donated flag is set, else 0. -/
def donated_to (st : State) (t : Tid) (l : Lid) : Int :=
  if (st.locks l).holder = some t ∧ (st.locks l).is_donated = true then 1 else 0

/-- Number of locks with index below `n` that thread `t` holds with the
donated flag set. -/
def donated_held (st : State) (t : Tid) : Nat → Int
  | 0 => 0
  | n + 1 => donated_held st t n + donated_to st t n

/-- Bookkeeping of one lock between operations: the lock invariant, a free
lock is not marked donated, and a lock marked donated has a waiter. -/
def donation_ok (st : State) (l : Lid) : Prop :=
  lock_ok (st.locks l) ∧
  ((st.locks l).holder = none → (st.locks l).is_donated = false) ∧
  ((st.locks l).is_donated = true → (st.locks l).semaphore.waiters ≠ [])

/-- Effect of one operation that works on lock `l0`: the other locks are
untouched, every thread's donation count moves with its indicator for `l0`,
and the bookkeeping of `l0` holds afterwards. -/
def donation_step (st st1 : State) (l0 : Lid) : Prop :=
  (∀ l, l ≠ l0 → st1.locks l = st.locks l) ∧
  (∀ t, (st1.threads t).donation_no - (st.threads t).donation_no
      = donated_to st1 t l0 - donated_to st t l0) ∧
  donation_ok st1 l0

/-- One more than the lock an event names; 0 for an event that names none. -/
def event_bound : lock_event → Nat
  | .acquire l _ => l + 1
  | .try_acquire l => l + 1
  | .release l => l + 1
  | _ => 0

/-- A bound above every lock named in a sequence of events. -/
def lock_bound : List lock_event → Nat
  | [] => 0
  | e :: es => max (event_bound e) (lock_bound es)

/-- The bookkeeping of a state in which only locks below `B` are in use: every
lock is in order, the locks from `B` on are free and no thread waits for one,
and every thread's donation count is the number of donated locks it holds. -/
def donation_inv (B : Nat) (st : State) : Prop :=
  (∀ l, donation_ok st l) ∧ (∀ l, B ≤ l → (st.locks l).holder = none) ∧
  (∀ t l, (st.threads t).waiting_for = some l → l < B) ∧
  (∀ t, (st.threads t).donation_no = donated_held st t B)

/-- Example state: thread 1 (base 10) waits on condition variable 0, blocked
on its private semaphore; thread 2 (base 20) took lock 0, thread 3 (base 30)
blocked on lock 0, and thread 2 then called `cond_wait`, which queued its entry
and released the lock: the `sema_up` inside `lock_release` woke thread 3 and
yielded, so thread 2 has not yet reached `sema_down` on its private semaphore;
thread 3 has completed its `lock_acquire` and is running. -/
def early_signal_example : State :=
  (monitor_run (boot fun t => 10 * (t : Int))
    [.lock (.run 1), .lock (.acquire 0 1), .wait 0 0 0, .lock (.run 1), .wait_resume 0 1,
     .lock (.run 2), .lock (.acquire 0 1), .lock .preempt, .lock (.run 3),
     .lock (.acquire 0 1), .lock (.run 2), .wait 0 0 1, .lock (.run 3),
     .lock .wake]).getD (boot fun _ => 0)

/-- The holders on the chain of blocking locks from `temp`, in the order the
donation loop meets them: the holder of the lock `temp` waits for, then, unless
that holder is ready, the holders on the chain from it.  `none` when a lock on
the chain has no holder or the chain has more than `n` links. -/
def chain_holders : Nat → State → Tid → Option (List Tid)
  | 0, st, temp =>
    match (st.threads temp).waiting_for with
    | none => some []
    | some _ => none
  | n + 1, st, temp =>
    match (st.threads temp).waiting_for with
    | none => some []
    | some cur_lock =>
      match (st.locks cur_lock).holder with
      | none => none
      | some h =>
        if (st.threads h).status = .THREAD_READY then some [h]
        else
          match chain_holders n st h with
          | none => none
          | some hs => some (h :: hs)

/-! ## Statement-level execution of the lock functions

`lock_acquire`, `lock_try_acquire` and `lock_release` run with interrupts on;
only the bodies of `sema_down`, `sema_try_down` and `sema_up` are masked.  A
timer interrupt can therefore hand the processor to another thread between any
two statements of a lock function.  Here every statement of the three functions
is one step, named by its line in `synch.c`, and a preemption or a dispatch can
fall between any two steps. -/

/-- Where a thread stands in a call of a lock function: the line of the
statement it executes next, with the argument `lock` and the locals that are
live there (`temp`, `cur_lock`, `elem`).  `cur_lock` is a pointer read from
`temp->waiting_for` and may be null right after line 207. -/
inductive lock_pc where
  | idle
  | acq_198 (l : Lid)
  | acq_200 (l : Lid)
  | acq_202 (l : Lid)
  | acq_203 (l : Lid)
  | acq_205 (l : Lid) (temp : Tid)
  | acq_207 (l : Lid) (temp : Tid)
  | acq_208 (l : Lid) (temp : Tid) (cur_lock : Option Lid)
  | acq_209 (l : Lid) (temp : Tid) (cur_lock : Lid)
  | acq_210 (l : Lid) (temp : Tid) (cur_lock : Lid)
  | acq_211 (l : Lid) (temp : Tid) (cur_lock : Lid)
  | acq_213 (l : Lid) (temp : Tid) (cur_lock : Lid)
  | acq_215 (l : Lid)
  | acq_216 (l : Lid)
  | acq_217 (l : Lid)
  | acq_218 (l : Lid)
  | acq_221 (l : Lid)
  | acq_222 (l : Lid)
  | acq_223 (l : Lid)
  | try_238 (l : Lid)
  | try_240 (l : Lid)
  | try_242 (l : Lid)
  | rel_254 (l : Lid)
  | rel_257 (l : Lid)
  | rel_259 (l : Lid)
  | rel_261 (l : Lid)
  | rel_262 (l : Lid)
  | rel_263 (l : Lid) (elem : Int)
  | rel_264 (l : Lid)
  | rel_265 (l : Lid)
  | rel_267 (l : Lid)
  | rel_269 (l : Lid)
  | rel_270 (l : Lid)
  | rel_272 (l : Lid)
  | rel_273 (l : Lid)
  deriving DecidableEq, Repr

/-- The statements of `lock_acquire` before `sema_down`, lines 198 to 218, one
statement per step, executed by thread `cur`: the new state and the line to
execute next.  `none` is a failed `ASSERT`, a read through a null pointer
(`lock->holder`, `cur_lock`, `cur_lock->holder`) or an array write at a negative
index.  Line 204 sets the local `temp` and is taken together with the test of
line 203. -/
def lock_acquire_stmt (st : State) (cur : Tid) : lock_pc → Option (State × lock_pc)
  | .acq_198 l =>
    if (st.locks l).holder = some cur then none else some (st, .acq_200 l)
  | .acq_200 l =>
    match (st.locks l).holder with
    | none => some (st, .acq_221 l)
    | some _ => some (st, .acq_202 l)
  | .acq_202 l =>
    some (set_thread st cur { st.threads cur with waiting_for := some l }, .acq_203 l)
  | .acq_203 l =>
    match (st.locks l).holder with
    | none => none
    | some h =>
      if (st.threads h).priority < (st.threads cur).priority then some (st, .acq_205 l cur)
      else some (st, .acq_221 l)
  | .acq_205 l temp =>
    match (st.threads temp).waiting_for with
    | none => some (st, .acq_215 l)
    | some _ => some (st, .acq_207 l temp)
  | .acq_207 l temp => some (st, .acq_208 l temp (st.threads temp).waiting_for)
  | .acq_208 _ _ none => none
  | .acq_208 l temp (some cur_lock) =>
    match (st.locks cur_lock).holder with
    | none => none
    | some h =>
      if (st.threads h).size < 0 then none
      else
        some (set_thread st h
          { st.threads h with
            priorities := Function.update (st.threads h).priorities (st.threads h).size.toNat
              (st.threads temp).priority },
          .acq_209 l temp cur_lock)
  | .acq_209 l temp cur_lock =>
    match (st.locks cur_lock).holder with
    | none => none
    | some h =>
      some (set_thread st h { st.threads h with size := (st.threads h).size + 1 },
        .acq_210 l temp cur_lock)
  | .acq_210 l temp cur_lock =>
    match (st.locks cur_lock).holder with
    | none => none
    | some h =>
      some (set_thread st h { st.threads h with priority := (st.threads temp).priority },
        .acq_211 l temp cur_lock)
  | .acq_211 l temp cur_lock =>
    match (st.locks cur_lock).holder with
    | none => none
    | some h =>
      if (st.threads h).status = .THREAD_READY then some (st, .acq_215 l)
      else some (st, .acq_213 l temp cur_lock)
  | .acq_213 l _ cur_lock =>
    match (st.locks cur_lock).holder with
    | none => none
    | some h => some (st, .acq_205 l h)
  | .acq_215 l =>
    if (st.locks l).is_donated then some (st, .acq_217 l) else some (st, .acq_216 l)
  | .acq_216 l =>
    match (st.locks l).holder with
    | none => none
    | some h =>
      some (set_thread st h { st.threads h with donation_no := (st.threads h).donation_no + 1 },
        .acq_217 l)
  | .acq_217 l => some (set_lock st l { st.locks l with is_donated := true }, .acq_218 l)
  | .acq_218 l => some (st, .acq_221 l)
  | _ => none

/-- The statements of `lock_release` before `sema_up`, lines 254 to 272, one
statement per step, executed by thread `cur`.  `none` is a failed `ASSERT`,
`list_front` of an empty list or an array read at a negative index.  Line 256
takes the address of the embedded semaphore and is no step. -/
def lock_release_stmt (st : State) (cur : Tid) : lock_pc → Option (State × lock_pc)
  | .rel_254 l =>
    if (st.locks l).holder = some cur then some (st, .rel_257 l) else none
  | .rel_257 l =>
    some (set_sema st (.of_lock l)
      { (st.locks l).semaphore with
        waiters := list_sort (compare_priority st) (st.locks l).semaphore.waiters },
      .rel_259 l)
  | .rel_259 l =>
    if (st.locks l).is_donated then some (st, .rel_261 l) else some (st, .rel_267 l)
  | .rel_261 l =>
    some (set_thread st cur { st.threads cur with donation_no := (st.threads cur).donation_no - 1 },
      .rel_262 l)
  | .rel_262 l =>
    match (st.locks l).semaphore.waiters with
    | [] => none
    | front :: _ => some (st, .rel_263 l (st.threads front).priority)
  | .rel_263 l elem => some (set_thread st cur (search_array (st.threads cur) elem), .rel_264 l)
  | .rel_264 l =>
    if (st.threads cur).size - 1 < 0 then none
    else
      some (set_thread st cur
        { st.threads cur with
          priority := (st.threads cur).priorities ((st.threads cur).size - 1).toNat },
        .rel_265 l)
  | .rel_265 l => some (set_lock st l { st.locks l with is_donated := false }, .rel_267 l)
  | .rel_267 l =>
    if (st.threads cur).donation_no = 0 then some (st, .rel_269 l) else some (st, .rel_272 l)
  | .rel_269 l => some (set_thread st cur { st.threads cur with size := 1 }, .rel_270 l)
  | .rel_270 l =>
    some (set_thread st cur { st.threads cur with priority := (st.threads cur).priorities 0 },
      .rel_272 l)
  | .rel_272 l => some (set_lock st l { st.locks l with holder := none }, .rel_273 l)
  | _ => none

/-- One statement of a lock function, executed by thread `cur` standing at the
given line.  Lines 221, 240 and 273 are the calls of `sema_down`,
`sema_try_down` and `sema_up`, which run masked: a caller that blocks inside
`sema_down` stays at line 221 and re-executes the loop test there when it is
woken.  Line 223 writes through `lock->holder`.  At `idle` the thread is in no
lock function and has no statement to execute. -/
def lock_stmt (st : State) (cur : Tid) : lock_pc → Option (State × lock_pc)
  | .idle => none
  | .acq_221 l =>
    match sema_down st (.of_lock l) with
    | none => none
    | some (st1, true) => some (st1, .acq_222 l)
    | some (st1, false) => some (st1, .acq_221 l)
  | .acq_222 l => some (set_lock st l { st.locks l with holder := some cur }, .acq_223 l)
  | .acq_223 l =>
    match (st.locks l).holder with
    | none => none
    | some h => some (set_thread st h { st.threads h with waiting_for := none }, .idle)
  | .try_238 l =>
    if (st.locks l).holder = some cur then none else some (st, .try_240 l)
  | .try_240 l =>
    match sema_try_down st (.of_lock l) with
    | (st1, true) => some (st1, .try_242 l)
    | (st1, false) => some (st1, .idle)
  | .try_242 l => some (set_lock st l { st.locks l with holder := some cur }, .idle)
  | .rel_273 l =>
    match sema_up st (.of_lock l) with
    | none => none
    | some st1 => some (st1, .idle)
  | .rel_254 l => lock_release_stmt st cur (.rel_254 l)
  | .rel_257 l => lock_release_stmt st cur (.rel_257 l)
  | .rel_259 l => lock_release_stmt st cur (.rel_259 l)
  | .rel_261 l => lock_release_stmt st cur (.rel_261 l)
  | .rel_262 l => lock_release_stmt st cur (.rel_262 l)
  | .rel_263 l elem => lock_release_stmt st cur (.rel_263 l elem)
  | .rel_264 l => lock_release_stmt st cur (.rel_264 l)
  | .rel_265 l => lock_release_stmt st cur (.rel_265 l)
  | .rel_267 l => lock_release_stmt st cur (.rel_267 l)
  | .rel_269 l => lock_release_stmt st cur (.rel_269 l)
  | .rel_270 l => lock_release_stmt st cur (.rel_270 l)
  | .rel_272 l => lock_release_stmt st cur (.rel_272 l)
  | p => lock_acquire_stmt st cur p

/-- The kernel state together with the line at which every thread stands. -/
structure machine where
  st : State
  pc : Tid → lock_pc

/-- What can happen at statement level: the scheduler dispatches a ready
thread, a timer interrupt preempts the running thread, the running thread
calls one of the three lock functions (it must be in none), or it executes the
statement it stands at. -/
inductive stmt_event where
  | run (t : Tid)
  | preempt
  | acquire (l : Lid)
  | try_acquire (l : Lid)
  | release (l : Lid)
  | step
  deriving DecidableEq, Repr

/-- The running thread enters a lock function at line `entry`. -/
def lock_call (m : machine) (entry : lock_pc) : Option machine :=
  match thread_current m.st with
  | none => none
  | some cur =>
    if m.pc cur = .idle then some { m with pc := Function.update m.pc cur entry } else none

/-- Effect of one statement-level event. -/
def stmt_event_step (m : machine) : stmt_event → Option machine
  | .run t =>
    match schedule m.st t with
    | none => none
    | some st1 => some { m with st := st1 }
  | .preempt =>
    match thread_yield m.st with
    | none => none
    | some st1 => some { m with st := st1 }
  | .acquire l => lock_call m (.acq_198 l)
  | .try_acquire l => lock_call m (.try_238 l)
  | .release l => lock_call m (.rel_254 l)
  | .step =>
    match thread_current m.st with
    | none => none
    | some cur =>
      match lock_stmt m.st cur (m.pc cur) with
      | none => none
      | some (st1, p) => some { st := st1, pc := Function.update m.pc cur p }

/-- Run a sequence of statement-level events; `none` if one of them cannot
happen. -/
def stmt_run : machine → List stmt_event → Option machine
  | m, [] => some m
  | m, e :: es =>
    match stmt_event_step m e with
    | none => none
    | some m1 => stmt_run m1 es

/-- The machine right after initialisation: the state `boot base`, every
thread outside the lock functions. -/
def boot_machine (base : Tid → Int) : machine :=
  { st := boot base, pc := fun _ => .idle }

/-- Example machine: thread 0 (base 1) holds lock 0; thread 1 (base 5) has
called `lock_acquire` on lock 0, has donated and set the donated flag (lines
198 to 218), and is preempted before `sema_down` (line 221); thread 0, now at
priority 5 as well, is dispatched. -/
def unqueued_example : machine :=
  (stmt_run (boot_machine fun t => if t = 0 then 1 else 5)
    [.run 0, .acquire 0, .step, .step, .step, .step, .step, .preempt, .run 1, .acquire 0,
     .step, .step, .step, .step, .step, .step, .step, .step, .step, .step, .step, .step,
     .step, .step, .preempt, .run 0]).getD (boot_machine fun _ => 0)

/-- Example machine: thread 0 (base 1) holds lock 0; thread 1 (base 5) calls
`lock_acquire` on lock 0 and is preempted after the increment of the holder's
donation count (line 216), before the setting of the donated flag (line 217);
thread 0 runs `lock_release` on lock 0 to its end; thread 1 then runs its
`lock_acquire` to its end. -/
def miscount_example : machine :=
  (stmt_run (boot_machine fun t => if t = 0 then 1 else 5)
    [.run 0, .acquire 0, .step, .step, .step, .step, .step, .preempt, .run 1, .acquire 0,
     .step, .step, .step, .step, .step, .step, .step, .step, .step, .step, .step, .step,
     .preempt, .run 0, .release 0, .step, .step, .step, .step, .step, .step,
     .run 1, .step, .step, .step, .step, .step]).getD (boot_machine fun _ => 0)

/-- Where a thread stands between two calls that run without interruption: in
no lock function, or, when its `waiting_for` names a lock, inside `lock_acquire`
on that lock at the call of `sema_down` (line 221). -/
def call_pc (st : State) (t : Tid) : lock_pc :=
  match (st.threads t).waiting_for with
  | none => .idle
  | some l => .acq_221 l

/-- The machine that a state reached by uninterrupted calls stands for. -/
def call_machine (st : State) : machine :=
  { st := st, pc := call_pc st }

/-- Thread `cur` executes `n` statements in a row. -/
def stmt_steps (cur : Tid) : Nat → State → lock_pc → Option (State × lock_pc)
  | 0, st, p => some (st, p)
  | n + 1, st, p =>
    if st.running = some cur then
      match lock_stmt st cur p with
      | none => none
      | some (st1, p1) => stmt_steps cur n st1 p1
    else none

/-! # Theorems -/

/-! ## Semaphore counter -/

@[simp] theorem get_sema_set_sema (st : State) (r : sema_ref) (s : semaphore) :
    get_sema (set_sema st r s) r = s := by
  cases r <;> simp [get_sema, set_sema, set_lock]

@[simp] theorem get_sema_set_thread (st : State) (t : Tid) (th : thread) (r : sema_ref) :
    get_sema (set_thread st t th) r = get_sema st r := by
  cases r <;> rfl

@[simp] theorem threads_set_sema (st : State) (r : sema_ref) (s : semaphore) :
    (set_sema st r s).threads = st.threads := by
  cases r <;> rfl

@[simp] theorem running_set_sema (st : State) (r : sema_ref) (s : semaphore) :
    (set_sema st r s).running = st.running := by
  cases r <;> rfl

@[simp] theorem running_set_thread (st : State) (t : Tid) (th : thread) :
    (set_thread st t th).running = st.running := rfl

@[simp] theorem threads_set_thread (st : State) (t : Tid) (th : thread) :
    (set_thread st t th).threads = Function.update st.threads t th := rfl

theorem get_sema_thread_yield {st st1 : State} (r : sema_ref)
    (h : thread_yield st = some st1) : get_sema st1 r = get_sema st r := by
  unfold thread_yield thread_current at h
  cases hr : st.running with
  | none => simp [hr] at h
  | some cur =>
    simp only [hr, Option.some.injEq] at h
    subst h
    cases r <;> rfl

theorem get_sema_thread_block {st st1 : State} (r : sema_ref)
    (h : thread_block st = some st1) : get_sema st1 r = get_sema st r := by
  unfold thread_block thread_current at h
  cases hr : st.running with
  | none => simp [hr] at h
  | some cur =>
    simp only [hr, Option.some.injEq] at h
    subst h
    cases r <;> rfl

theorem get_sema_schedule {st st1 : State} (t : Tid) (r : sema_ref)
    (h : schedule st t = some st1) : get_sema st1 r = get_sema st r := by
  unfold schedule at h
  cases hr : st.running with
  | some cur => simp [hr] at h
  | none =>
    simp only [hr] at h
    split at h
    · simp only [Option.some.injEq] at h
      subst h
      cases r <;> rfl
    · simp at h

theorem sema_up_value {st st1 : State} {sema : sema_ref} (h : sema_up st sema = some st1) :
    (get_sema st1 sema).value = ((get_sema st sema).value + 1) % UINT_RANGE := by
  unfold sema_up at h
  rw [get_sema_thread_yield sema h]
  cases hs : list_sort (compare_priority st) (get_sema st sema).waiters with
  | nil => simp
  | cons front rest => simp [thread_unblock]

theorem sema_down_value {st st1 : State} {sema : sema_ref} {done : Bool}
    (h : sema_down st sema = some (st1, done)) :
    (get_sema st1 sema).value + (if done then 1 else 0) = (get_sema st sema).value := by
  unfold sema_down at h
  cases hr : thread_current st with
  | none => simp [hr] at h
  | some cur =>
    simp only [hr] at h
    by_cases hz : (get_sema st sema).value = 0
    · simp only [hz, if_true] at h
      split at h
      · simp at h
      · rename_i st2 hb
        simp only [Option.some.injEq, Prod.mk.injEq] at h
        obtain ⟨h1, h2⟩ := h
        subst h1 h2
        rw [get_sema_thread_block sema hb]
        simp [hz]
    · simp only [hz, if_false, Option.some.injEq, Prod.mk.injEq] at h
      obtain ⟨h1, h2⟩ := h
      subst h1 h2
      simp
      omega

theorem thread_yield_some {st : State} {cur : Tid} (h : st.running = some cur) :
    ∃ st1, thread_yield st = some st1 := by
  simp [thread_yield, thread_current, h]

theorem sema_up_some {st : State} {cur : Tid} (sema : sema_ref) (h : st.running = some cur) :
    ∃ st1, sema_up st sema = some st1 := by
  unfold sema_up
  dsimp only
  apply @thread_yield_some _ cur
  rw [running_set_sema]
  split
  · exact h
  · simp [thread_unblock, h]

theorem sema_event_step_invariant {sema : sema_ref} {v : Nat} {o o1 : sema_obs}
    {e : sema_event} (h : sema_event_step sema o e = some o1)
    (hinv : (get_sema o.st sema).value + o.downs = v + o.ups)
    (hb : e = .up → (get_sema o.st sema).value + 1 < UINT_RANGE) :
    (get_sema o1.st sema).value + o1.downs = v + o1.ups := by
  cases e with
  | run t =>
    simp only [sema_event_step] at h
    split at h
    · simp at h
    · rename_i st2 h2
      simp only [Option.some.injEq] at h
      subst h
      simpa [get_sema_schedule t sema h2] using hinv
  | preempt =>
    simp only [sema_event_step] at h
    split at h
    · simp at h
    · rename_i st2 h2
      simp only [Option.some.injEq] at h
      subst h
      simpa [get_sema_thread_yield sema h2] using hinv
  | up =>
    simp only [sema_event_step] at h
    split at h
    · simp at h
    · rename_i st2 h2
      simp only [Option.some.injEq] at h
      subst h
      have hval := sema_up_value h2
      simp only
      rw [hval, Nat.mod_eq_of_lt (hb rfl)]
      omega
  | down =>
    simp only [sema_event_step] at h
    split at h
    · simp at h
    · rename_i st2 h2
      simp only [Option.some.injEq] at h
      subst h
      have hval := sema_down_value h2
      simp only [if_true] at hval
      simp only
      omega
    · rename_i st2 h2
      simp only [Option.some.injEq] at h
      subst h
      have hval := sema_down_value h2
      simp only at hval ⊢
      simp at hval
      omega

theorem sema_run_invariant {sema : sema_ref} {v : Nat} (evs : List sema_event) :
    ∀ {o o1 : sema_obs}, sema_run sema o evs = some o1 →
      (get_sema o.st sema).value + o.downs = v + o.ups →
      sema_run_no_wrap sema o evs = true →
      (get_sema o1.st sema).value + o1.downs = v + o1.ups := by
  induction evs with
  | nil =>
    intro o o1 h hinv _
    simp only [sema_run, Option.some.injEq] at h
    subst h
    exact hinv
  | cons e es ih =>
    intro o o1 h hinv hnw
    simp only [sema_run] at h
    split at h
    · simp at h
    · rename_i o2 h2
      simp only [sema_run_no_wrap, h2, Bool.and_eq_true, decide_eq_true_eq] at hnw
      exact ih h (sema_event_step_invariant h2 hinv hnw.1) hnw.2

/-- C1 (amended): for a semaphore initialised by `sema_init` to `v` and every
finite sequence of `sema_up` calls and `sema_down` entries interleaved with
scheduling in which no `sema_up` starts with the counter at `2^32 - 1`, the
counter is never negative and equals `v + #ups - #completed downs`; `sema_up`
succeeds for a running caller and increments a counter below `2^32 - 1` by
exactly one whether or not a waiter was queued; in the ping-pong scenario
(counter 0, X blocks in `sema_down`, Y calls `sema_up`, X completes) X is
queued, then the counter is 1 with X dequeued, and the counter ends at 0. -/
theorem sema_counter_invariant (st0 : State) (sema : sema_ref) (v : Nat)
    (evs : List sema_event) (o : sema_obs)
    (hv : v < UINT_RANGE)
    (hrun : sema_run sema ⟨sema_init st0 sema v, 0, 0⟩ evs = some o)
    (hnw : sema_run_no_wrap sema ⟨sema_init st0 sema v, 0, 0⟩ evs = true) :
    (0 : Int) ≤ (get_sema o.st sema).value ∧
    ((get_sema o.st sema).value : Int) = v + o.ups - o.downs ∧
    (∀ cur, o.st.running = some cur → ∃ st1, sema_up o.st sema = some st1 ∧
      ((get_sema o.st sema).value + 1 < UINT_RANGE →
        (get_sema st1 sema).value = (get_sema o.st sema).value + 1)) ∧
    sema_view (.plain 0) (sema_run (.plain 0)
      ⟨sema_init (boot fun _ => 31) (.plain 0) 0, 0, 0⟩ [.run 0, .down])
      = some (0, [0], 0, 0) ∧
    sema_view (.plain 0) (sema_run (.plain 0)
      ⟨sema_init (boot fun _ => 31) (.plain 0) 0, 0, 0⟩ [.run 0, .down, .run 1, .up])
      = some (1, [], 1, 0) ∧
    sema_view (.plain 0) (sema_run (.plain 0)
      ⟨sema_init (boot fun _ => 31) (.plain 0) 0, 0, 0⟩
      [.run 0, .down, .run 1, .up, .run 0, .down])
      = some (0, [], 1, 1) := by
  have hinv : (get_sema o.st sema).value + o.downs = v + o.ups := by
    refine sema_run_invariant evs hrun ?_ hnw
    simp [sema_init, Nat.mod_eq_of_lt hv]
  refine ⟨Int.natCast_nonneg _, by omega, ?_, by decide, by decide, by decide⟩
  intro cur hcur
  obtain ⟨st1, h1⟩ := sema_up_some sema hcur
  refine ⟨st1, h1, fun hlt => ?_⟩
  rw [sema_up_value h1, Nat.mod_eq_of_lt hlt]

/-- Witness for C1: a semaphore initialised to `2^32 - 1` is taken down and
then upped; the `sema_up` starts at `2^32 - 2`, and the counter is back at
`2^32 - 1 = v + 1 - 1`. -/
theorem sema_counter_invariant_witness :
    ∃ o, sema_run (.plain 0) ⟨sema_init (boot fun _ => 31) (.plain 0) 4294967295, 0, 0⟩
        [.run 0, .down, .up] = some o ∧
      o.ups = 1 ∧ o.downs = 1 ∧ (get_sema o.st (.plain 0)).value = 4294967295 ∧
      ((get_sema o.st (.plain 0)).value : Int) = (4294967295 : Nat) + o.ups - o.downs :=
  ⟨_, rfl, by decide, by decide, by decide,
    (sema_counter_invariant (boot fun _ => 31) (.plain 0) 4294967295
      [.run 0, .down, .up] _ (by decide) rfl (by decide)).2.1⟩

/-- C1 as stated fails: a semaphore initialised to `2^32 - 1` has counter 0
after one `sema_up`, not `v + 1`. -/
theorem sema_counter_wraps_at_uint_max :
    ∃ o, sema_run (.plain 0) ⟨sema_init (boot fun _ => 31) (.plain 0) 4294967295, 0, 0⟩
        [.run 0, .up] = some o ∧
      o.ups = 1 ∧ o.downs = 0 ∧ (get_sema o.st (.plain 0)).value = 0 ∧
      ((get_sema o.st (.plain 0)).value : Int) ≠ (4294967295 : Nat) + o.ups - o.downs :=
  ⟨_, rfl, by decide, by decide, by decide, by decide⟩

/-! ## `sema_try_down` -/

/-- C2: `sema_try_down` returns true exactly when the counter is positive; on
true the counter drops by one and the wait queue is unchanged; on false the
counter is 0 and the whole state is unchanged; in both cases the thread table
and the running thread are unchanged, so no thread is blocked. -/
theorem sema_try_down_spec (st : State) (sema : sema_ref) :
    ((sema_try_down st sema).2 = true ↔ 0 < (get_sema st sema).value) ∧
    ((sema_try_down st sema).2 = true →
      (get_sema (sema_try_down st sema).1 sema).value + 1 = (get_sema st sema).value ∧
      (get_sema (sema_try_down st sema).1 sema).waiters = (get_sema st sema).waiters) ∧
    ((sema_try_down st sema).2 = false →
      (get_sema st sema).value = 0 ∧ (sema_try_down st sema).1 = st) ∧
    (sema_try_down st sema).1.threads = st.threads ∧
    (sema_try_down st sema).1.running = st.running := by
  unfold sema_try_down
  by_cases h : 0 < (get_sema st sema).value
  · simp [h]
    omega
  · simp [h]
    omega

/-- Witness for C2: a semaphore at 2 is taken down to 1, a semaphore at 0 is
left alone. -/
theorem sema_try_down_spec_witness :
    (get_sema (sema_try_down (sema_init (boot fun _ => 31) (.plain 0) 2) (.plain 0)).1
        (.plain 0)).value + 1 = 2 ∧
    sema_try_down (boot fun _ => 31) (.plain 0) = (boot fun _ => 31, false) :=
  ⟨((sema_try_down_spec (sema_init (boot fun _ => 31) (.plain 0) 2) (.plain 0)).2.1
      (by decide)).1,
   Prod.ext ((sema_try_down_spec (boot fun _ => 31) (.plain 0)).2.2.1 (by decide)).2
      (by decide)⟩

/-! ## Wake-up order -/

theorem list_insert_ordered_perm {α : Type} (less : α → α → Bool) (x : α) (l : List α) :
    (list_insert_ordered less x l).Perm (x :: l) := by
  induction l with
  | nil => simp [list_insert_ordered]
  | cons e rest ih =>
    simp only [list_insert_ordered]
    split
    · exact List.Perm.refl _
    · exact ((List.Perm.cons e ih).trans (List.Perm.swap x e rest))

theorem list_sort_fold_perm {α : Type} (less : α → α → Bool) (l : List α) :
    ∀ acc : List α,
      (l.foldl (fun acc x => list_insert_ordered less x acc) acc).Perm (l ++ acc) := by
  induction l with
  | nil => intro acc; simp
  | cons x xs ih =>
    intro acc
    simp only [List.foldl_cons, List.cons_append]
    refine (ih _).trans ?_
    refine (List.Perm.append_left xs (list_insert_ordered_perm less x acc)).trans ?_
    exact List.perm_middle

theorem list_sort_perm {α : Type} (less : α → α → Bool) (l : List α) :
    (list_sort less l).Perm l := by
  simpa [list_sort] using list_sort_fold_perm less l []

theorem list_insert_ordered_descending (st : State) (x : Tid) (l : List Tid)
    (h : descending st l) :
    descending st (list_insert_ordered (compare_priority st) x l) := by
  induction l with
  | nil => simp [list_insert_ordered, descending]
  | cons e rest ih =>
    unfold descending at h ih ⊢
    rw [List.pairwise_cons] at h
    simp only [list_insert_ordered]
    by_cases hc : compare_priority st x e = true
    · simp only [hc, if_true]
      have hlt : (st.threads e).priority < (st.threads x).priority := by
        simpa [compare_priority] using hc
      refine List.Pairwise.cons ?_ (List.Pairwise.cons h.1 h.2)
      intro y hy
      rcases List.mem_cons.1 hy with rfl | hy
      · exact le_of_lt hlt
      · exact le_trans (h.1 y hy) (le_of_lt hlt)
    · simp only [hc]
      have hle : (st.threads x).priority ≤ (st.threads e).priority := by
        simpa [compare_priority] using hc
      refine List.Pairwise.cons ?_ (ih h.2)
      intro y hy
      have hy2 := (list_insert_ordered_perm (compare_priority st) x rest).mem_iff.1 hy
      rcases List.mem_cons.1 hy2 with rfl | hy2
      · exact hle
      · exact h.1 y hy2

theorem list_sort_fold_descending (st : State) (l : List Tid) :
    ∀ acc : List Tid, descending st acc →
      descending st (l.foldl (fun acc x => list_insert_ordered (compare_priority st) x acc) acc) := by
  induction l with
  | nil => intro acc h; simpa using h
  | cons x xs ih =>
    intro acc h
    simp only [List.foldl_cons]
    exact ih _ (list_insert_ordered_descending st x acc h)

theorem list_sort_descending (st : State) (l : List Tid) :
    descending st (list_sort (compare_priority st) l) := by
  unfold list_sort
  exact list_sort_fold_descending st l [] (by simp [descending])

/-- The front of the resorted queue is a queued thread of maximal priority, and
the rest of the resorted queue holds exactly the other queued threads. -/
theorem list_sort_front (st : State) (l : List Tid) (front : Tid) (rest : List Tid)
    (h : list_sort (compare_priority st) l = front :: rest) :
    front ∈ l ∧ (∀ x ∈ l, (st.threads x).priority ≤ (st.threads front).priority) ∧
      (front :: rest).Perm l := by
  have hp := list_sort_perm (compare_priority st) l
  have hd := list_sort_descending st l
  rw [h] at hp hd
  refine ⟨hp.mem_iff.1 (List.mem_cons_self _ _), ?_, hp⟩
  intro x hx
  have hx2 := hp.mem_iff.2 hx
  unfold descending at hd
  rw [List.pairwise_cons] at hd
  rcases List.mem_cons.1 hx2 with rfl | hx2
  · exact le_refl _
  · exact hd.1 x hx2

theorem list_sort_ne_nil {α : Type} (less : α → α → Bool) {l : List α} (h : l ≠ []) :
    list_sort less l ≠ [] := by
  intro hs
  have hp := list_sort_perm less l
  rw [hs] at hp
  exact h (List.Perm.nil_eq hp).symm

theorem sema_up_cons {st : State} {cur : Tid} {sema : sema_ref} {front : Tid} {rest : List Tid}
    (hrun : st.running = some cur)
    (hs : list_sort (compare_priority st) (get_sema st sema).waiters = front :: rest) :
    ∃ st1, sema_up st sema = some st1 ∧
      (get_sema st1 sema).waiters = rest ∧
      (st1.threads front).status = .THREAD_READY ∧
      (∀ t, t ≠ front → t ≠ cur → st1.threads t = st.threads t) := by
  unfold sema_up
  simp only [hs]
  simp only [thread_yield, thread_current, running_set_sema, thread_unblock, running_set_thread,
    hrun]
  refine ⟨_, rfl, ?_, ?_, ?_⟩
  · cases sema <;> simp [get_sema, set_sema, set_lock, set_thread]
  · by_cases hc : front = cur
    · subst hc
      simp [set_thread]
    · simp [set_thread, Function.update_noteq hc]
  · intro t h1 h2
    simp [set_thread, Function.update_noteq h1, Function.update_noteq h2]

theorem find_entry_some {arr : Nat → Int} {e : Int} :
    ∀ (n i j : Nat), find_entry arr e i n = some j → i ≤ j ∧ j < i + n ∧ arr j = e := by
  intro n
  induction n with
  | zero => intro i j h; simp [find_entry] at h
  | succ n ih =>
    intro i j h
    simp only [find_entry] at h
    split at h
    · simp only [Option.some.injEq] at h
      subst h
      rename_i heq
      exact ⟨le_refl _, by omega, heq⟩
    · have := ih (i + 1) j h
      omega

theorem search_array_size_pos (t : thread) (e : Int) (h : 1 ≤ t.size) :
    1 ≤ (search_array t e).size := by
  unfold search_array
  split
  · rename_i i hi
    have := find_entry_some _ _ _ hi
    simp only
    omega
  · exact h

theorem search_array_fields (t : thread) (e : Int) :
    (search_array t e).priorities 0 = t.priorities 0 ∧
    (search_array t e).status = t.status ∧
    (search_array t e).priority = t.priority ∧
    (search_array t e).donation_no = t.donation_no ∧
    (search_array t e).waiting_for = t.waiting_for := by
  unfold search_array
  split
  · rename_i i hi
    have := (find_entry_some _ _ _ hi).1
    simp only [and_self, and_true]
    rw [if_pos (by omega)]
  · simp

theorem drop_donation_spec (t : thread) (e : Int) (h : 1 ≤ t.size) :
    ∃ t1, drop_donation t e = some t1 ∧ t1.priorities 0 = t.priorities 0 ∧
      t1.status = t.status ∧ t1.donation_no = t.donation_no - 1 ∧
      t1.waiting_for = t.waiting_for ∧ 1 ≤ t1.size ∧
      t1.size = (search_array { t with donation_no := t.donation_no - 1 } e).size ∧
      t1.priorities = (search_array { t with donation_no := t.donation_no - 1 } e).priorities ∧
      t1.priority = t1.priorities (t1.size - 1).toNat := by
  have hpos := search_array_size_pos { t with donation_no := t.donation_no - 1 } e h
  obtain ⟨f1, f2, _, f4, f5⟩ := search_array_fields { t with donation_no := t.donation_no - 1 } e
  unfold drop_donation
  simp only
  rw [if_neg (by omega)]
  exact ⟨_, rfl, f1, f2, f4, f5, hpos, rfl, rfl, rfl⟩

theorem reset_donations_spec (t : thread) :
    (reset_donations t).priorities = t.priorities ∧
    (reset_donations t).status = t.status ∧
    (reset_donations t).donation_no = t.donation_no ∧
    (reset_donations t).waiting_for = t.waiting_for ∧
    (1 ≤ t.size → 1 ≤ (reset_donations t).size) ∧
    (t.donation_no = 0 →
      (reset_donations t).priority = t.priorities 0 ∧ (reset_donations t).size = 1) ∧
    (t.donation_no ≠ 0 → reset_donations t = t) := by
  unfold reset_donations
  by_cases h : t.donation_no = 0 <;> simp [h]

/-- What `lock_release` has done to the state when it reaches `sema_up`. -/
theorem lock_release_enter_spec {st : State} {cur : Tid} {l : Lid}
    (hrun : st.running = some cur) (hh : (st.locks l).holder = some cur)
    (hq : (st.locks l).is_donated = true → (st.locks l).semaphore.waiters ≠ [])
    (hsz : 1 ≤ (st.threads cur).size) :
    ∃ st5, lock_release_enter st l = some st5 ∧ st5.running = some cur ∧
      st5.locks l =
        { holder := none
          semaphore :=
            { value := (st.locks l).semaphore.value
              waiters := list_sort (compare_priority st) (st.locks l).semaphore.waiters }
          is_donated := false } ∧
      (∀ l2, l2 ≠ l → st5.locks l2 = st.locks l2) ∧
      (∀ t, t ≠ cur → st5.threads t = st.threads t) ∧
      st5.semas = st.semas ∧ st5.conds = st.conds ∧ st5.waiter = st.waiter ∧
      (st5.threads cur).status = (st.threads cur).status ∧
      (st5.threads cur).waiting_for = (st.threads cur).waiting_for ∧
      (st5.threads cur).priorities 0 = (st.threads cur).priorities 0 ∧
      (st5.threads cur).donation_no =
        (st.threads cur).donation_no - (if (st.locks l).is_donated then 1 else 0) ∧
      1 ≤ (st5.threads cur).size ∧
      ((st5.threads cur).donation_no = 0 →
        (st5.threads cur).priority = (st.threads cur).priorities 0 ∧
        (st5.threads cur).size = 1) := by
  unfold lock_release_enter
  simp only [thread_current, hrun, hh, ne_eq, not_true_eq_false, if_false]
  unfold release_donation
  cases hd : (st.locks l).is_donated with
  | false =>
    simp only [set_sema, set_lock, Function.update_same, hd, Bool.false_eq_true, if_false]
    refine ⟨_, rfl, ?_⟩
    obtain ⟨r1, r2, r3, r4, r5, r6, _⟩ := reset_donations_spec (st.threads cur)
    simp +contextual [set_thread, hrun, hh, Function.update_apply, r1, r2, r3, r4]
    exact ⟨r5 hsz, r6⟩
  | true =>
    cases hs : list_sort (compare_priority st) (st.locks l).semaphore.waiters with
    | nil => exact absurd hs (list_sort_ne_nil _ (hq hd))
    | cons front rest =>
      simp only [set_sema, set_lock, Function.update_same, hd, if_true]
      obtain ⟨t1, d1, d2, d3, d4, d5, d6, _⟩ :=
        drop_donation_spec (st.threads cur) (st.threads front).priority hsz
      simp only [d1]
      refine ⟨_, rfl, ?_⟩
      obtain ⟨r1, r2, r3, r4, r5, r6, _⟩ := reset_donations_spec t1
      simp +contextual [set_thread, hrun, hh, Function.update_apply, r1, r2, r3, r4, d2, d3, d4,
        d5]
      refine ⟨r5 d6, ?_⟩
      rw [← d2, ← d4]
      exact r6

/-- C3: when a running thread calls `sema_up` on a semaphore with a non-empty
wait queue, the call returns and unblocks a queued thread whose effective
priority, as it is at the time of the call, is maximal among the queued
threads; that thread leaves the queue, the others stay queued and untouched.
The same holds for `lock_release` by the holder of a lock with a non-empty wait
queue.  Example: three waiters of priorities 10, 20, 30 that arrived on a lock
in this order; the release wakes the one with priority 30. -/
theorem sema_up_wakes_highest (st : State) (sema : sema_ref) (cur : Tid)
    (hrun : st.running = some cur) (hne : (get_sema st sema).waiters ≠ []) :
    (∃ w st1, sema_up st sema = some st1 ∧ w ∈ (get_sema st sema).waiters ∧
      (∀ x ∈ (get_sema st sema).waiters, (st.threads x).priority ≤ (st.threads w).priority) ∧
      (st1.threads w).status = .THREAD_READY ∧
      (w :: (get_sema st1 sema).waiters).Perm (get_sema st sema).waiters ∧
      (∀ t, t ≠ w → t ≠ cur → st1.threads t = st.threads t)) ∧
    (∀ l, sema = .of_lock l → (st.locks l).holder = some cur →
      cur ∉ (st.locks l).semaphore.waiters → 1 ≤ (st.threads cur).size →
      ∃ w st1, lock_release st l = some st1 ∧ w ∈ (st.locks l).semaphore.waiters ∧
        (∀ x ∈ (st.locks l).semaphore.waiters,
          (st.threads x).priority ≤ (st.threads w).priority) ∧
        (st1.threads w).status = .THREAD_READY ∧
        (w :: (st1.locks l).semaphore.waiters).Perm (st.locks l).semaphore.waiters ∧
        (∀ t, t ≠ w → t ≠ cur → st1.threads t = st.threads t)) ∧
    (lock_run (boot fun t => 10 * (t : Int))
        [.run 0, .acquire 0 1, .preempt, .run 1, .acquire 0 1, .run 2, .acquire 0 1,
         .run 3, .acquire 0 1]).map
      (fun s => ((s.locks 0).semaphore.waiters, (s.threads 1).status, (s.threads 2).status,
        (s.threads 3).status))
      = some ([3, 2, 1], .THREAD_BLOCKED, .THREAD_BLOCKED, .THREAD_BLOCKED) ∧
    (lock_run (boot fun t => 10 * (t : Int))
        [.run 0, .acquire 0 1, .preempt, .run 1, .acquire 0 1, .run 2, .acquire 0 1,
         .run 3, .acquire 0 1, .run 0, .release 0]).map
      (fun s => ((s.locks 0).semaphore.waiters, (s.threads 1).status, (s.threads 2).status,
        (s.threads 3).status))
      = some ([2, 1], .THREAD_BLOCKED, .THREAD_BLOCKED, .THREAD_READY) := by
  refine ⟨?_, ?_, by decide, by decide⟩
  · cases hs : list_sort (compare_priority st) (get_sema st sema).waiters with
    | nil => exact absurd hs (list_sort_ne_nil _ hne)
    | cons front rest =>
      obtain ⟨st1, h1, h2, h3, h4⟩ := sema_up_cons hrun hs
      obtain ⟨m1, m2, m3⟩ := list_sort_front st _ front rest hs
      exact ⟨front, st1, h1, m1, m2, h3, by rw [h2]; exact m3, h4⟩
  · intro l hl hh hcur hsz
    subst hl
    simp only [get_sema] at hne
    obtain ⟨st5, e1, e2, e3, _, e5, _⟩ :=
      lock_release_enter_spec hrun hh (fun _ => hne) hsz
    have hw5 : (get_sema st5 (.of_lock l)).waiters =
        list_sort (compare_priority st) (st.locks l).semaphore.waiters := by
      simp [get_sema, e3]
    have hperm := list_sort_perm (compare_priority st) (st.locks l).semaphore.waiters
    have hne5 : (get_sema st5 (.of_lock l)).waiters ≠ [] := by
      rw [hw5]; exact list_sort_ne_nil _ hne
    cases hs : list_sort (compare_priority st5) (get_sema st5 (.of_lock l)).waiters with
    | nil => exact absurd hs (list_sort_ne_nil _ hne5)
    | cons front rest =>
      obtain ⟨st1, h1, h2, h3, h4⟩ := sema_up_cons e2 hs
      obtain ⟨m1, m2, m3⟩ := list_sort_front st5 _ front rest hs
      rw [hw5] at m1 m2 m3
      have hmem : ∀ x, x ∈ (st.locks l).semaphore.waiters → st5.threads x = st.threads x := by
        intro x hx
        exact e5 x (fun hxc => hcur (hxc ▸ hx))
      have hfront : front ∈ (st.locks l).semaphore.waiters := hperm.mem_iff.1 m1
      refine ⟨front, st1, ?_, hfront, ?_, h3, ?_, ?_⟩
      · simp only [lock_release, e1, h1]
      · intro x hx
        have := m2 x (hperm.mem_iff.2 hx)
        rwa [hmem x hx, hmem front hfront] at this
      · have : (st1.locks l).semaphore.waiters = rest := h2
        rw [this]
        exact m3.trans hperm
      · intro t ht1 ht2
        rw [h4 t ht1 ht2, e5 t ht2]

/-- Witness for C3: in `resort_example` thread 1 was queued behind thread 2 and
was raised to priority 30 while waiting; `sema_up` on the lock's semaphore by
the running thread 0 finds a maximal waiter. -/
theorem sema_up_wakes_highest_witness :
    ∃ w st1, sema_up resort_example (.of_lock 0) = some st1 ∧
      w ∈ (get_sema resort_example (.of_lock 0)).waiters ∧
      (∀ x ∈ (get_sema resort_example (.of_lock 0)).waiters,
        (resort_example.threads x).priority ≤ (resort_example.threads w).priority) ∧
      (st1.threads w).status = .THREAD_READY ∧
      (w :: (get_sema st1 (.of_lock 0)).waiters).Perm
        (get_sema resort_example (.of_lock 0)).waiters ∧
      (∀ t, t ≠ w → t ≠ 0 → st1.threads t = resort_example.threads t) :=
  (sema_up_wakes_highest resort_example (.of_lock 0) 0 (by decide) (by decide)).1

/-! ## Lock ownership -/

theorem option_eq_some_getD {α : Type} (o : Option α) (d : α) (h : o.isSome = true) :
    o = some (o.getD d) := by
  cases o <;> simp_all

theorem sema_down_cases {st st1 : State} {sema : sema_ref} {done : Bool}
    (h : sema_down st sema = some (st1, done)) :
    ∃ cur, st.running = some cur ∧
      ((done = true ∧ (get_sema st sema).value ≠ 0 ∧
          st1 = set_sema st sema
            { get_sema st sema with value := (get_sema st sema).value - 1 }) ∨
       (done = false ∧ (get_sema st sema).value = 0 ∧
          st1 =
            { set_thread
                (set_sema st sema
                  { get_sema st sema with
                    waiters := list_insert_ordered (compare_priority st) cur
                      (get_sema st sema).waiters })
                cur { st.threads cur with status := .THREAD_BLOCKED } with
              running := none })) := by
  unfold sema_down thread_current at h
  cases hr : st.running with
  | none => simp [hr] at h
  | some cur =>
    refine ⟨cur, rfl, ?_⟩
    simp only [hr] at h
    by_cases hz : (get_sema st sema).value = 0
    · right
      simp only [hz, if_true, thread_block, thread_current, running_set_sema, hr,
        Option.some.injEq, Prod.mk.injEq] at h
      obtain ⟨h1, h2⟩ := h
      subst h1 h2
      exact ⟨rfl, hz, by simp [hz]⟩
    · left
      simp only [hz, if_false, Option.some.injEq, Prod.mk.injEq] at h
      obtain ⟨h1, h2⟩ := h
      subst h1 h2
      exact ⟨rfl, hz, rfl⟩

theorem push_donation_fields {th th1 : thread} {p : Int} (h : push_donation th p = some th1) :
    th1.status = th.status ∧ th1.waiting_for = th.waiting_for ∧
    th1.donation_no = th.donation_no ∧ th1.priority = p ∧ th1.size = th.size + 1 ∧
    0 ≤ th.size ∧ th1.priorities = Function.update th.priorities th.size.toNat p := by
  unfold push_donation at h
  split at h
  · simp at h
  · simp only [Option.some.injEq] at h
    subst h
    simp
    omega

/-- The donation loop touches thread records only. -/
theorem donation_walk_frame :
    ∀ (fuel : Nat) (st st1 : State) (temp : Tid), donation_walk fuel st temp = some st1 →
      st1.locks = st.locks ∧ st1.running = st.running ∧ st1.semas = st.semas ∧
      st1.conds = st.conds ∧ st1.waiter = st.waiter := by
  intro fuel
  induction fuel with
  | zero =>
    intro st st1 temp h
    simp only [donation_walk] at h
    split at h
    · simp only [Option.some.injEq] at h
      subst h
      simp
    · simp at h
  | succ n ih =>
    intro st st1 temp h
    simp only [donation_walk] at h
    split at h
    · simp only [Option.some.injEq] at h
      subst h
      simp
    · split at h
      · simp at h
      · split at h
        · simp at h
        · split at h
          · simp only [Option.some.injEq] at h
            subst h
            simp [set_thread]
          · have := ih _ _ _ h
            simpa [set_thread] using this

theorem lock_acquire_enter_frame {fuel : Nat} {st st1 : State} {l : Lid}
    (h : lock_acquire_enter fuel st l = some st1) :
    st1.running = st.running ∧
    (∀ l2, (st1.locks l2).holder = (st.locks l2).holder ∧
      (st1.locks l2).semaphore = (st.locks l2).semaphore) ∧
    (∃ cur, st.running = some cur ∧ (st.locks l).holder ≠ some cur) := by
  unfold lock_acquire_enter thread_current at h
  cases hr : st.running with
  | none => simp [hr] at h
  | some cur =>
    simp only [hr] at h
    split at h
    · simp at h
    · rename_i hne
      refine ⟨?_, ?_, cur, rfl, hne⟩
      · split at h
        · simp only [Option.some.injEq] at h
          subst h
          exact hr
        · split at h
          · split at h
            · simp at h
            · rename_i st2 hw
              have hf := donation_walk_frame _ _ _ _ hw
              simp only [Option.some.injEq] at h
              subst h
              split <;> simp [set_lock, set_thread, hf.2.1, hr]
          · simp only [Option.some.injEq] at h
            subst h
            simp [hr]
      · intro l2
        split at h
        · simp only [Option.some.injEq] at h
          subst h
          simp
        · split at h
          · split at h
            · simp at h
            · rename_i st2 hw
              have hf := donation_walk_frame _ _ _ _ hw
              simp only [Option.some.injEq] at h
              subst h
              by_cases hl : l2 = l
              · subst hl
                split <;> simp [set_lock, set_thread, hf.1]
              · split <;> simp [set_lock, set_thread, hf.1, Function.update_noteq hl]
          · simp only [Option.some.injEq] at h
            subst h
            simp [set_thread]

theorem sema_up_locks {st st1 : State} {l : Lid} (h : sema_up st (.of_lock l) = some st1) :
    (st1.locks l).holder = (st.locks l).holder ∧
    (st1.locks l).is_donated = (st.locks l).is_donated ∧
    (st1.locks l).semaphore.value = ((st.locks l).semaphore.value + 1) % UINT_RANGE ∧
    (∀ l2, l2 ≠ l → st1.locks l2 = st.locks l2) := by
  have hv := sema_up_value h
  simp only [get_sema] at hv
  refine ⟨?_, ?_, hv, ?_⟩ <;>
  · unfold sema_up thread_yield thread_current at h
    simp only [running_set_sema] at h
    split at h
    · simp at h
    · simp only [Option.some.injEq] at h
      subst h
      split <;>
        simp +contextual [set_sema, set_lock, set_thread, thread_unblock, get_sema,
          Function.update_apply]

theorem lock_release_enter_locks {st st5 : State} {l : Lid}
    (h : lock_release_enter st l = some st5) :
    ∃ cur, st.running = some cur ∧ (st.locks l).holder = some cur ∧
      st5.running = some cur ∧ (st5.locks l).holder = none ∧
      (st5.locks l).semaphore.value = (st.locks l).semaphore.value ∧
      (∀ l2, l2 ≠ l → st5.locks l2 = st.locks l2) := by
  unfold lock_release_enter thread_current at h
  cases hr : st.running with
  | none => simp [hr] at h
  | some cur =>
    simp only [hr] at h
    split at h
    · simp at h
    · rename_i hh
      simp only [ne_eq, not_not] at hh
      refine ⟨cur, rfl, hh, ?_⟩
      split at h
      · simp at h
      · rename_i st3 h3
        simp only [Option.some.injEq] at h
        subst h
        unfold release_donation at h3
        split at h3
        · split at h3
          · simp at h3
          · split at h3
            · simp at h3
            · simp only [Option.some.injEq] at h3
              subst h3
              simp +contextual [set_sema, set_lock, set_thread, hr, Function.update_apply]
        · simp only [Option.some.injEq] at h3
          subst h3
          simp +contextual [set_sema, set_lock, set_thread, hr, Function.update_apply]

theorem lock_release_ok {st st1 : State} {l : Lid} (h : lock_release st l = some st1)
    (hok : ∀ l2, lock_ok (st.locks l2)) : ∀ l2, lock_ok (st1.locks l2) := by
  unfold lock_release at h
  split at h
  · simp at h
  · rename_i st5 h5
    obtain ⟨cur, _, hh, _, e1, e2, e3⟩ := lock_release_enter_locks h5
    obtain ⟨u1, _, u3, u4⟩ := sema_up_locks h
    intro l2
    by_cases hl : l2 = l
    · subst hl
      have h0 : (st.locks l2).semaphore.value = 0 := by
        rcases hok l2 with ⟨hn, _⟩ | ⟨_, hv⟩
        · rw [hh] at hn; simp at hn
        · exact hv
      left
      refine ⟨by rw [u1, e1], ?_⟩
      rw [u3, e2, h0]
      decide
    · rw [u4 l2 hl, e3 l2 hl]
      exact hok l2

theorem lock_acquire_wake_ok {st st1 : State} {l : Lid} (h : lock_acquire_wake st l = some st1)
    (hok : ∀ l2, lock_ok (st.locks l2)) : ∀ l2, lock_ok (st1.locks l2) := by
  unfold lock_acquire_wake thread_current at h
  split at h
  · simp at h
  · rename_i cur hr
    split at h
    · simp at h
    · rename_i st2 hd
      simp only [Option.some.injEq] at h
      subst h
      obtain ⟨cur2, _, hc⟩ := sema_down_cases hd
      rcases hc with ⟨hc, _⟩ | ⟨_, hz, he⟩
      · simp at hc
      · subst he
        intro l2
        by_cases hl : l2 = l
        · subst hl
          simp only [get_sema] at hz
          have := hok l2
          unfold lock_ok at this ⊢
          simpa [set_sema, set_lock, set_thread, get_sema] using this
        · have := hok l2
          simpa [set_sema, set_lock, set_thread, get_sema, Function.update_noteq hl] using this
    · rename_i st2 hd
      simp only [Option.some.injEq] at h
      subst h
      obtain ⟨cur2, _, hc⟩ := sema_down_cases hd
      rcases hc with ⟨_, hz, he⟩ | ⟨hc, _⟩
      · subst he
        intro l2
        by_cases hl : l2 = l
        · subst hl
          simp only [get_sema] at hz
          have hv : (st.locks l2).semaphore.value = 1 := by
            rcases hok l2 with ⟨_, hv⟩ | ⟨_, hv⟩
            · exact hv
            · exact absurd hv hz
          right
          simp [set_sema, set_lock, set_thread, get_sema, hv]
        · have := hok l2
          simpa [set_sema, set_lock, set_thread, get_sema, Function.update_noteq hl] using this
      · simp at hc

theorem lock_acquire_ok {fuel : Nat} {st st1 : State} {l : Lid}
    (h : lock_acquire fuel st l = some st1)
    (hok : ∀ l2, lock_ok (st.locks l2)) : ∀ l2, lock_ok (st1.locks l2) := by
  unfold lock_acquire at h
  split at h
  · simp at h
  · rename_i st2 h2
    obtain ⟨_, hf, _⟩ := lock_acquire_enter_frame h2
    refine lock_acquire_wake_ok h ?_
    intro l2
    have := hok l2
    unfold lock_ok at this ⊢
    rw [(hf l2).1, (hf l2).2]
    exact this

theorem lock_try_acquire_ok {st st1 : State} {l : Lid} {b : Bool}
    (h : lock_try_acquire st l = some (st1, b))
    (hok : ∀ l2, lock_ok (st.locks l2)) : ∀ l2, lock_ok (st1.locks l2) := by
  unfold lock_try_acquire thread_current at h
  split at h
  · simp at h
  · rename_i cur hr
    split at h
    · simp at h
    · unfold sema_try_down at h
      by_cases hv : 0 < (get_sema st (.of_lock l)).value
      · simp only [hv, if_true, Option.some.injEq, Prod.mk.injEq] at h
        obtain ⟨h1, _⟩ := h
        subst h1
        intro l2
        by_cases hl : l2 = l
        · subst hl
          simp only [get_sema] at hv
          have hv1 : (st.locks l2).semaphore.value = 1 := by
            rcases hok l2 with ⟨_, hv1⟩ | ⟨_, hv1⟩
            · exact hv1
            · omega
          right
          simp [set_sema, set_lock, get_sema, hv1]
        · have := hok l2
          simpa [set_sema, set_lock, get_sema, Function.update_noteq hl] using this
      · simp only [hv, if_false, Option.some.injEq, Prod.mk.injEq] at h
        obtain ⟨h1, _⟩ := h
        subst h1
        exact hok

theorem schedule_locks {st st1 : State} {t : Tid} (h : schedule st t = some st1) :
    st1.locks = st.locks := by
  unfold schedule at h
  split at h
  · simp at h
  · split at h
    · simp only [Option.some.injEq] at h
      subst h
      rfl
    · simp at h

theorem thread_yield_locks {st st1 : State} (h : thread_yield st = some st1) :
    st1.locks = st.locks := by
  unfold thread_yield at h
  split at h
  · simp at h
  · simp only [Option.some.injEq] at h
    subst h
    rfl

theorem lock_event_step_ok {st st1 : State} {e : lock_event}
    (h : lock_event_step st e = some st1)
    (hok : ∀ l2, lock_ok (st.locks l2)) : ∀ l2, lock_ok (st1.locks l2) := by
  cases e with
  | run t =>
    simp only [lock_event_step] at h
    rw [schedule_locks h]; exact hok
  | preempt =>
    simp only [lock_event_step] at h
    rw [thread_yield_locks h]; exact hok
  | acquire l fuel =>
    simp only [lock_event_step] at h
    split at h
    · simp at h
    · split at h
      · simp at h
      · exact lock_acquire_ok h hok
  | wake =>
    simp only [lock_event_step] at h
    split at h
    · simp at h
    · split at h
      · simp at h
      · exact lock_acquire_wake_ok h hok
  | try_acquire l =>
    simp only [lock_event_step] at h
    split at h
    · simp at h
    · split at h
      · simp at h
      · split at h
        · simp at h
        · rename_i st2 b h2
          simp only [Option.some.injEq] at h
          subst h
          exact lock_try_acquire_ok h2 hok
  | release l =>
    simp only [lock_event_step] at h
    split at h
    · simp at h
    · split at h
      · simp at h
      · exact lock_release_ok h hok

theorem lock_run_ok (evs : List lock_event) :
    ∀ {st st1 : State}, lock_run st evs = some st1 →
      (∀ l2, lock_ok (st.locks l2)) → ∀ l2, lock_ok (st1.locks l2) := by
  induction evs with
  | nil =>
    intro st st1 h hok
    simp only [lock_run, Option.some.injEq] at h
    subst h
    exact hok
  | cons e es ih =>
    intro st st1 h hok
    simp only [lock_run] at h
    split at h
    · simp at h
    · rename_i st2 h2
      exact ih h (lock_event_step_ok h2 hok)

/-! ## Priority donation -/

theorem sema_up_threads {st st1 : State} {sema : sema_ref} (h : sema_up st sema = some st1) :
    ∀ t, (st1.threads t).priority = (st.threads t).priority ∧
      (st1.threads t).priorities = (st.threads t).priorities ∧
      (st1.threads t).size = (st.threads t).size ∧
      (st1.threads t).donation_no = (st.threads t).donation_no ∧
      (st1.threads t).waiting_for = (st.threads t).waiting_for := by
  intro t
  unfold sema_up thread_yield thread_current at h
  simp only [running_set_sema] at h
  split at h
  · simp at h
  · rename_i cur hr
    simp only [Option.some.injEq] at h
    subst h
    split
    · by_cases h1 : t = cur
      · subst h1; simp [set_thread]
      · simp [set_thread, Function.update_noteq h1]
    · rename_i front rest hs
      by_cases h1 : t = cur
      · subst h1
        by_cases h2 : t = front
        · subst h2; simp [set_thread, thread_unblock]
        · simp [set_thread, thread_unblock, Function.update_noteq h2]
      · by_cases h2 : t = front
        · subst h2; simp [set_thread, thread_unblock, Function.update_noteq h1]
        · simp [set_thread, thread_unblock, Function.update_noteq h1, Function.update_noteq h2]

/-- The entry of a contended `lock_acquire` whose caller outranks a ready
holder: one round of the donation loop. -/
theorem lock_acquire_enter_donate {st : State} {A B : Tid} {L : Lid} (fuel : Nat)
    (hAB : A ≠ B) (hrun : st.running = some B) (hhold : (st.locks L).holder = some A)
    (hready : (st.threads A).status = .THREAD_READY) (hsz : 0 ≤ (st.threads A).size)
    (hlt : (st.threads A).priority < (st.threads B).priority) :
    ∃ st1, lock_acquire_enter (fuel + 1) st L = some st1 ∧ st1.running = some B ∧
      st1.locks L = { st.locks L with is_donated := true } ∧
      (∀ l2, l2 ≠ L → st1.locks l2 = st.locks l2) ∧
      (∀ t, t ≠ A → t ≠ B → st1.threads t = st.threads t) ∧
      st1.threads B = { st.threads B with waiting_for := some L } ∧
      st1.threads A =
        { st.threads A with
          priority := (st.threads B).priority
          priorities := Function.update (st.threads A).priorities (st.threads A).size.toNat
            (st.threads B).priority
          size := (st.threads A).size + 1
          donation_no :=
            if (st.locks L).is_donated then (st.threads A).donation_no
            else (st.threads A).donation_no + 1 } := by
  have hBA : B ≠ A := fun h => hAB h.symm
  have hne : ¬ (some A = some B) := by simpa using hAB
  unfold lock_acquire_enter
  simp only [thread_current, hrun, hhold, hne, if_false, threads_set_thread, Function.update_same,
    Function.update_noteq hAB, hlt, if_true]
  simp only [donation_walk, threads_set_thread, Function.update_same, Function.update_noteq hAB,
    set_thread, hhold, push_donation, not_lt.mpr hsz, if_false, hready, if_true]
  cases hd : (st.locks L).is_donated <;>
    simp +contextual [set_lock, set_thread, hrun, hd, Function.update_apply, hAB, hBA, hhold]

/-- A `lock_acquire` that reaches `sema_down` with the semaphore at 0 queues
and blocks the caller and changes nothing else. -/
theorem lock_acquire_wake_block {st : State} {B : Tid} {L : Lid}
    (hrun : st.running = some B) (hv : (st.locks L).semaphore.value = 0) :
    ∃ st1, lock_acquire_wake st L = some st1 ∧ st1.running = none ∧
      st1.locks L =
        { st.locks L with
          semaphore :=
            { (st.locks L).semaphore with
              waiters := list_insert_ordered (compare_priority st) B
                (st.locks L).semaphore.waiters } } ∧
      (∀ l2, l2 ≠ L → st1.locks l2 = st.locks l2) ∧
      (∀ t, t ≠ B → st1.threads t = st.threads t) ∧
      st1.threads B = { st.threads B with status := .THREAD_BLOCKED } := by
  unfold lock_acquire_wake sema_down
  simp only [thread_current, hrun, get_sema, hv, if_true, thread_block, running_set_sema]
  refine ⟨_, rfl, ?_⟩
  simp +contextual [set_sema, set_lock, set_thread, Function.update_apply]

/-- A `lock_acquire` that reaches `sema_down` with the semaphore positive
returns with the caller as holder and its `waiting_for` cleared. -/
theorem lock_acquire_wake_pass {st : State} {B : Tid} {L : Lid}
    (hrun : st.running = some B) (hv : (st.locks L).semaphore.value ≠ 0) :
    ∃ st1, lock_acquire_wake st L = some st1 ∧ st1.running = some B ∧
      st1.locks L =
        { st.locks L with
          holder := some B
          semaphore :=
            { (st.locks L).semaphore with value := (st.locks L).semaphore.value - 1 } } ∧
      (∀ l2, l2 ≠ L → st1.locks l2 = st.locks l2) ∧
      (∀ t, t ≠ B → st1.threads t = st.threads t) ∧
      st1.threads B = { st.threads B with waiting_for := none } := by
  unfold lock_acquire_wake sema_down
  simp only [thread_current, hrun, get_sema, hv, if_false]
  refine ⟨_, rfl, ?_⟩
  simp +contextual [set_sema, set_lock, set_thread, Function.update_apply, hrun]

theorem list_insert_ordered_mem {α : Type} (less : α → α → Bool) (x : α) (l : List α) :
    x ∈ list_insert_ordered less x l :=
  (list_insert_ordered_perm less x l).mem_iff.2 (List.mem_cons_self _ _)

theorem schedule_spec {st : State} {t : Tid} (hrun : st.running = none)
    (hready : (st.threads t).status = .THREAD_READY) :
    ∃ st1, schedule st t = some st1 ∧ st1.running = some t ∧ st1.locks = st.locks ∧
      (∀ u, u ≠ t → st1.threads u = st.threads u) ∧
      st1.threads t = { st.threads t with status := .THREAD_RUNNING } := by
  unfold schedule
  simp only [hrun, hready, if_true]
  refine ⟨_, rfl, ?_⟩
  simp +contextual [set_thread, Function.update_apply]

theorem thread_yield_running {st st1 : State} (h : thread_yield st = some st1) :
    st1.running = none := by
  unfold thread_yield at h
  split at h
  · simp at h
  · simp only [Option.some.injEq] at h
    subst h
    rfl

theorem sema_up_running {st st1 : State} {sema : sema_ref} (h : sema_up st sema = some st1) :
    st1.running = none := by
  unfold sema_up at h
  exact thread_yield_running h

/-- Release of a lock by a thread whose donation count is exactly what this
lock contributes (1 if the lock is donated, 0 if not) puts the thread back on
the priority recorded in slot 0. -/
theorem lock_release_restores_base {st : State} {A : Tid} {L : Lid} {d : Int}
    (hrun : st.running = some A) (hhold : (st.locks L).holder = some A)
    (hq : (st.locks L).is_donated = true → (st.locks L).semaphore.waiters ≠ [])
    (hd : d = if (st.locks L).is_donated then 1 else 0)
    (hdn : (st.threads A).donation_no = d) (hsz : 1 ≤ (st.threads A).size) :
    ∃ st1, lock_release st L = some st1 ∧
      (st1.threads A).priority = (st.threads A).priorities 0 ∧
      (st1.threads A).priorities 0 = (st.threads A).priorities 0 ∧
      (st1.threads A).size = 1 ∧ (st1.threads A).donation_no = 0 ∧
      (st1.threads A).waiting_for = (st.threads A).waiting_for ∧
      (st1.locks L).holder = none ∧ (st1.locks L).is_donated = false ∧
      (st1.locks L).semaphore.value = ((st.locks L).semaphore.value + 1) % UINT_RANGE ∧
      (∀ l2, l2 ≠ L → st1.locks l2 = st.locks l2) ∧ st1.running = none := by
  obtain ⟨st5, e1, e2, e3, e4, _, _, _, _, _, e10, e11, e12, _, e14⟩ :=
    lock_release_enter_spec hrun hhold hq hsz
  obtain ⟨st1, h1⟩ := sema_up_some (.of_lock L) e2
  have hth := sema_up_threads h1 A
  obtain ⟨u1, u2, u3, u4⟩ := sema_up_locks h1
  have hzero : (st5.threads A).donation_no = 0 := by
    rw [e12, hdn, hd]; simp
  obtain ⟨z1, z2⟩ := e14 hzero
  refine ⟨st1, by simp only [lock_release, e1, h1], ?_, ?_, ?_, ?_, ?_, ?_, ?_, ?_, ?_, ?_⟩
  · rw [hth.1, z1]
  · rw [hth.2.1, e11]
  · rw [hth.2.2.1, z2]
  · rw [hth.2.2.2.1, hzero]
  · rw [hth.2.2.2.2, e10]
  · rw [u1, e3]
  · rw [u2, e3]
  · rw [u3, e3]
  · intro l2 hl
    rw [u4 l2 hl, e4 l2 hl]
  · exact sema_up_running h1

/-- C5: simple priority donation.  Thread A (base and effective priority pA,
no donation recorded) holds lock L and is ready; the running thread B with
priority pB > pA calls `lock_acquire` on L.  The call blocks B in L's queue
and leaves A with effective priority pB; A still has priority pB when it is
dispatched again; and A's `lock_release` of L returns with A's effective
priority back at pA. -/
theorem simple_donation (st : State) (A B : Tid) (L : Lid) (pA pB : Int) (fuel : Nat)
    (hAB : A ≠ B) (hrun : st.running = some B)
    (hhold : (st.locks L).holder = some A) (hval : (st.locks L).semaphore.value = 0)
    (hnd : (st.locks L).is_donated = false)
    (hready : (st.threads A).status = .THREAD_READY)
    (hbase : (st.threads A).priorities 0 = pA) (hprio : (st.threads A).priority = pA)
    (hsize : (st.threads A).size = 1) (hdn : (st.threads A).donation_no = 0)
    (hB : (st.threads B).priority = pB) (hlt : pA < pB) :
    ∃ st1 st2 st3, lock_acquire (fuel + 1) st L = some st1 ∧
      (st1.threads A).priority = pB ∧ (st1.threads B).status = .THREAD_BLOCKED ∧
      B ∈ (st1.locks L).semaphore.waiters ∧ (st1.locks L).holder = some A ∧
      schedule st1 A = some st2 ∧ (st2.threads A).priority = pB ∧
      lock_release st2 L = some st3 ∧ (st3.threads A).priority = pA ∧
      (st3.locks L).holder = none := by
  have hBA : B ≠ A := fun h => hAB h.symm
  obtain ⟨s1, a1, a2, a3, _, _, a6, a7⟩ :=
    lock_acquire_enter_donate fuel hAB hrun hhold hready (by omega) (by omega)
  obtain ⟨s2, b1, b2, b3, _, b5, b6⟩ :=
    lock_acquire_wake_block a2 (by rw [a3]; exact hval)
  have hA2 : s2.threads A = s1.threads A := b5 A hAB
  obtain ⟨s3, c1, c2, c3, _, c5⟩ :=
    schedule_spec b2 (by rw [hA2, a7]; exact hready)
  have hL3 : s3.locks L = s2.locks L := by rw [c3]
  obtain ⟨s4, d1, d2, _, _, _, _, d7, _⟩ :=
    @lock_release_restores_base s3 A L 1 c2 (by rw [hL3, b3, a3]; exact hhold)
      (by
        intro _
        rw [hL3, b3]
        exact List.ne_nil_of_mem (list_insert_ordered_mem _ B _))
      (by rw [hL3, b3, a3]; simp)
      (by rw [c5, hA2, a7]; simp [hnd, hdn])
      (by rw [c5, hA2, a7]; simp [hsize])
  refine ⟨s2, s3, s4, by simp only [lock_acquire, a1, b1], ?_, ?_, ?_, ?_, c1, ?_, d1, ?_, d7⟩
  · rw [hA2, a7, hB]
  · rw [b6]
  · rw [b3]
    exact list_insert_ordered_mem _ B _
  · rw [b3, a3]; exact hhold
  · rw [c5, hA2, a7, hB]
  · rw [d2, c5, hA2, a7]
    simp [hsize, hbase]

/-- Witness for C5: A = thread 0 with base priority 1, B = thread 1 with
priority 5. -/
theorem simple_donation_witness :
    ∃ st1 st2 st3, lock_acquire 1 donation_example 0 = some st1 ∧
      (st1.threads 0).priority = 5 ∧ (st1.threads 1).status = .THREAD_BLOCKED ∧
      1 ∈ (st1.locks 0).semaphore.waiters ∧ (st1.locks 0).holder = some 0 ∧
      schedule st1 0 = some st2 ∧ (st2.threads 0).priority = 5 ∧
      lock_release st2 0 = some st3 ∧ (st3.threads 0).priority = 1 ∧
      (st3.locks 0).holder = none :=
  simple_donation donation_example 0 1 0 1 5 0 (by decide) (by decide) (by decide) (by decide)
    (by decide) (by decide) (by decide) (by decide) (by decide) (by decide) (by decide)
    (by decide)

/-- The entry of a contended `lock_acquire` whose caller C outranks the holder
B of the lock, where B is blocked on a second lock held by a ready thread A:
two rounds of the donation loop. -/
theorem lock_acquire_enter_chain {st : State} {A B C : Tid} {L1 L2 : Lid} (fuel : Nat)
    (hAB : A ≠ B) (hAC : A ≠ C) (hBC : B ≠ C) (hrun : st.running = some C)
    (h1 : (st.locks L1).holder = some A) (h2 : (st.locks L2).holder = some B)
    (hBw : (st.threads B).waiting_for = some L1)
    (hBs : (st.threads B).status ≠ .THREAD_READY)
    (hAs : (st.threads A).status = .THREAD_READY)
    (hszA : 0 ≤ (st.threads A).size) (hszB : 0 ≤ (st.threads B).size)
    (hlt : (st.threads B).priority < (st.threads C).priority) :
    ∃ st1, lock_acquire_enter (fuel + 2) st L2 = some st1 ∧ st1.running = some C ∧
      st1.locks L2 = { st.locks L2 with is_donated := true } ∧
      (∀ l, l ≠ L2 → st1.locks l = st.locks l) ∧
      (∀ t, t ≠ A → t ≠ B → t ≠ C → st1.threads t = st.threads t) ∧
      st1.threads C = { st.threads C with waiting_for := some L2 } ∧
      st1.threads B =
        { st.threads B with
          priority := (st.threads C).priority
          priorities := Function.update (st.threads B).priorities (st.threads B).size.toNat
            (st.threads C).priority
          size := (st.threads B).size + 1
          donation_no :=
            if (st.locks L2).is_donated then (st.threads B).donation_no
            else (st.threads B).donation_no + 1 } ∧
      st1.threads A =
        { st.threads A with
          priority := (st.threads C).priority
          priorities := Function.update (st.threads A).priorities (st.threads A).size.toNat
            (st.threads C).priority
          size := (st.threads A).size + 1 } := by
  have hBA : B ≠ A := fun h => hAB h.symm
  have hCA : C ≠ A := fun h => hAC h.symm
  have hCB : C ≠ B := fun h => hBC h.symm
  have hne : ¬ (some B = some C) := by simpa using hBC
  unfold lock_acquire_enter
  simp only [thread_current, hrun, h2, hne, if_false, threads_set_thread, Function.update_same,
    Function.update_noteq hBC, hlt, if_true]
  simp only [donation_walk, threads_set_thread, Function.update_same, Function.update_noteq hBC,
    Function.update_noteq hAB, Function.update_noteq hAC, set_thread, h1, h2, hBw, push_donation,
    not_lt.mpr hszA, not_lt.mpr hszB, if_false, hAs, hBs, if_true]
  cases hd : (st.locks L2).is_donated <;>
    simp +contextual [set_lock, set_thread, hrun, hd, Function.update_apply, hAB, hBA, hAC, hCA,
      hBC, hCB, h2]

theorem list_insert_ordered_last (st : State) (x : Tid) (l : List Tid)
    (h : ∀ y ∈ l, (st.threads x).priority ≤ (st.threads y).priority) :
    list_insert_ordered (compare_priority st) x l = l ++ [x] := by
  induction l with
  | nil => rfl
  | cons e rest ih =>
    have he : compare_priority st x e = false := by
      have := h e (List.mem_cons_self _ _)
      simp [compare_priority, this]
    simp only [list_insert_ordered, he, List.cons_append]
    rw [ih (fun y hy => h y (List.mem_cons_of_mem _ hy))]
    simp

theorem list_sort_fold_of_descending (st : State) (l : List Tid) :
    ∀ acc : List Tid, descending st (acc ++ l) →
      l.foldl (fun acc x => list_insert_ordered (compare_priority st) x acc) acc = acc ++ l := by
  induction l with
  | nil => intro acc _; simp
  | cons x xs ih =>
    intro acc h
    simp only [List.foldl_cons]
    have hx : ∀ y ∈ acc, (st.threads x).priority ≤ (st.threads y).priority := by
      intro y hy
      unfold descending at h
      rw [List.pairwise_append] at h
      exact h.2.2 y hy x (List.mem_cons_self _ _)
    rw [list_insert_ordered_last st x acc hx, ih]
    · simp
    · simpa using h

/-- Resorting a queue that is already in wake-up order leaves it as it is. -/
theorem list_sort_of_descending (st : State) (l : List Tid) (h : descending st l) :
    list_sort (compare_priority st) l = l := by
  unfold list_sort
  simpa using list_sort_fold_of_descending st l [] (by simpa using h)

theorem descending_congr {st st2 : State} {l : List Tid}
    (hp : ∀ x ∈ l, (st2.threads x).priority = (st.threads x).priority)
    (h : descending st l) : descending st2 l := by
  unfold descending at h ⊢
  induction l with
  | nil => exact List.Pairwise.nil
  | cons e rest ih =>
    rw [List.pairwise_cons] at h ⊢
    refine ⟨?_, ih (fun x hx => hp x (List.mem_cons_of_mem _ hx)) h.2⟩
    intro y hy
    rw [hp y (List.mem_cons_of_mem _ hy), hp e (List.mem_cons_self _ _)]
    exact h.1 y hy

/-- The whole effect of `lock_release` by the holder `A` of a lock whose queue
is not empty: the front of the resorted queue is made ready and dequeued, the
lock is free and not donated, `A` has yielded, and only `A`'s donation record
has changed. -/
theorem lock_release_spec {st : State} {A : Tid} {L : Lid} {front : Tid} {rest : List Tid}
    (hrun : st.running = some A) (hhold : (st.locks L).holder = some A)
    (hs : list_sort (compare_priority st) (st.locks L).semaphore.waiters = front :: rest)
    (hA : A ∉ (st.locks L).semaphore.waiters)
    (hsz : 1 ≤ (st.threads A).size) :
    ∃ st1, lock_release st L = some st1 ∧ st1.running = none ∧
      st1.locks L =
        { holder := none
          semaphore :=
            { value := ((st.locks L).semaphore.value + 1) % UINT_RANGE, waiters := rest }
          is_donated := false } ∧
      (∀ l2, l2 ≠ L → st1.locks l2 = st.locks l2) ∧
      (∀ t, t ≠ A → t ≠ front → st1.threads t = st.threads t) ∧
      st1.threads front = { st.threads front with status := .THREAD_READY } ∧
      (st1.threads A).status = .THREAD_READY ∧
      (st1.threads A).waiting_for = (st.threads A).waiting_for ∧
      (st1.threads A).priorities 0 = (st.threads A).priorities 0 ∧
      (st1.threads A).donation_no =
        (st.threads A).donation_no - (if (st.locks L).is_donated then 1 else 0) ∧
      1 ≤ (st1.threads A).size ∧
      ((st1.threads A).donation_no = 0 →
        (st1.threads A).priority = (st.threads A).priorities 0 ∧
        (st1.threads A).size = 1) := by
  have hperm := list_sort_perm (compare_priority st) (st.locks L).semaphore.waiters
  have hne : (st.locks L).semaphore.waiters ≠ [] := by
    intro h0
    rw [h0] at hs
    simp [list_sort] at hs
  obtain ⟨st5, e1, e2, e3, e4, e5, _, _, _, _, e10, e11, e12, e13, e14⟩ :=
    lock_release_enter_spec hrun hhold (fun _ => hne) hsz
  have hfrontmem : ∀ x ∈ front :: rest, x ≠ A := by
    intro x hx hxa
    rw [← hs] at hx
    exact hA (hxa ▸ hperm.mem_iff.1 hx)
  have hfA : front ≠ A := hfrontmem front (List.mem_cons_self _ _)
  have hs5 : list_sort (compare_priority st5) (get_sema st5 (.of_lock L)).waiters
      = front :: rest := by
    simp only [get_sema, e3, hs]
    apply list_sort_of_descending
    refine @descending_congr st st5 _ (fun x hx => ?_) ?_
    · rw [e5 x (hfrontmem x hx)]
    · rw [← hs]; exact list_sort_descending st _
  have hup : sema_up st5 (.of_lock L) =
      some { set_thread
          (set_sema (thread_unblock (set_sema st5 (.of_lock L)
              { get_sema st5 (.of_lock L) with waiters := rest }) front) (.of_lock L)
            { value := ((st.locks L).semaphore.value + 1) % UINT_RANGE, waiters := rest })
          A { st5.threads A with status := .THREAD_READY } with running := none } := by
    unfold sema_up
    simp only [hs5]
    simp only [thread_yield, thread_current, running_set_sema, thread_unblock,
      running_set_thread, e2, get_sema_set_sema, get_sema_set_thread, threads_set_sema,
      threads_set_thread, Function.update_noteq (Ne.symm hfA)]
    simp [get_sema, e3]
  refine ⟨_, (by simp only [lock_release, e1]; exact hup), rfl, ?_, ?_, ?_, ?_, ?_, ?_, ?_, ?_,
    ?_, ?_⟩
  · simp [set_sema, set_lock, set_thread, thread_unblock, e3]
  · intro l2 hl
    simp [set_sema, set_lock, set_thread, thread_unblock, Function.update_noteq hl, e4 l2 hl]
  · intro t h1 h2
    simp [set_sema, set_lock, set_thread, thread_unblock, Function.update_noteq h1,
      Function.update_noteq h2, e5 t h1]
  · simp [set_sema, set_lock, set_thread, thread_unblock, Function.update_noteq hfA,
      e5 front hfA]
  · simp [set_sema, set_lock, set_thread, thread_unblock]
  · simp [set_sema, set_lock, set_thread, thread_unblock, e10]
  · simp [set_sema, set_lock, set_thread, thread_unblock, e11]
  · simp [set_sema, set_lock, set_thread, thread_unblock, e12]
  · simpa [set_sema, set_lock, set_thread, thread_unblock] using e13
  · intro h0
    have h5 : (st5.threads A).donation_no = 0 := by
      simpa [set_sema, set_lock, set_thread, thread_unblock] using h0
    simpa [set_sema, set_lock, set_thread, thread_unblock] using e14 h5

/-- C6: chained donation.  A holds L1 and is ready, B holds L2 and is blocked
as the only waiter on L1, and the running thread C, whose priority pC is above
the effective priorities of A and B, calls `lock_acquire` on L2 (no other
waiter).  The call blocks C and raises both B and A to effective priority pC.
When A then releases L1, B completes its acquisition of L1 and releases L2,
A and B are back at the base priorities recorded in slot 0. -/
theorem chained_donation (st : State) (A B C : Tid) (L1 L2 : Lid) (bA bB pC : Int)
    (fuel : Nat) (hAB : A ≠ B) (hAC : A ≠ C) (hBC : B ≠ C)
    (hrun : st.running = some C)
    (h1 : (st.locks L1).holder = some A) (h2 : (st.locks L2).holder = some B)
    (hv1 : (st.locks L1).semaphore.value = 0) (hv2 : (st.locks L2).semaphore.value = 0)
    (hw1 : (st.locks L1).semaphore.waiters = [B])
    (hw2 : (st.locks L2).semaphore.waiters = [])
    (hBw : (st.threads B).waiting_for = some L1)
    (hBs : (st.threads B).status = .THREAD_BLOCKED)
    (hAs : (st.threads A).status = .THREAD_READY)
    (hC : (st.threads C).priority = pC)
    (hltA : (st.threads A).priority < pC) (hltB : (st.threads B).priority < pC)
    (hbA : (st.threads A).priorities 0 = bA) (hbB : (st.threads B).priorities 0 = bB)
    (hszA : 1 ≤ (st.threads A).size) (hszB : 1 ≤ (st.threads B).size)
    (hdA : (st.threads A).donation_no = if (st.locks L1).is_donated then 1 else 0)
    (hdB : (st.threads B).donation_no = if (st.locks L2).is_donated then 1 else 0) :
    ∃ s1 s2 s3 s4 s5 s6,
      lock_acquire (fuel + 2) st L2 = some s1 ∧
      (s1.threads A).priority = pC ∧ (s1.threads B).priority = pC ∧
      (st.threads A).priority < (s1.threads A).priority ∧
      (st.threads B).priority < (s1.threads B).priority ∧
      (s1.threads C).status = .THREAD_BLOCKED ∧
      schedule s1 A = some s2 ∧ lock_release s2 L1 = some s3 ∧
      (s3.threads A).priority = bA ∧
      schedule s3 B = some s4 ∧ lock_acquire_wake s4 L1 = some s5 ∧
      (s5.locks L1).holder = some B ∧
      lock_release s5 L2 = some s6 ∧
      (s6.threads A).priority = bA ∧ (s6.threads B).priority = bB := by
  have hBA : B ≠ A := fun h => hAB h.symm
  have hCA : C ≠ A := fun h => hAC h.symm
  have hCB : C ≠ B := fun h => hBC h.symm
  have hL : L1 ≠ L2 := by
    intro h
    rw [h, h2] at h1
    exact hBA (Option.some.inj h1)
  -- C enters `lock_acquire` on L2 and donates along the chain
  obtain ⟨s0, a1, a2, a3, a4, _, a6, a7, a8⟩ :=
    lock_acquire_enter_chain fuel hAB hAC hBC hrun h1 h2 hBw (by rw [hBs]; decide) hAs
      (by omega) (by omega) (by rw [hC]; exact hltB)
  obtain ⟨s1, b1, b2, b3, b4, b5, b6⟩ :=
    lock_acquire_wake_block a2 (by rw [a3]; exact hv2)
  have hA1 : s1.threads A = s0.threads A := b5 A hAC
  have hB1 : s1.threads B = s0.threads B := b5 B hBC
  -- A runs and releases L1
  obtain ⟨s2, c1, c2, c3, c4, c5⟩ := schedule_spec b2 (by rw [hA1, a8]; exact hAs)
  have hL1s2 : s2.locks L1 = st.locks L1 := by rw [c3, b4 L1 hL, a4 L1 hL]
  have hB2 : s2.threads B = s0.threads B := by rw [c4 B hBA, hB1]
  obtain ⟨s3, d1, d2, d3, d4, d5, d6, _, _, d9, d10, _, d12⟩ :=
    @lock_release_spec s2 A L1 B [] c2 (by rw [hL1s2]; exact h1)
      (by rw [hL1s2, hw1]; rfl) (by rw [hL1s2, hw1]; simpa using hAB)
      (by rw [c5, hA1, a8]; simp; omega)
  have hA3dn : (s3.threads A).donation_no = 0 := by
    rw [d10, c5, hA1, a8, hL1s2]
    simp [hdA]
  have hA3 : (s3.threads A).priority = bA := by
    rw [(d12 hA3dn).1, c5, hA1, a8]
    have : (st.threads A).size.toNat ≠ 0 := by omega
    simp [Function.update_noteq (Ne.symm this), hbA]
  -- B is woken, completes its `lock_acquire` of L1
  obtain ⟨s4, f1, f2, f3, f4, f5⟩ := schedule_spec d2 (by rw [d6])
  obtain ⟨s5, g1, g2, g3, g4, g5, g6⟩ :=
    @lock_acquire_wake_pass s4 B L1 f2 (by rw [f3, d3]; simp [hL1s2, hv1, UINT_RANGE])
  have hL2s5 : s5.locks L2 = s1.locks L2 := by
    rw [g4 L2 (Ne.symm hL), f3, d4 L2 (Ne.symm hL), c3]
  have hB5 : s5.threads B =
      { s0.threads B with status := .THREAD_RUNNING, waiting_for := none } := by
    rw [g6, f5, d6, hB2]
  have hA5 : s5.threads A = s3.threads A := by rw [g5 A hAB, f4 A hAB]
  -- B releases L2
  obtain ⟨s6, k1, _, _, _, k5, _, _, _, k9, k10, _, k12⟩ :=
    @lock_release_spec s5 B L2 C [] g2 (by rw [hL2s5, b3, a3]; exact h2)
      (by rw [hL2s5, b3, a3]; simp [hw2]; rfl)
      (by rw [hL2s5, b3, a3]; simpa [hw2, list_insert_ordered] using hBC)
      (by rw [hB5, a7]; simp; omega)
  have hB6dn : (s6.threads B).donation_no = 0 := by
    rw [k10, hB5, a7, hL2s5, b3, a3]
    cases hd : (st.locks L2).is_donated <;> simp [hdB, hd]
  have hB6 : (s6.threads B).priority = bB := by
    rw [(k12 hB6dn).1, hB5, a7]
    have : (st.threads B).size.toNat ≠ 0 := by omega
    simp [Function.update_noteq (Ne.symm this), hbB]
  refine ⟨s1, s2, s3, s4, s5, s6, by simp only [lock_acquire, a1, b1], ?_, ?_, ?_, ?_, ?_, c1,
    d1, hA3, f1, g1, ?_, k1, ?_, hB6⟩
  · rw [hA1, a8, hC]
  · rw [hB1, a7, hC]
  · rw [hA1, a8, hC]; exact hltA
  · rw [hB1, a7, hC]; exact hltB
  · rw [b6]
  · rw [g3]
  · rw [k5 A hAB hAC, hA5, hA3]

/-- Witness for C6: A = thread 0 (base 1), B = thread 1 (base 5), C = thread 3
with priority 10, L1 = lock 1, L2 = lock 2. -/
theorem chained_donation_witness :
    ∃ s1 s2 s3 s4 s5 s6,
      lock_acquire 2 chain_example 2 = some s1 ∧
      (s1.threads 0).priority = 10 ∧ (s1.threads 1).priority = 10 ∧
      (chain_example.threads 0).priority < (s1.threads 0).priority ∧
      (chain_example.threads 1).priority < (s1.threads 1).priority ∧
      (s1.threads 3).status = .THREAD_BLOCKED ∧
      schedule s1 0 = some s2 ∧ lock_release s2 1 = some s3 ∧
      (s3.threads 0).priority = 1 ∧
      schedule s3 1 = some s4 ∧ lock_acquire_wake s4 1 = some s5 ∧
      (s5.locks 1).holder = some 1 ∧
      lock_release s5 2 = some s6 ∧
      (s6.threads 0).priority = 1 ∧ (s6.threads 1).priority = 5 :=
  chained_donation chain_example 0 1 3 1 2 1 5 10 0 (by decide) (by decide) (by decide)
    (by decide) (by decide) (by decide) (by decide) (by decide) (by decide) (by decide)
    (by decide) (by decide) (by decide) (by decide) (by decide) (by decide) (by decide)
    (by decide) (by decide) (by decide) (by decide) (by decide)

/-- C7 fails on the code: thread 0 (base priority 10) holds lock 1, thread 1
(base 1) holds lock 2 and blocks on lock 1 without donating, thread 2 (base 5)
calls `lock_acquire` on lock 2.  The donation loop walks on from thread 1 to
thread 0 and overwrites its priority: thread 0 ends with effective priority 5,
below its base priority 10, and with donation count 0. -/
theorem chain_donation_lowers_holder :
    (lock_run (boot fun t => if t = 0 then 10 else if t = 1 then 1 else 5)
      [.run 0, .acquire 1 1, .preempt, .run 1, .acquire 2 1, .acquire 1 1, .run 2,
       .acquire 2 2]).map
      (fun s => (thread_view s 0, thread_view s 1, thread_view s 2, s.locks 1, s.locks 2))
    = some
      ((.THREAD_READY, 5, [10, 5], 0, none),
       (.THREAD_BLOCKED, 5, [1, 5], 1, some 1),
       (.THREAD_BLOCKED, 5, [5], 0, some 2),
       { holder := some 0, semaphore := { value := 0, waiters := [1] }, is_donated := false },
       { holder := some 1, semaphore := { value := 0, waiters := [2] }, is_donated := true }) := by
  rfl

/-- C9: for a running thread that does not hold the lock, `lock_try_acquire`
returns, and returns true exactly when `sema_try_down` on the embedded
semaphore succeeds, that is when the lock's counter is positive; on true the
caller is the holder, the counter is one less and the donated flag is kept; on
false the lock is unchanged; in both cases every other lock and the whole
thread table (effective priorities, recorded donations, donation counts,
`waiting_for`) are unchanged. -/
theorem lock_try_acquire_spec (st : State) (l : Lid) (cur : Tid)
    (hrun : st.running = some cur) (hnh : (st.locks l).holder ≠ some cur) :
    ∃ st1 b, lock_try_acquire st l = some (st1, b) ∧
      b = (sema_try_down st (.of_lock l)).2 ∧
      (b = true ↔ 0 < (st.locks l).semaphore.value) ∧
      (b = true →
        (st1.locks l).holder = some cur ∧
        (st1.locks l).semaphore.value + 1 = (st.locks l).semaphore.value ∧
        (st1.locks l).semaphore.waiters = (st.locks l).semaphore.waiters ∧
        (st1.locks l).is_donated = (st.locks l).is_donated) ∧
      (b = false → st1.locks l = st.locks l) ∧
      (∀ l2, l2 ≠ l → st1.locks l2 = st.locks l2) ∧
      st1.threads = st.threads ∧ st1.running = st.running := by
  unfold lock_try_acquire
  simp only [thread_current, hrun, hnh, if_false]
  unfold sema_try_down
  by_cases hv : 0 < (st.locks l).semaphore.value
  · simp only [get_sema, hv, if_true]
    refine ⟨_, true, rfl, rfl, by simp [hv], ?_, by simp, ?_, rfl, hrun⟩
    · intro _
      simp [set_sema, set_lock]
      omega
    · intro l2 hl
      simp [set_sema, set_lock, Function.update_noteq hl]
  · simp only [get_sema, hv, if_false]
    exact ⟨_, false, rfl, rfl, by simp [hv], by simp, fun _ => rfl, fun _ _ => rfl, rfl, hrun⟩

/-- Witness for C9: in `donation_example` lock 0 is held by thread 0, so the
running thread 1 fails to take it, and takes the free lock 1. -/
theorem lock_try_acquire_spec_witness :
    (∃ st1 b, lock_try_acquire donation_example 0 = some (st1, b) ∧ b = false ∧
      st1.locks 0 = donation_example.locks 0 ∧ st1.threads = donation_example.threads) ∧
    (∃ st1 b, lock_try_acquire donation_example 1 = some (st1, b) ∧ b = true ∧
      (st1.locks 1).holder = some 1 ∧ st1.threads = donation_example.threads) := by
  obtain ⟨s, b, h1, h2, h3, _, h5, _, h7, _⟩ :=
    lock_try_acquire_spec donation_example 0 1 (by decide) (by decide)
  obtain ⟨s', b', k1, k2, k3, k4, _, _, k7, _⟩ :=
    lock_try_acquire_spec donation_example 1 1 (by decide) (by decide)
  have hb : b = false := by
    cases b
    · rfl
    · exact absurd (h3.1 rfl) (by decide)
  have hb' : b' = true := k3.2 (by decide)
  exact ⟨⟨s, b, h1, hb, h5 hb, h7⟩, ⟨s', b', k1, hb', (k4 hb').1, k7⟩⟩

/-- C10: `cond_signal` on a condition variable without waiters, called by the
running holder of the lock, returns and leaves the state as it was: the
condition variable, the lock, every semaphore and every thread. -/
theorem cond_signal_no_waiters (st : State) (c : Nat) (l : Lid) (cur : Tid)
    (hrun : st.running = some cur) (hh : (st.locks l).holder = some cur)
    (he : (st.conds c).waiters = []) :
    cond_signal st c l = some st := by
  have hc : st.conds c = { waiters := [] } := by
    cases hcc : st.conds c
    rw [hcc] at he
    simp only at he
    rw [he]
  unfold cond_signal
  simp only [lock_held_by_current_thread, thread_current, hrun, hh, decide_True, he,
    list_sort_partial, List.foldl_nil]
  simp [set_cond, hc]
  rw [← hc, Function.update_eq_self]

/-- Witness for C10: in `queue_example` the running thread 3 holds lock 0 and
condition variable 0 has no waiters. -/
theorem cond_signal_no_waiters_witness : cond_signal queue_example 0 0 = some queue_example :=
  cond_signal_no_waiters queue_example 0 0 3 (by decide) (by decide) (by decide)

/-! ## `cond_signal` with waiters -/

theorem compare_sema_eq {st : State} {a b : Tid}
    (ha : (st.waiter a).semaphore.waiters ≠ []) (hb : (st.waiter b).semaphore.waiters ≠ []) :
    compare_sema st a b = some (compare_priority (entry_view st) a b) := by
  unfold compare_sema compare_priority entry_view entry_priority
  cases hqa : (st.waiter a).semaphore.waiters with
  | nil => exact absurd hqa ha
  | cons fa ra =>
    cases hqb : (st.waiter b).semaphore.waiters with
    | nil => exact absurd hqb hb
    | cons fb rb => simp [hqa, hqb]

theorem list_insert_ordered_partial_eq {α : Type} {less : α → α → Option Bool}
    {less2 : α → α → Bool} (x : α) (l : List α)
    (h : ∀ e ∈ l, less x e = some (less2 x e)) :
    list_insert_ordered_partial less x l = some (list_insert_ordered less2 x l) := by
  induction l with
  | nil => rfl
  | cons e rest ih =>
    have he := h e (List.mem_cons_self _ _)
    have ih2 := ih (fun y hy => h y (List.mem_cons_of_mem _ hy))
    simp only [list_insert_ordered, list_insert_ordered_partial, he]
    cases hc : less2 x e
    · simp [ih2]
    · simp

theorem list_sort_partial_fold_eq {α : Type} {less : α → α → Option Bool}
    {less2 : α → α → Bool} (l : List α) :
    ∀ acc : List α, (∀ a ∈ l, ∀ b ∈ acc ++ l, less a b = some (less2 a b)) →
      l.foldl
        (fun acc x =>
          match acc with
          | none => none
          | some a => list_insert_ordered_partial less x a)
        (some acc)
      = some (l.foldl (fun acc x => list_insert_ordered less2 x acc) acc) := by
  induction l with
  | nil => intro acc _; rfl
  | cons x xs ih =>
    intro acc h
    simp only [List.foldl_cons]
    rw [list_insert_ordered_partial_eq x acc
      (fun e he => h x (List.mem_cons_self _ _) e (List.mem_append_left _ he))]
    apply ih
    intro a ha b hb
    apply h a (List.mem_cons_of_mem _ ha) b
    rcases List.mem_append.1 hb with hb | hb
    · rcases List.mem_cons.1 ((list_insert_ordered_perm less2 x acc).mem_iff.1 hb) with rfl | hb
      · exact List.mem_append_right _ (List.mem_cons_self _ _)
      · exact List.mem_append_left _ hb
    · exact List.mem_append_right _ (List.mem_cons_of_mem _ hb)

/-- A sort whose comparisons all succeed is the sort by the values they give. -/
theorem list_sort_partial_eq {α : Type} {less : α → α → Option Bool}
    {less2 : α → α → Bool} (l : List α)
    (h : ∀ a ∈ l, ∀ b ∈ l, less a b = some (less2 a b)) :
    list_sort_partial less l = some (list_sort less2 l) := by
  unfold list_sort_partial list_sort
  exact list_sort_partial_fold_eq l [] (by simpa using h)

theorem cond_sort_eq {st : State} {ws : List Tid}
    (hq : ∀ w ∈ ws, (st.waiter w).semaphore.waiters ≠ []) :
    list_sort_partial (compare_sema st) ws
      = some (list_sort (compare_priority (entry_view st)) ws) :=
  list_sort_partial_eq ws (fun a ha b hb => compare_sema_eq (hq a ha) (hq b hb))

theorem sema_up_waiter_frame {st st1 : State} {w : Tid}
    (h : sema_up st (.of_waiter w) = some st1) :
    st1.conds = st.conds ∧ st1.locks = st.locks ∧ st1.semas = st.semas ∧
    (∀ x, x ≠ w → st1.waiter x = st.waiter x) := by
  unfold sema_up thread_yield thread_current at h
  simp only [running_set_sema] at h
  split at h
  · simp at h
  · simp only [Option.some.injEq] at h
    subst h
    split <;>
      simp +contextual [set_sema, set_thread, thread_unblock, get_sema, Function.update_apply]

theorem sema_up_yielded {st st1 : State} {sema : sema_ref} {cur : Tid}
    (hrun : st.running = some cur) (h : sema_up st sema = some st1) :
    (st1.threads cur).status = .THREAD_READY := by
  unfold sema_up thread_yield thread_current at h
  simp only [running_set_sema] at h
  split at h
  · simp at h
  · rename_i cur2 hr
    simp only [Option.some.injEq] at h
    subst h
    have hc : cur2 = cur := by
      split at hr
      · rw [hrun] at hr; exact (Option.some.inj hr).symm
      · simp only [thread_unblock, running_set_thread, running_set_sema, hrun] at hr
        exact (Option.some.inj hr).symm
    subst hc
    simp [set_thread]

/-- The whole effect of a `cond_signal` that finds waiters: `w` is the front of
the resorted waiter queue and `f` the front of the resorted queue of its
private semaphore. -/
theorem cond_signal_effect {st : State} {c : Nat} {l : Lid} {cur w f : Tid}
    {rest rest2 : List Tid}
    (hrun : st.running = some cur) (hh : (st.locks l).holder = some cur)
    (hq : ∀ x ∈ (st.conds c).waiters, (st.waiter x).semaphore.waiters ≠ [])
    (hs : list_sort (compare_priority (entry_view st)) (st.conds c).waiters = w :: rest)
    (hs2 : list_sort (compare_priority st) (st.waiter w).semaphore.waiters = f :: rest2) :
    ∃ st1, cond_signal st c l = some st1 ∧ st1.running = none ∧
      (st1.conds c).waiters = rest ∧
      (st1.waiter w).semaphore
        = { value := ((st.waiter w).semaphore.value + 1) % UINT_RANGE, waiters := rest2 } ∧
      (∀ x, x ≠ w → st1.waiter x = st.waiter x) ∧
      st1.locks = st.locks ∧
      (st1.threads f).status = .THREAD_READY ∧
      (st1.threads cur).status = .THREAD_READY ∧
      (∀ t, t ≠ f → t ≠ cur → st1.threads t = st.threads t) ∧
      (∀ t, (st1.threads t).priority = (st.threads t).priority) := by
  have hsig : cond_signal st c l
      = sema_up (set_cond (set_cond st c { st.conds c with waiters := w :: rest }) c
          { waiters := rest }) (.of_waiter w) := by
    unfold cond_signal
    simp only [lock_held_by_current_thread, thread_current, hrun, hh, decide_True,
      cond_sort_eq hq, hs]
  obtain ⟨st1, u1, u2, u3, u4⟩ :=
    @sema_up_cons (set_cond (set_cond st c { st.conds c with waiters := w :: rest }) c
      { waiters := rest }) cur (.of_waiter w) f rest2 hrun hs2
  have hrun0 : (set_cond (set_cond st c { st.conds c with waiters := w :: rest }) c
      { waiters := rest }).running = some cur := hrun
  have hval := sema_up_value u1
  obtain ⟨v1, v2, _, v4⟩ := sema_up_waiter_frame u1
  have hsem : (st1.waiter w).semaphore
      = { value := ((st.waiter w).semaphore.value + 1) % UINT_RANGE, waiters := rest2 } := by
    have h1 : (st1.waiter w).semaphore.value
        = ((st.waiter w).semaphore.value + 1) % UINT_RANGE := hval
    have h2 : (st1.waiter w).semaphore.waiters = rest2 := u2
    cases hsw : (st1.waiter w).semaphore
    rw [hsw] at h1 h2
    simp only at h1 h2
    rw [h1, h2]
  refine ⟨st1, by rw [hsig, u1], sema_up_running u1, ?_, hsem, fun x hx => v4 x hx, ?_, u3,
    sema_up_yielded hrun0 u1, u4, fun t => (sema_up_threads u1 t).1⟩
  · rw [v1]; simp [set_cond]
  · rw [v2]; rfl

/-- C11: `cond_signal` by the running holder of the lock, on a condition
variable whose waiter queue is not empty and whose entries each have a thread
queued on their private semaphore, returns; it removes exactly one entry `w`
from the queue, one whose first queued thread has maximal effective priority
among the first queued threads of all entries; it ups the private semaphore of
`w` once (counter incremented as an `unsigned`, one queued thread `f` of
maximal priority made ready and dequeued); every other entry stays queued with
its semaphore untouched, and no other thread and no lock is touched. -/
theorem cond_signal_wakes_highest (st : State) (c : Nat) (l : Lid) (cur : Tid)
    (hrun : st.running = some cur) (hh : (st.locks l).holder = some cur)
    (hne : (st.conds c).waiters ≠ [])
    (hq : ∀ w ∈ (st.conds c).waiters, (st.waiter w).semaphore.waiters ≠ []) :
    ∃ w f st1, cond_signal st c l = some st1 ∧ w ∈ (st.conds c).waiters ∧
      (∀ x ∈ (st.conds c).waiters, entry_priority st x ≤ entry_priority st w) ∧
      (w :: (st1.conds c).waiters).Perm (st.conds c).waiters ∧
      (st1.waiter w).semaphore.value
        = ((st.waiter w).semaphore.value + 1) % UINT_RANGE ∧
      ((st.waiter w).semaphore.value + 1 < UINT_RANGE →
        (st1.waiter w).semaphore.value = (st.waiter w).semaphore.value + 1) ∧
      f ∈ (st.waiter w).semaphore.waiters ∧
      (∀ g ∈ (st.waiter w).semaphore.waiters,
        (st.threads g).priority ≤ (st.threads f).priority) ∧
      (st1.threads f).status = .THREAD_READY ∧
      (f :: (st1.waiter w).semaphore.waiters).Perm (st.waiter w).semaphore.waiters ∧
      (∀ x, x ≠ w → st1.waiter x = st.waiter x) ∧
      (∀ t, t ≠ f → t ≠ cur → st1.threads t = st.threads t) ∧
      st1.locks = st.locks := by
  cases hs : list_sort (compare_priority (entry_view st)) (st.conds c).waiters with
  | nil => exact absurd hs (list_sort_ne_nil _ hne)
  | cons w rest =>
    obtain ⟨m1, m2, m3⟩ := list_sort_front (entry_view st) _ w rest hs
    cases hs2 : list_sort (compare_priority st) (st.waiter w).semaphore.waiters with
    | nil => exact absurd hs2 (list_sort_ne_nil _ (hq w m1))
    | cons f rest2 =>
      obtain ⟨n1, n2, n3⟩ := list_sort_front st _ f rest2 hs2
      obtain ⟨st1, e1, _, e3, e4, e5, e6, e7, _, e9, _⟩ := cond_signal_effect hrun hh hq hs hs2
      refine ⟨w, f, st1, e1, m1, m2, by rw [e3]; exact m3, by rw [e4], ?_, n1, n2, e7,
        by rw [e4]; exact n3, e5, e9, e6⟩
      intro hlt
      rw [e4]
      exact Nat.mod_eq_of_lt hlt

/-- Witness for C11: in `monitor_example` three entries wait on condition
variable 0, each with its owner queued, and the running thread 0 holds lock 0. -/
theorem cond_signal_wakes_highest_witness :
    ∃ w f st1, cond_signal monitor_example 0 0 = some st1 ∧
      w ∈ (monitor_example.conds 0).waiters ∧
      (∀ x ∈ (monitor_example.conds 0).waiters,
        entry_priority monitor_example x ≤ entry_priority monitor_example w) ∧
      (w :: (st1.conds 0).waiters).Perm (monitor_example.conds 0).waiters ∧
      (st1.waiter w).semaphore.value
        = ((monitor_example.waiter w).semaphore.value + 1) % UINT_RANGE ∧
      ((monitor_example.waiter w).semaphore.value + 1 < UINT_RANGE →
        (st1.waiter w).semaphore.value = (monitor_example.waiter w).semaphore.value + 1) ∧
      f ∈ (monitor_example.waiter w).semaphore.waiters ∧
      (∀ g ∈ (monitor_example.waiter w).semaphore.waiters,
        (monitor_example.threads g).priority ≤ (monitor_example.threads f).priority) ∧
      (st1.threads f).status = .THREAD_READY ∧
      (f :: (st1.waiter w).semaphore.waiters).Perm
        (monitor_example.waiter w).semaphore.waiters ∧
      (∀ x, x ≠ w → st1.waiter x = monitor_example.waiter x) ∧
      (∀ t, t ≠ f → t ≠ 0 → st1.threads t = monitor_example.threads t) ∧
      st1.locks = monitor_example.locks :=
  cond_signal_wakes_highest monitor_example 0 0 0 (by decide) (by decide) (by decide)
    (by decide)

/-! ## `cond_broadcast` -/

theorem schedule_frame {st st1 : State} {t : Tid} (h : schedule st t = some st1) :
    st1.conds = st.conds ∧ st1.waiter = st.waiter ∧ st1.semas = st.semas := by
  unfold schedule at h
  split at h
  · simp at h
  · split at h
    · simp only [Option.some.injEq] at h
      subst h
      exact ⟨rfl, rfl, rfl⟩
    · simp at h

theorem lock_acquire_wake_returns {st st1 : State} {l : Lid} {cur : Tid}
    (hrun : st.running = some cur) (h : lock_acquire_wake st l = some st1)
    (hret : st1.running = some cur) :
    (st1.locks l).holder = some cur ∧ lock_held_by_current_thread st1 l = some true ∧
      (st1.threads cur).waiting_for = none := by
  unfold lock_acquire_wake thread_current at h
  simp only [hrun] at h
  split at h
  · simp at h
  · rename_i s2 hd
    simp only [Option.some.injEq] at h
    subst h
    obtain ⟨_, _, hc⟩ := sema_down_cases hd
    rcases hc with ⟨hc, _⟩ | ⟨_, _, he⟩
    · simp at hc
    · subst he
      simp at hret
  · rename_i s2 hd
    simp only [Option.some.injEq] at h
    subst h
    simp [set_lock, set_thread, lock_held_by_current_thread, thread_current, hret] at hret ⊢
    simp [hret]

theorem lock_acquire_returns {fuel : Nat} {st st1 : State} {l : Lid} {cur : Tid}
    (hrun : st.running = some cur) (h : lock_acquire fuel st l = some st1)
    (hret : st1.running = some cur) :
    (st1.locks l).holder = some cur ∧ lock_held_by_current_thread st1 l = some true ∧
      (st1.threads cur).waiting_for = none := by
  unfold lock_acquire at h
  split at h
  · simp at h
  · rename_i s2 h2
    obtain ⟨hr, _, _⟩ := lock_acquire_enter_frame h2
    exact lock_acquire_wake_returns (by rw [hr]; exact hrun) h hret

theorem cond_wait_resume_returns {fuel : Nat} {st st1 : State} {l : Lid} {cur : Tid}
    (hrun : st.running = some cur) (h : cond_wait_resume fuel st l = some st1)
    (hret : st1.running = some cur) :
    (st1.locks l).holder = some cur ∧ lock_held_by_current_thread st1 l = some true ∧
      (st1.threads cur).waiting_for = none := by
  unfold cond_wait_resume thread_current at h
  simp only [hrun] at h
  split at h
  · simp at h
  · rename_i s2 hd
    simp only [Option.some.injEq] at h
    subst h
    obtain ⟨_, _, hc⟩ := sema_down_cases hd
    rcases hc with ⟨hc, _⟩ | ⟨_, _, he⟩
    · simp at hc
    · subst he
      simp at hret
  · rename_i s2 hd
    obtain ⟨_, _, hc⟩ := sema_down_cases hd
    rcases hc with ⟨_, _, he⟩ | ⟨hc, _⟩
    · subst he
      exact lock_acquire_returns (by rw [running_set_sema]; exact hrun) h hret
    · simp at hc

theorem holder_change_refl {st st1 : State} (l : Lid) (h : st1.locks = st.locks) :
    holder_change st st1 l := Or.inl (by rw [h])

theorem lock_acquire_wake_holder {st st1 : State} {l2 : Lid}
    (h : lock_acquire_wake st l2 = some st1) (l : Lid) : holder_change st st1 l := by
  unfold lock_acquire_wake thread_current at h
  split at h
  · simp at h
  · rename_i cur hr
    split at h
    · simp at h
    · rename_i s2 hd
      simp only [Option.some.injEq] at h
      subst h
      obtain ⟨_, _, hc⟩ := sema_down_cases hd
      rcases hc with ⟨hc, _⟩ | ⟨_, _, he⟩
      · simp at hc
      · subst he
        left
        by_cases hl : l = l2
        · subst hl; simp [set_sema, set_lock, set_thread]
        · simp [set_sema, set_lock, set_thread, Function.update_noteq hl]
    · rename_i s2 hd
      simp only [Option.some.injEq] at h
      subst h
      obtain ⟨_, _, hc⟩ := sema_down_cases hd
      rcases hc with ⟨_, _, he⟩ | ⟨hc, _⟩
      · subst he
        by_cases hl : l = l2
        · subst hl
          right; right
          exact ⟨cur, hr, by simpa [set_sema, set_lock, set_thread] using hr,
            by simp [set_sema, set_lock, set_thread]⟩
        · left
          simp [set_sema, set_lock, set_thread, Function.update_noteq hl]
      · simp at hc

theorem holder_change_trans_left {st s2 st1 : State} {l : Lid}
    (h1 : (s2.locks l).holder = (st.locks l).holder) (hr : s2.running = st.running)
    (h2 : holder_change s2 st1 l) : holder_change st st1 l := by
  unfold holder_change at h2 ⊢
  rw [h1, hr] at h2
  exact h2

theorem lock_acquire_holder {fuel : Nat} {st st1 : State} {l2 : Lid}
    (h : lock_acquire fuel st l2 = some st1) (l : Lid) : holder_change st st1 l := by
  unfold lock_acquire at h
  split at h
  · simp at h
  · rename_i s2 h2
    obtain ⟨hr, hf, _⟩ := lock_acquire_enter_frame h2
    exact holder_change_trans_left (hf l).1 hr (lock_acquire_wake_holder h l)

theorem lock_try_acquire_holder {st st1 : State} {l2 : Lid} {b : Bool}
    (h : lock_try_acquire st l2 = some (st1, b)) (l : Lid) : holder_change st st1 l := by
  unfold lock_try_acquire thread_current at h
  split at h
  · simp at h
  · rename_i cur hr
    split at h
    · simp at h
    · unfold sema_try_down at h
      by_cases hv : 0 < (get_sema st (.of_lock l2)).value
      · simp only [hv, if_true, Option.some.injEq, Prod.mk.injEq] at h
        obtain ⟨h1, _⟩ := h
        subst h1
        by_cases hl : l = l2
        · subst hl
          right; right
          exact ⟨cur, hr, hr, by simp [set_sema, set_lock]⟩
        · left
          simp [set_sema, set_lock, Function.update_noteq hl]
      · simp only [hv, if_false, Option.some.injEq, Prod.mk.injEq] at h
        obtain ⟨h1, _⟩ := h
        subst h1
        exact Or.inl rfl

theorem lock_release_holder {st st1 : State} {l2 : Lid}
    (h : lock_release st l2 = some st1) (l : Lid) : holder_change st st1 l := by
  unfold lock_release at h
  split at h
  · simp at h
  · rename_i st5 h5
    obtain ⟨cur, _, _, _, e1, _, e3⟩ := lock_release_enter_locks h5
    obtain ⟨u1, _, _, u4⟩ := sema_up_locks h
    by_cases hl : l = l2
    · subst hl
      right; left
      rw [u1, e1]
    · left
      rw [u4 l hl, e3 l hl]

theorem cond_wait_enter_locks {st st1 : State} {c : Nat} {l : Lid} {pos : Nat} {cur : Tid}
    (hrun : st.running = some cur) (h : cond_wait_enter st c l pos = some st1) :
    (st.locks l).holder = some cur ∧ (st1.locks l).holder = none ∧ st1.running = none ∧
      (∀ l2, l2 ≠ l → (st1.locks l2).holder = (st.locks l2).holder) := by
  unfold cond_wait_enter lock_held_by_current_thread thread_current at h
  simp only [hrun] at h
  by_cases hh : (st.locks l).holder = some cur
  · simp only [hh, decide_True] at h
    unfold lock_release at h
    split at h
    · simp at h
    · rename_i st5 h5
      obtain ⟨_, _, _, _, e1, _, e3⟩ := lock_release_enter_locks h5
      obtain ⟨u1, _, _, u4⟩ := sema_up_locks h
      refine ⟨hh, by rw [u1, e1], sema_up_running h, ?_⟩
      intro l2 hl
      rw [u4 l2 hl, e3 l2 hl]
      rfl
  · simp [hh] at h

theorem cond_wait_enter_holder {st st1 : State} {c : Nat} {l2 : Lid} {pos : Nat}
    (h : cond_wait_enter st c l2 pos = some st1) (l : Lid) : holder_change st st1 l := by
  cases hr : st.running with
  | none => simp [cond_wait_enter, lock_held_by_current_thread, thread_current, hr] at h
  | some cur =>
    obtain ⟨_, e2, _, e4⟩ := cond_wait_enter_locks hr h
    by_cases hl : l = l2
    · subst hl
      exact Or.inr (Or.inl e2)
    · exact Or.inl (e4 l hl)

theorem cond_wait_resume_holder {fuel : Nat} {st st1 : State} {l2 : Lid}
    (h : cond_wait_resume fuel st l2 = some st1) (l : Lid) : holder_change st st1 l := by
  unfold cond_wait_resume thread_current at h
  split at h
  · simp at h
  · rename_i cur hr
    split at h
    · simp at h
    · rename_i s2 hd
      simp only [Option.some.injEq] at h
      subst h
      obtain ⟨_, _, hc⟩ := sema_down_cases hd
      rcases hc with ⟨hc, _⟩ | ⟨_, _, he⟩
      · simp at hc
      · subst he
        exact Or.inl rfl
    · rename_i s2 hd
      obtain ⟨_, _, hc⟩ := sema_down_cases hd
      rcases hc with ⟨_, _, he⟩ | ⟨hc, _⟩
      · subst he
        exact @holder_change_trans_left st (set_sema st (.of_waiter cur) _) st1 l rfl
          (running_set_sema _ _ _) (lock_acquire_holder h l)
      · simp at hc

theorem cond_signal_locks {st st1 : State} {c : Nat} {l : Lid}
    (h : cond_signal st c l = some st1) : st1.locks = st.locks := by
  unfold cond_signal at h
  split at h
  · simp at h
  · simp at h
  · split at h
    · simp at h
    · split at h
      · simp only [Option.some.injEq] at h
        subst h
        rfl
      · exact (sema_up_waiter_frame h).2.1

theorem monitor_step_holder {st st1 : State} {e : monitor_event}
    (h : monitor_step st e = some st1) (l : Lid) : holder_change st st1 l := by
  cases e with
  | lock e =>
    simp only [monitor_step] at h
    cases e with
    | run t => exact holder_change_refl l (schedule_locks h)
    | preempt => exact holder_change_refl l (thread_yield_locks h)
    | acquire l2 fuel =>
      simp only [lock_event_step] at h
      split at h
      · simp at h
      · split at h
        · simp at h
        · exact lock_acquire_holder h l
    | wake =>
      simp only [lock_event_step] at h
      split at h
      · simp at h
      · split at h
        · simp at h
        · exact lock_acquire_wake_holder h l
    | try_acquire l2 =>
      simp only [lock_event_step] at h
      split at h
      · simp at h
      · split at h
        · simp at h
        · split at h
          · simp at h
          · rename_i s2 b h2
            simp only [Option.some.injEq] at h
            subst h
            exact lock_try_acquire_holder h2 l
    | release l2 =>
      simp only [lock_event_step] at h
      split at h
      · simp at h
      · split at h
        · simp at h
        · exact lock_release_holder h l
  | wait c l2 pos => exact cond_wait_enter_holder h l
  | wait_resume l2 fuel => exact cond_wait_resume_holder h l
  | signal c l2 => exact holder_change_refl l (cond_signal_locks h)

/-- C13: for a running thread `cur`: whenever `lock_acquire` returns to it,
directly or after it was blocked and woken, and whenever the rest of
`cond_wait` (from `sema_down` on the private semaphore on, ending in
`lock_acquire`) returns to it, the lock's holder is `cur`,
`lock_held_by_current_thread` is true and `cur`'s `waiting_for` is empty.  The
entry of `cond_wait` requires `cur` to hold the lock and leaves the lock
without holder, `cur` yielded and `lock_held_by_current_thread` false for
`cur`; and from any state in which `cur` does not hold the lock, a step makes
`cur` the holder only if `cur` executes it and is still running after it, so
`cur` does not hold the lock until its own acquisition returns. -/
theorem acquire_returns_holding (st : State) (l : Lid) (cur : Tid)
    (hrun : st.running = some cur) :
    (∀ fuel st1, lock_acquire fuel st l = some st1 → st1.running = some cur →
      (st1.locks l).holder = some cur ∧ lock_held_by_current_thread st1 l = some true ∧
        (st1.threads cur).waiting_for = none) ∧
    (∀ st1, lock_acquire_wake st l = some st1 → st1.running = some cur →
      (st1.locks l).holder = some cur ∧ lock_held_by_current_thread st1 l = some true ∧
        (st1.threads cur).waiting_for = none) ∧
    (∀ fuel st1, cond_wait_resume fuel st l = some st1 → st1.running = some cur →
      (st1.locks l).holder = some cur ∧ lock_held_by_current_thread st1 l = some true ∧
        (st1.threads cur).waiting_for = none) ∧
    (∀ c pos st1, cond_wait_enter st c l pos = some st1 →
      (st.locks l).holder = some cur ∧ (st1.locks l).holder = none ∧ st1.running = none ∧
        lock_held_by_current_thread { st1 with running := some cur } l = some false) ∧
    (∀ s e s1, monitor_step s e = some s1 → (s.locks l).holder ≠ some cur →
      (s1.locks l).holder = some cur → s.running = some cur ∧ s1.running = some cur) := by
  refine ⟨fun fuel st1 h hret => lock_acquire_returns hrun h hret,
    fun st1 h hret => lock_acquire_wake_returns hrun h hret,
    fun fuel st1 h hret => cond_wait_resume_returns hrun h hret, ?_, ?_⟩
  · intro c pos st1 h
    obtain ⟨e1, e2, e3, _⟩ := cond_wait_enter_locks hrun h
    refine ⟨e1, e2, e3, ?_⟩
    simp [lock_held_by_current_thread, thread_current, e2]
  · intro s e s1 h hne hh
    rcases monitor_step_holder h l with h1 | h1 | ⟨t, h1, h2, h3⟩
    · rw [h1] at hh; exact absurd hh hne
    · rw [h1] at hh; simp at hh
    · rw [h3] at hh
      cases Option.some.inj hh
      exact ⟨h1, h2⟩

/-- Witness for C13: in `wait_example` thread 1, woken inside `cond_wait`,
continues and returns holding lock 0. -/
theorem acquire_returns_holding_witness :
    ((cond_wait_resume 1 wait_example 0).getD wait_example).running = some 1 ∧
    (((cond_wait_resume 1 wait_example 0).getD wait_example).locks 0).holder = some 1 ∧
    lock_held_by_current_thread ((cond_wait_resume 1 wait_example 0).getD wait_example) 0
      = some true ∧
    (((cond_wait_resume 1 wait_example 0).getD wait_example).threads 1).waiting_for = none :=
  ⟨by decide,
    (acquire_returns_holding wait_example 0 1 (by decide)).2.2.1 1
      ((cond_wait_resume 1 wait_example 0).getD wait_example)
      (option_eq_some_getD _ _ (by decide)) (by decide)⟩

/-! ## The donation loop -/

/-- C14 fails on the code: in `lowering_example` the running thread 2
(priority 5) calls `lock_acquire` on lock 2, held by thread 1 (priority 1),
which waits for lock 1, held by thread 0 with effective priority 10 (blocked
in a condition wait).  The call raises thread 1 to 5 and then lowers thread 0
from 10 to 5, recording 5 on its array. -/
theorem donation_walk_lowers_priority :
    (lowering_example.running, (lowering_example.locks 2).holder,
      (lowering_example.threads 1).waiting_for, (lowering_example.locks 1).holder,
      (lowering_example.threads 2).priority, (lowering_example.threads 1).priority,
      (lowering_example.threads 0).priority)
      = (some 2, some 1, some 1, some 0, 5, 1, 10) ∧
    (lock_acquire 2 lowering_example 2).map
      (fun s => ((s.threads 1).priority, (s.threads 0).priority, thread_view s 0))
      = some (5, 5, (.THREAD_BLOCKED, 5, [10, 5], 0, none)) :=
  ⟨by decide, rfl⟩

/-- C15 fails on the code: in `orphan_example` the chain from the running
thread 3 is: lock 2, its holder thread 1 (blocked, not ready), thread 1's
`waiting_for` lock 1, which has no holder.  The chain has no cycle, yet
`lock_acquire` on lock 2 does not get through its donation loop for any bound
on the iterations: after the push on thread 1 the loop reads the holder of
lock 1, which is a null pointer. -/
theorem donation_walk_reads_null_holder :
    (orphan_example.running, (orphan_example.locks 2).holder,
      (orphan_example.threads 1).status, (orphan_example.threads 1).waiting_for,
      (orphan_example.locks 1).holder, (orphan_example.locks 1).semaphore.waiters)
      = (some 3, some 1, .THREAD_BLOCKED, some 1, none, [1]) ∧
    ∀ fuel, lock_acquire fuel orphan_example 2 = none := by
  refine ⟨by decide, fun fuel => ?_⟩
  rcases fuel with _ | _ | n
  · rfl
  · rfl
  · rfl

/-- C17 fails on the code: in `relay_example` the running thread 2 (priority
10) calls `lock_acquire` on lock 2, held by thread 1, which waits for lock 1,
held by thread 0 (priority 5).  The call pushes 10 on thread 0's array and
raises it from 5 to 10, a boost relayed by thread 1, a waiter on lock 1; lock
1 is held and still has its donated flag false. -/
theorem relayed_boost_leaves_flag_false :
    ((relay_example.threads 0).priority, (relay_example.locks 1).is_donated) = (5, false) ∧
    (lock_acquire 2 relay_example 2).map
      (fun s => (thread_view s 0, s.locks 1, s.locks 2))
      = some ((.THREAD_BLOCKED, 10, [5, 10], 0, none),
          { holder := some 0, semaphore := { value := 0, waiters := [1] },
            is_donated := false },
          { holder := some 1, semaphore := { value := 0, waiters := [2] },
            is_donated := true }) :=
  ⟨by decide, rfl⟩

/-! ## Contended acquisition without donation -/

/-- C18: a `lock_acquire` on a lock held by another thread whose effective
priority is at least the caller's reaches `sema_down` having changed nothing
but the caller's `waiting_for`, which names the lock: every other thread record
is the same, the caller's priority, recorded priorities, size, donation count
and status are the same, and so are all locks (the donated flag included), the
semaphores and condition variables.  With the lock's semaphore at 0 the call
then queues the caller and blocks it, again without a change to any priority,
recorded priority, size, donation count or donated flag. -/
theorem contended_acquire_without_donation (fuel : Nat) (st : State) (l : Lid) (cur h : Tid)
    (hrun : st.running = some cur) (hh : (st.locks l).holder = some h) (hne : h ≠ cur)
    (hge : (st.threads cur).priority ≤ (st.threads h).priority) :
    (∃ st1, lock_acquire_enter fuel st l = some st1 ∧
      st1 = set_thread st cur { st.threads cur with waiting_for := some l } ∧
      (st1.threads cur).waiting_for = some l ∧
      (∀ t, t ≠ cur → st1.threads t = st.threads t) ∧
      (∀ t, (st1.threads t).priority = (st.threads t).priority ∧
        (st1.threads t).priorities = (st.threads t).priorities ∧
        (st1.threads t).size = (st.threads t).size ∧
        (st1.threads t).donation_no = (st.threads t).donation_no ∧
        (st1.threads t).status = (st.threads t).status) ∧
      st1.locks = st.locks ∧ st1.running = st.running ∧ st1.semas = st.semas ∧
      st1.conds = st.conds ∧ st1.waiter = st.waiter) ∧
    ((st.locks l).semaphore.value = 0 →
      ∃ st2, lock_acquire fuel st l = some st2 ∧ st2.running = none ∧
        (st2.threads cur).status = .THREAD_BLOCKED ∧
        (st2.threads cur).waiting_for = some l ∧
        cur ∈ (st2.locks l).semaphore.waiters ∧
        (∀ t, t ≠ cur → st2.threads t = st.threads t) ∧
        (∀ t, (st2.threads t).priority = (st.threads t).priority ∧
          (st2.threads t).priorities = (st.threads t).priorities ∧
          (st2.threads t).size = (st.threads t).size ∧
          (st2.threads t).donation_no = (st.threads t).donation_no) ∧
        (∀ l2, (st2.locks l2).is_donated = (st.locks l2).is_donated ∧
          (st2.locks l2).holder = (st.locks l2).holder)) := by
  have hne2 : ¬ (some h = some cur) := by simpa using hne
  have henter : lock_acquire_enter fuel st l
      = some (set_thread st cur { st.threads cur with waiting_for := some l }) := by
    unfold lock_acquire_enter
    simp only [thread_current, hrun, hh, hne2, if_false]
    have h1 : ¬ ((set_thread st cur { st.threads cur with waiting_for := some l }).threads h).priority
        < ((set_thread st cur { st.threads cur with waiting_for := some l }).threads cur).priority := by
      simp [set_thread, Function.update_noteq hne, not_lt, hge]
    simp only [h1, if_false]
  refine ⟨⟨_, henter, rfl, ?_, ?_, ?_, rfl, rfl, rfl, rfl, rfl⟩, ?_⟩
  · simp [set_thread]
  · intro t ht
    simp [set_thread, Function.update_noteq ht]
  · intro t
    by_cases ht : t = cur
    · subst ht; simp [set_thread]
    · simp [set_thread, Function.update_noteq ht]
  · intro hv
    have hrun1 : (set_thread st cur { st.threads cur with waiting_for := some l }).running
        = some cur := hrun
    have hv1 : ((set_thread st cur { st.threads cur with waiting_for := some l }).locks
        l).semaphore.value = 0 := hv
    obtain ⟨st2, h2, hr2, hl2, hlo, hto, hcur⟩ := lock_acquire_wake_block hrun1 hv1
    refine ⟨st2, ?_, hr2, ?_, ?_, ?_, ?_, ?_, ?_⟩
    · simp only [lock_acquire, henter, h2]
    · rw [hcur]
    · rw [hcur]; simp [set_thread]
    · rw [hl2]
      exact list_insert_ordered_mem _ _ _
    · intro t ht
      rw [hto t ht]
      simp [set_thread, Function.update_noteq ht]
    · intro t
      by_cases ht : t = cur
      · subst ht
        rw [hcur]
        simp [set_thread]
      · rw [hto t ht]
        simp [set_thread, Function.update_noteq ht]
    · intro l2
      by_cases hl : l2 = l
      · subst hl
        rw [hl2]
        simp [set_thread]
      · rw [hlo l2 hl]
        simp [set_thread]

/-- Witness for C18: in `contended_example` thread 1 (priority 1) calls
`lock_acquire` on lock 0, held by thread 0 (priority 10); it ends up queued and
blocked and nothing else has changed. -/
theorem contended_acquire_without_donation_witness :
    ∃ st2, lock_acquire 1 contended_example 0 = some st2 ∧ st2.running = none ∧
      (st2.threads 1).status = .THREAD_BLOCKED ∧
      (st2.threads 1).waiting_for = some 0 ∧
      1 ∈ (st2.locks 0).semaphore.waiters ∧
      (∀ t, t ≠ 1 → st2.threads t = contended_example.threads t) ∧
      (∀ t, (st2.threads t).priority = (contended_example.threads t).priority ∧
        (st2.threads t).priorities = (contended_example.threads t).priorities ∧
        (st2.threads t).size = (contended_example.threads t).size ∧
        (st2.threads t).donation_no = (contended_example.threads t).donation_no) ∧
      (∀ l2, (st2.locks l2).is_donated = (contended_example.locks l2).is_donated ∧
        (st2.locks l2).holder = (contended_example.locks l2).holder) :=
  (contended_acquire_without_donation 1 contended_example 0 1 0 (by decide) (by decide)
    (by decide) (by decide)).2 (by decide)

/-! ## Donation bookkeeping in calls that are not interrupted

The lemmas of this section are about `lock_run`: as long as no preemption falls
inside a lock call, the donated flags and the donation counts stay in step. -/

/-- The donation loop leaves donation counts, `waiting_for` and statuses alone
and never shrinks a recorded-priority array. -/
theorem donation_walk_threads :
    ∀ (fuel : Nat) (st st1 : State) (temp : Tid), donation_walk fuel st temp = some st1 →
      ∀ t, (st1.threads t).donation_no = (st.threads t).donation_no ∧
        (st1.threads t).waiting_for = (st.threads t).waiting_for ∧
        (st1.threads t).status = (st.threads t).status ∧
        (st.threads t).size ≤ (st1.threads t).size := by
  intro fuel
  induction fuel with
  | zero =>
    intro st st1 temp h
    simp only [donation_walk] at h
    split at h
    · simp only [Option.some.injEq] at h
      subst h
      simp
    · simp at h
  | succ n ih =>
    intro st st1 temp h
    simp only [donation_walk] at h
    split at h
    · simp only [Option.some.injEq] at h
      subst h
      simp
    · split at h
      · simp at h
      · rename_i hd hh
        split at h
        · simp at h
        · rename_i th hp
          obtain ⟨p1, p2, p3, _, p5, _, _⟩ := push_donation_fields hp
          have key : ∀ t, ((set_thread st hd th).threads t).donation_no
                = (st.threads t).donation_no ∧
              ((set_thread st hd th).threads t).waiting_for = (st.threads t).waiting_for ∧
              ((set_thread st hd th).threads t).status = (st.threads t).status ∧
              (st.threads t).size ≤ ((set_thread st hd th).threads t).size := by
            intro t
            by_cases ht : t = hd
            · subst ht
              simp only [set_thread, Function.update_same, p1, p2, p3, p5]
              refine ⟨trivial, trivial, trivial, ?_⟩
              omega
            · simp [set_thread, Function.update_noteq ht]
          split at h
          · simp only [Option.some.injEq] at h
            subst h
            exact key
          · intro t
            obtain ⟨a1, a2, a3, a4⟩ := ih _ _ _ h t
            obtain ⟨b1, b2, b3, b4⟩ := key t
            exact ⟨a1.trans b1, a2.trans b2, a3.trans b3, le_trans b4 a4⟩

/-- What the entry of `lock_acquire` does to the bookkeeping: only lock `l` can
change, and there only the donated flag, which is set only on a held lock; a
donation count moves exactly when the flag of a lock in that thread's hands
changes; a `waiting_for` that is new names `l`. -/
theorem lock_acquire_enter_step {fuel : Nat} {st st1 : State} {l : Lid}
    (h : lock_acquire_enter fuel st l = some st1) :
    (∀ l2, l2 ≠ l → st1.locks l2 = st.locks l2) ∧
    (∀ t, (st1.threads t).donation_no - (st.threads t).donation_no
        = donated_to st1 t l - donated_to st t l) ∧
    ((st1.locks l).is_donated = (st.locks l).is_donated ∨
      ((st.locks l).holder ≠ none ∧ (st1.locks l).is_donated = true)) ∧
    (∀ t l2, (st1.threads t).waiting_for = some l2 →
      l2 = l ∨ (st.threads t).waiting_for = some l2) ∧
    (∀ t, (st.threads t).size ≤ (st1.threads t).size) := by
  unfold lock_acquire_enter thread_current at h
  cases hr : st.running with
  | none => simp [hr] at h
  | some cur =>
    simp only [hr] at h
    split at h
    · simp at h
    · rename_i hne
      split at h
      · simp only [Option.some.injEq] at h
        subst h
        exact ⟨fun _ _ => rfl, fun t => by simp, Or.inl rfl, fun _ _ => Or.inr,
          fun _ => le_refl _⟩
      · rename_i hd hh
        have hw : ∀ t l2,
            ((set_thread st cur { st.threads cur with waiting_for := some l }).threads
              t).waiting_for = some l2 → l2 = l ∨ (st.threads t).waiting_for = some l2 := by
          intro t l2
          by_cases ht : t = cur
          · subst ht
            simp only [set_thread, Function.update_same, Option.some.injEq]
            intro e
            exact Or.inl e.symm
          · simp only [set_thread, Function.update_noteq ht]
            exact Or.inr
        have hdn : ∀ t,
            ((set_thread st cur { st.threads cur with waiting_for := some l }).threads
              t).donation_no = (st.threads t).donation_no ∧
            ((set_thread st cur { st.threads cur with waiting_for := some l }).threads
              t).size = (st.threads t).size := by
          intro t
          by_cases ht : t = cur
          · subst ht
            simp [set_thread]
          · simp [set_thread, Function.update_noteq ht]
        split at h
        · split at h
          · simp at h
          · rename_i st2 hwalk
            have hf := donation_walk_frame _ _ _ _ hwalk
            have ht2 := donation_walk_threads _ _ _ _ hwalk
            have hl2 : st2.locks = st.locks := hf.1
            simp only [Option.some.injEq] at h
            subst h
            refine ⟨?_, ?_, Or.inr ⟨by rw [hh]; simp, by simp [set_lock]⟩, ?_, ?_⟩
            · intro l2 hl
              split <;> simp [set_lock, set_thread, hl2, Function.update_noteq hl]
            · intro t
              cases hdon : (st.locks l).is_donated with
              | true =>
                have e1 : (st2.threads t).donation_no = (st.threads t).donation_no :=
                  ((ht2 t).1).trans (hdn t).1
                simp [donated_to, set_lock, set_thread, hl2, hdon, hh, e1]
              | false =>
                have e1 : (st2.threads t).donation_no = (st.threads t).donation_no :=
                  ((ht2 t).1).trans (hdn t).1
                by_cases ht : t = hd
                · subst ht
                  simp [donated_to, set_lock, set_thread, hl2, hdon, hh, e1]
                · have hne2 : ¬ (hd = t) := fun e => ht e.symm
                  simp [donated_to, set_lock, set_thread, hl2, hdon, hh, e1,
                    Function.update_noteq ht, hne2]
            · intro t l2 hwt
              refine hw t l2 ?_
              rw [← (ht2 t).2.1]
              revert hwt
              split
              · simp [set_lock]
              · by_cases ht : t = hd
                · subst ht
                  simp [set_lock, set_thread]
                · simp [set_lock, set_thread, Function.update_noteq ht]
            · intro t
              have e2 := (ht2 t).2.2.2
              rw [(hdn t).2] at e2
              split
              · simpa [set_lock] using e2
              · by_cases ht : t = hd
                · subst ht
                  simpa [set_lock, set_thread] using e2
                · simpa [set_lock, set_thread, Function.update_noteq ht] using e2
        · simp only [Option.some.injEq] at h
          subst h
          refine ⟨?_, ?_, Or.inl rfl, hw, ?_⟩
          · intro l2 _
            rfl
          · intro t
            rw [(hdn t).1]
            simp [donated_to, set_thread]
          · intro t
            rw [(hdn t).2]

/-- What the tail of `lock_acquire` does to the bookkeeping of its lock: the
caller is queued and blocked, or it takes a free lock, which is not marked
donated. -/
theorem lock_acquire_wake_step {st st1 : State} {l : Lid}
    (h : lock_acquire_wake st l = some st1) (hok : lock_ok (st.locks l))
    (hfree : (st.locks l).holder = none → (st.locks l).is_donated = false) :
    donation_step st st1 l ∧
    (∀ t l2, (st1.threads t).waiting_for = some l2 → (st.threads t).waiting_for = some l2) ∧
    (∀ t, (st1.threads t).size = (st.threads t).size) := by
  cases hr : st.running with
  | none => simp [lock_acquire_wake, thread_current, hr] at h
  | some cur =>
    by_cases hv : (st.locks l).semaphore.value = 0
    · obtain ⟨s, hs, _, hl, hlo, hto, hcur⟩ := @lock_acquire_wake_block st cur l hr hv
      rw [h, Option.some.injEq] at hs
      subst hs
      have hth : ∀ t, (st1.threads t).donation_no = (st.threads t).donation_no ∧
          (st1.threads t).waiting_for = (st.threads t).waiting_for ∧
          (st1.threads t).size = (st.threads t).size := by
        intro t
        by_cases ht : t = cur
        · subst ht
          rw [hcur]
          exact ⟨rfl, rfl, rfl⟩
        · rw [hto t ht]
          exact ⟨rfl, rfl, rfl⟩
      refine ⟨⟨hlo, ?_, ?_, ?_, ?_⟩, ?_, fun t => (hth t).2.2⟩
      · intro t
        rw [(hth t).1]
        simp [donated_to, hl]
      · unfold lock_ok at hok ⊢
        rw [hl]
        exact hok
      · rw [hl]
        exact hfree
      · intro _
        rw [hl]
        intro he
        have := list_insert_ordered_mem (compare_priority st) cur (st.locks l).semaphore.waiters
        simp only at he
        rw [he] at this
        simp at this
      · intro t l2 hw
        rw [(hth t).2.1] at hw
        exact hw
    · obtain ⟨s, hs, _, hl, hlo, hto, hcur⟩ := @lock_acquire_wake_pass st cur l hr hv
      rw [h, Option.some.injEq] at hs
      subst hs
      have hnone : (st.locks l).holder = none ∧ (st.locks l).semaphore.value = 1 := by
        rcases hok with hok | ⟨_, hok⟩
        · exact hok
        · exact absurd hok hv
      have hnd := hfree hnone.1
      have hth : ∀ t, (st1.threads t).donation_no = (st.threads t).donation_no ∧
          (st1.threads t).size = (st.threads t).size := by
        intro t
        by_cases ht : t = cur
        · subst ht
          rw [hcur]
          exact ⟨rfl, rfl⟩
        · rw [hto t ht]
          exact ⟨rfl, rfl⟩
      refine ⟨⟨hlo, ?_, ?_, ?_, ?_⟩, ?_, fun t => (hth t).2⟩
      · intro t
        rw [(hth t).1]
        simp [donated_to, hl, hnd, hnone.1]
      · right
        rw [hl]
        simp [hnone.2]
      · rw [hl]
        simp
      · rw [hl]
        simp [hnd]
      · intro t l2 hw
        by_cases ht : t = cur
        · subst ht
          rw [hcur] at hw
          simp at hw
        · rw [hto t ht] at hw
          exact hw

/-- Bookkeeping effect of a whole `lock_acquire` call up to its return or to
the point where the caller blocks. -/
theorem lock_acquire_step {fuel : Nat} {st st1 : State} {l : Lid}
    (h : lock_acquire fuel st l = some st1) (hok : donation_ok st l) :
    donation_step st st1 l ∧
    (∀ t l2, (st1.threads t).waiting_for = some l2 →
      l2 = l ∨ (st.threads t).waiting_for = some l2) ∧
    (∀ t, (st.threads t).size ≤ (st1.threads t).size) := by
  unfold lock_acquire at h
  split at h
  · simp at h
  · rename_i s he
    obtain ⟨_, hf, _⟩ := lock_acquire_enter_frame he
    obtain ⟨e1, e2, e3, e4, e5⟩ := lock_acquire_enter_step he
    have hok2 : lock_ok (s.locks l) := by
      have := hok.1
      unfold lock_ok at this ⊢
      rw [(hf l).1, (hf l).2]
      exact this
    have hfree2 : (s.locks l).holder = none → (s.locks l).is_donated = false := by
      intro hn
      rw [(hf l).1] at hn
      rcases e3 with e3 | ⟨e3, _⟩
      · rw [e3]
        exact hok.2.1 hn
      · exact absurd hn e3
    obtain ⟨⟨w1, w2, w3⟩, w4, w5⟩ := lock_acquire_wake_step h hok2 hfree2
    refine ⟨⟨?_, ?_, w3⟩, ?_, ?_⟩
    · intro l2 hl
      rw [w1 l2 hl, e1 l2 hl]
    · intro t
      have a := w2 t
      have b := e2 t
      omega
    · intro t l2 hw
      exact e4 t l2 (w4 t l2 hw)
    · intro t
      rw [w5 t]
      exact e5 t

/-- Bookkeeping effect of `lock_try_acquire`: it takes only a free lock, which
is not marked donated, and touches no thread record. -/
theorem lock_try_acquire_step {st st1 : State} {l : Lid} {b : Bool}
    (h : lock_try_acquire st l = some (st1, b)) (hok : donation_ok st l) :
    donation_step st st1 l ∧ st1.threads = st.threads := by
  unfold lock_try_acquire thread_current at h
  split at h
  · simp at h
  · rename_i cur hr
    split at h
    · simp at h
    · unfold sema_try_down at h
      by_cases hv : 0 < (get_sema st (.of_lock l)).value
      · simp only [hv, if_true, Option.some.injEq, Prod.mk.injEq] at h
        obtain ⟨h1, _⟩ := h
        subst h1
        simp only [get_sema] at hv
        have hnone : (st.locks l).holder = none ∧ (st.locks l).semaphore.value = 1 := by
          rcases hok.1 with h1 | ⟨_, h1⟩
          · exact h1
          · omega
        have hnd := hok.2.1 hnone.1
        refine ⟨⟨?_, ?_, ?_, ?_, ?_⟩, ?_⟩
        · intro l2 hl
          simp [set_sema, set_lock, Function.update_noteq hl]
        · intro t
          simp [donated_to, set_sema, set_lock, get_sema, hnd, hnone.1]
        · right
          simp [set_sema, set_lock, get_sema, hnone.2]
        · simp [set_sema, set_lock]
        · simp [set_sema, set_lock, get_sema, hnd]
        · simp [set_sema, set_lock]
      · simp only [hv, if_false, Option.some.injEq, Prod.mk.injEq] at h
        obtain ⟨h1, _⟩ := h
        subst h1
        exact ⟨⟨fun _ _ => rfl, fun t => by simp, hok⟩, rfl⟩

/-- The donated block of `lock_release` takes one off the donation count and
leaves `waiting_for` and the status alone. -/
theorem drop_donation_fields {t t1 : thread} {e : Int} (h : drop_donation t e = some t1) :
    t1.donation_no = t.donation_no - 1 ∧ t1.waiting_for = t.waiting_for ∧
    t1.status = t.status := by
  obtain ⟨_, f2, _, f4, f5⟩ := search_array_fields { t with donation_no := t.donation_no - 1 } e
  unfold drop_donation at h
  simp only at h
  split at h
  · simp at h
  · simp only [Option.some.injEq] at h
    subst h
    exact ⟨f4, f5, f2⟩

/-- What `lock_release` has done to the bookkeeping when it reaches `sema_up`:
the lock has no holder and is not marked donated, and the caller's donation
count is one less if the lock was marked donated. -/
theorem lock_release_enter_step {st st5 : State} {l : Lid}
    (h : lock_release_enter st l = some st5) :
    ∃ cur, st.running = some cur ∧ (st.locks l).holder = some cur ∧
      (st5.locks l).holder = none ∧ (st5.locks l).is_donated = false ∧
      (st5.locks l).semaphore.value = (st.locks l).semaphore.value ∧
      (∀ l2, l2 ≠ l → st5.locks l2 = st.locks l2) ∧
      (∀ t, t ≠ cur → st5.threads t = st.threads t) ∧
      (st5.threads cur).waiting_for = (st.threads cur).waiting_for ∧
      (st5.threads cur).donation_no =
        (st.threads cur).donation_no - (if (st.locks l).is_donated then 1 else 0) := by
  unfold lock_release_enter thread_current at h
  cases hr : st.running with
  | none => simp [hr] at h
  | some cur =>
    simp only [hr] at h
    split at h
    · simp at h
    · rename_i hh
      simp only [ne_eq, not_not] at hh
      refine ⟨cur, rfl, hh, ?_⟩
      split at h
      · simp at h
      · rename_i st3 h3
        simp only [Option.some.injEq] at h
        subst h
        obtain ⟨r1, r2, r3, r4, _⟩ := reset_donations_spec (st3.threads cur)
        unfold release_donation at h3
        cases hd : (st.locks l).is_donated with
        | true =>
          simp only [set_sema, set_lock, Function.update_same, hd, if_true] at h3
          split at h3
          · simp at h3
          · split at h3
            · simp at h3
            · rename_i t1 hdrop
              obtain ⟨d1, d2, d3⟩ := drop_donation_fields hdrop
              simp only [Option.some.injEq] at h3
              subst h3
              simp only [set_thread, Function.update_same] at r3 r4
              simp +contextual [set_lock, set_thread, Function.update_apply, r3, r4]
              exact ⟨d2, d1⟩
        | false =>
          simp only [set_sema, set_lock, Function.update_same, hd, Bool.false_eq_true,
            if_false, Option.some.injEq] at h3
          subst h3
          simp only at r3 r4
          simp +contextual [set_lock, set_thread, Function.update_apply, r3, r4, hd]

/-- Bookkeeping effect of `lock_release`. -/
theorem lock_release_step {st st1 : State} {l : Lid}
    (h : lock_release st l = some st1) (hok : donation_ok st l) :
    donation_step st st1 l ∧
    (∀ t, (st1.threads t).waiting_for = (st.threads t).waiting_for) := by
  unfold lock_release at h
  split at h
  · simp at h
  · rename_i st5 h5
    obtain ⟨cur, hr, hh, e1, e2, e3, e4, e5, e6, e7⟩ := lock_release_enter_step h5
    obtain ⟨u1, u2, u3, u4⟩ := sema_up_locks h
    have ut := sema_up_threads h
    have hv0 : (st.locks l).semaphore.value = 0 := by
      rcases hok.1 with ⟨hn, _⟩ | ⟨_, hv⟩
      · rw [hh] at hn
        simp at hn
      · exact hv
    have hnone : (st1.locks l).holder = none := by rw [u1, e1]
    have hnd : (st1.locks l).is_donated = false := by rw [u2, e2]
    refine ⟨⟨?_, ?_, ?_, ?_, ?_⟩, ?_⟩
    · intro l2 hl
      rw [u4 l2 hl, e4 l2 hl]
    · intro t
      rw [(ut t).2.2.2.1]
      by_cases ht : t = cur
      · subst ht
        rw [e7]
        cases hd : (st.locks l).is_donated <;> simp [donated_to, hnone, hh, hd]
      · rw [e5 t ht]
        have hne : ¬ (cur = t) := fun e => ht e.symm
        simp [donated_to, hnone, hh, hne]
    · left
      refine ⟨hnone, ?_⟩
      rw [u3, e3, hv0]
      decide
    · intro _
      exact hnd
    · intro hd
      rw [hnd] at hd
      simp at hd
    · intro t
      rw [(ut t).2.2.2.2]
      by_cases ht : t = cur
      · subst ht
        exact e6
      · rw [e5 t ht]

/-- A dispatch changes no donation count, `waiting_for` or array size. -/
theorem schedule_threads {st st1 : State} {t : Tid} (h : schedule st t = some st1) :
    ∀ u, (st1.threads u).donation_no = (st.threads u).donation_no ∧
      (st1.threads u).waiting_for = (st.threads u).waiting_for ∧
      (st1.threads u).size = (st.threads u).size := by
  unfold schedule at h
  split at h
  · simp at h
  · split at h
    · simp only [Option.some.injEq] at h
      subst h
      intro u
      by_cases hu : u = t
      · subst hu
        simp [set_thread]
      · simp [set_thread, Function.update_noteq hu]
    · simp at h

/-- A yield changes no donation count, `waiting_for` or array size. -/
theorem thread_yield_threads {st st1 : State} (h : thread_yield st = some st1) :
    ∀ u, (st1.threads u).donation_no = (st.threads u).donation_no ∧
      (st1.threads u).waiting_for = (st.threads u).waiting_for ∧
      (st1.threads u).size = (st.threads u).size := by
  unfold thread_yield thread_current at h
  split at h
  · simp at h
  · rename_i cur _
    simp only [Option.some.injEq] at h
    subst h
    intro u
    by_cases hu : u = cur
    · subst hu
      simp [set_thread]
    · simp [set_thread, Function.update_noteq hu]

/-- A step that leaves the locks and the donation counts alone is a step of
the bookkeeping on any lock. -/
theorem donation_step_of_frame {st st1 : State} (l0 : Lid) (hl : st1.locks = st.locks)
    (ht : ∀ t, (st1.threads t).donation_no = (st.threads t).donation_no)
    (hok : donation_ok st l0) : donation_step st st1 l0 := by
  refine ⟨fun l _ => by rw [hl], ?_, ?_⟩
  · intro t
    rw [ht t]
    simp [donated_to, hl]
  · unfold donation_ok at hok ⊢
    rw [hl]
    exact hok

/-- Every event is a step of the bookkeeping on one lock; unless the locks are
untouched, that lock is named by the event or by some thread's `waiting_for`.
A `waiting_for` that is new names the lock of an acquire event. -/
theorem lock_event_step_donation {st st1 : State} {e : lock_event}
    (h : lock_event_step st e = some st1) (hok : ∀ l, donation_ok st l) :
    (∃ l0, donation_step st st1 l0 ∧
      (st1.locks = st.locks ∨ e = .release l0 ∨ e = .try_acquire l0 ∨
        (∃ fuel, e = .acquire l0 fuel) ∨ ∃ t, (st.threads t).waiting_for = some l0)) ∧
    (∀ t l2, (st1.threads t).waiting_for = some l2 →
      (∃ fuel, e = .acquire l2 fuel) ∨ (st.threads t).waiting_for = some l2) := by
  cases e with
  | run t =>
    simp only [lock_event_step] at h
    have ht := schedule_threads h
    refine ⟨⟨0, donation_step_of_frame 0 (schedule_locks h) (fun u => (ht u).1) (hok 0),
      Or.inl (schedule_locks h)⟩, ?_⟩
    intro u l2 hw
    rw [(ht u).2.1] at hw
    exact Or.inr hw
  | preempt =>
    simp only [lock_event_step] at h
    have ht := thread_yield_threads h
    refine ⟨⟨0, donation_step_of_frame 0 (thread_yield_locks h) (fun u => (ht u).1) (hok 0),
      Or.inl (thread_yield_locks h)⟩, ?_⟩
    intro u l2 hw
    rw [(ht u).2.1] at hw
    exact Or.inr hw
  | acquire l fuel =>
    simp only [lock_event_step] at h
    split at h
    · simp at h
    · split at h
      · simp at h
      · obtain ⟨s1, s2, _⟩ := lock_acquire_step h (hok l)
        refine ⟨⟨l, s1, Or.inr (Or.inr (Or.inr (Or.inl ⟨fuel, rfl⟩)))⟩, ?_⟩
        intro t l2 hw
        rcases s2 t l2 hw with e | e
        · subst e
          exact Or.inl ⟨fuel, rfl⟩
        · exact Or.inr e
  | wake =>
    simp only [lock_event_step] at h
    split at h
    · simp at h
    · rename_i cur _
      split at h
      · simp at h
      · rename_i l hw
        obtain ⟨s1, s2, _⟩ := lock_acquire_wake_step h (hok l).1 (hok l).2.1
        exact ⟨⟨l, s1, Or.inr (Or.inr (Or.inr (Or.inr ⟨cur, hw⟩)))⟩,
          fun t l2 hw2 => Or.inr (s2 t l2 hw2)⟩
  | try_acquire l =>
    simp only [lock_event_step] at h
    split at h
    · simp at h
    · split at h
      · simp at h
      · split at h
        · simp at h
        · rename_i s b hs
          simp only [Option.some.injEq] at h
          subst h
          obtain ⟨s1, s2⟩ := lock_try_acquire_step hs (hok l)
          refine ⟨⟨l, s1, Or.inr (Or.inr (Or.inl rfl))⟩, ?_⟩
          intro t l2 hw
          rw [s2] at hw
          exact Or.inr hw
  | release l =>
    simp only [lock_event_step] at h
    split at h
    · simp at h
    · split at h
      · simp at h
      · obtain ⟨s1, s2⟩ := lock_release_step h (hok l)
        refine ⟨⟨l, s1, Or.inr (Or.inl rfl)⟩, ?_⟩
        intro t l2 hw
        rw [s2 t] at hw
        exact Or.inr hw

/-- A step of the bookkeeping keeps every lock in order. -/
theorem donation_step_ok {st st1 : State} {l0 : Lid} (h : donation_step st st1 l0)
    (hok : ∀ l, donation_ok st l) : ∀ l, donation_ok st1 l := by
  intro l
  by_cases hl : l = l0
  · subst hl
    exact h.2.2
  · have := hok l
    unfold donation_ok at this ⊢
    rw [h.1 l hl]
    exact this

/-- When only lock `l0` changes, the count below `n` moves by the change of
the indicator of `l0`, if `l0` is below `n`. -/
theorem donated_held_step {st st1 : State} {l0 : Nat}
    (hf : ∀ l : Nat, l ≠ l0 → st1.locks l = st.locks l) (t : Tid) :
    ∀ n, donated_held st1 t n
      = donated_held st t n + (if l0 < n then donated_to st1 t l0 - donated_to st t l0 else 0) := by
  intro n
  induction n with
  | zero => simp [donated_held]
  | succ n ih =>
    simp only [donated_held, ih]
    by_cases h1 : l0 < n
    · have hne : n ≠ l0 := by omega
      have e : donated_to st1 t n = donated_to st t n := by
        simp only [donated_to, hf n hne]
      rw [e, if_pos h1, if_pos (by omega)]
      omega
    · by_cases h2 : n = l0
      · subst h2
        rw [if_neg h1, if_pos (by omega)]
        omega
      · have e : donated_to st1 t n = donated_to st t n := by
          simp only [donated_to, hf n h2]
        rw [e, if_neg h1, if_neg (by omega)]
        omega

/-- Free locks do not count. -/
theorem donated_held_free {st : State} {N : Nat}
    (hN : ∀ l, N ≤ l → (st.locks l).holder = none) (t : Tid) :
    ∀ k, donated_held st t (N + k) = donated_held st t N := by
  intro k
  induction k with
  | zero => rfl
  | succ k ih =>
    have e : donated_to st t (N + k) = 0 := by
      simp [donated_to, hN (N + k) (by omega)]
    show donated_held st t (N + k) + donated_to st t (N + k) = _
    rw [ih, e, add_zero]

/-- The count of donated locks in a thread's hands does not depend on the
bound, once the bound is above every held lock. -/
theorem donated_held_bound {st : State} {N M : Nat}
    (hN : ∀ l, N ≤ l → (st.locks l).holder = none)
    (hM : ∀ l, M ≤ l → (st.locks l).holder = none) (t : Tid) :
    donated_held st t N = donated_held st t M := by
  rcases Nat.le_total N M with h | h
  · obtain ⟨k, rfl⟩ := Nat.exists_eq_add_of_le h
    exact (donated_held_free hN t k).symm
  · obtain ⟨k, rfl⟩ := Nat.exists_eq_add_of_le h
    exact donated_held_free hM t k

/-- The initial state is in order for every bound. -/
theorem donation_inv_boot (base : Tid → Int) (B : Nat) : donation_inv B (boot base) := by
  refine ⟨?_, fun _ _ => rfl, ?_, ?_⟩
  · intro l
    exact ⟨Or.inl ⟨rfl, rfl⟩, fun _ => rfl, fun h => by simp [boot] at h⟩
  · intro t l h
    simp [boot, fresh_thread] at h
  · intro t
    have h0 : ∀ l, 0 ≤ l → ((boot base).locks l).holder = none := fun _ _ => rfl
    have := donated_held_free h0 t B
    rw [Nat.zero_add] at this
    rw [this]
    rfl

/-- The lock an event names is below the event's bound. -/
theorem event_bound_le {e : lock_event} {l : Lid}
    (h : e = .release l ∨ e = .try_acquire l ∨ ∃ fuel, e = .acquire l fuel) :
    l < event_bound e := by
  rcases h with h | h | ⟨fuel, h⟩ <;> subst h <;> simp [event_bound]

/-- Every event that names only locks below `B` keeps the bookkeeping. -/
theorem lock_event_step_inv {B : Nat} {st st1 : State} {e : lock_event}
    (h : lock_event_step st e = some st1) (hB : event_bound e ≤ B)
    (hinv : donation_inv B st) : donation_inv B st1 := by
  obtain ⟨hok, hfree, hwait, hcount⟩ := hinv
  obtain ⟨⟨l0, hstep, hl0⟩, hw⟩ := lock_event_step_donation h hok
  have hsame : st1.locks = st.locks ∨ l0 < B := by
    rcases hl0 with h1 | h1 | h1 | h1 | ⟨t, h1⟩
    · exact Or.inl h1
    · exact Or.inr (lt_of_lt_of_le (event_bound_le (Or.inl h1)) hB)
    · exact Or.inr (lt_of_lt_of_le (event_bound_le (Or.inr (Or.inl h1))) hB)
    · exact Or.inr (lt_of_lt_of_le (event_bound_le (Or.inr (Or.inr h1))) hB)
    · exact Or.inr (hwait t l0 h1)
  refine ⟨donation_step_ok hstep hok, ?_, ?_, ?_⟩
  · intro l hl
    rcases hsame with h1 | h1
    · rw [h1]
      exact hfree l hl
    · rw [hstep.1 l (Nat.ne_of_gt (lt_of_lt_of_le h1 hl))]
      exact hfree l hl
  · intro t l2 hw2
    rcases hw t l2 hw2 with ⟨fuel, h1⟩ | h1
    · exact lt_of_lt_of_le (event_bound_le (Or.inr (Or.inr ⟨fuel, h1⟩))) hB
    · exact hwait t l2 h1
  · intro t
    have hd := hstep.2.1 t
    have hh := donated_held_step hstep.1 t B
    rcases hsame with h1 | h1
    · have e1 : donated_to st1 t l0 = donated_to st t l0 := by
        simp only [donated_to, h1]
      rw [e1] at hd hh
      have := hcount t
      split at hh <;> omega
    · have hh2 : donated_held st1 t B
          = donated_held st t B + (donated_to st1 t l0 - donated_to st t l0) := by
        rw [hh, if_pos h1]
      have := hcount t
      omega

/-- Every run that names only locks below `B` keeps the bookkeeping. -/
theorem lock_run_inv {B : Nat} (evs : List lock_event) :
    ∀ {st st1 : State}, lock_run st evs = some st1 → lock_bound evs ≤ B →
      donation_inv B st → donation_inv B st1 := by
  induction evs with
  | nil =>
    intro st st1 h _ hinv
    simp only [lock_run, Option.some.injEq] at h
    subst h
    exact hinv
  | cons e es ih =>
    intro st st1 h hB hinv
    simp only [lock_bound, max_le_iff] at hB
    simp only [lock_run] at h
    split at h
    · simp at h
    · rename_i st2 h2
      exact ih h hB.2 (lock_event_step_inv h2 hB.1 hinv)

/-- A `lock_acquire` on a held lock leaves the holder in place and does not
clear the donated flag. -/
theorem lock_acquire_contended {fuel : Nat} {st st1 : State} {l : Lid} {x : Tid}
    (h : lock_acquire fuel st l = some st1) (hok : lock_ok (st.locks l))
    (hh : (st.locks l).holder = some x) :
    (st1.locks l).holder = some x ∧
    ((st.locks l).is_donated = true → (st1.locks l).is_donated = true) := by
  unfold lock_acquire at h
  split at h
  · simp at h
  · rename_i s he
    obtain ⟨hr, hf, cur, hcur, _⟩ := lock_acquire_enter_frame he
    obtain ⟨_, _, e3, _, _⟩ := lock_acquire_enter_step he
    have hv : (s.locks l).semaphore.value = 0 := by
      rw [(hf l).2]
      rcases hok with ⟨hn, _⟩ | ⟨_, hv⟩
      · rw [hh] at hn
        simp at hn
      · exact hv
    obtain ⟨s2, hs, _, hl, _⟩ := @lock_acquire_wake_block s cur l (hr.trans hcur) hv
    rw [h, Option.some.injEq] at hs
    subst hs
    rw [hl]
    refine ⟨?_, ?_⟩
    · simp only
      rw [(hf l).1, hh]
    · intro hd
      simp only
      rcases e3 with e3 | ⟨_, e3⟩
      · rw [e3, hd]
      · exact e3

/-! ## `cond_signal` before a waiter has blocked -/

/-- C20 fails on the code: in `early_signal_example` thread 2 is inside
`cond_wait`, between the yield in `lock_release` and `sema_down` on its private
semaphore; its entry is in the waiter queue of condition variable 0 behind the
entry of thread 1, and no thread is queued on it.  Thread 3 holds lock 0 and
calls `cond_signal`: the sort compares the two entries, `compare_sema` takes
`list_front` of the empty queue of entry 2, and the call has no result. -/
theorem cond_signal_before_waiter_blocks :
    (early_signal_example.running, (early_signal_example.locks 0).holder,
      (early_signal_example.conds 0).waiters,
      (early_signal_example.waiter 1).semaphore.waiters,
      (early_signal_example.waiter 2).semaphore.waiters,
      (early_signal_example.threads 2).status)
      = (some 3, some 3, [1, 2], [1], [], .THREAD_READY) ∧
    lock_held_by_current_thread early_signal_example 0 = some true ∧
    compare_sema early_signal_example 2 1 = none ∧
    cond_signal early_signal_example 0 0 = none :=
  ⟨by decide, by decide, by decide, rfl⟩

/-! ## The donation loop on a chain of held locks -/

/-- The chain of holders depends on `waiting_for`, the statuses and the lock
holders only. -/
theorem chain_holders_congr {st st2 : State} (hl : st2.locks = st.locks)
    (ht : ∀ t, (st2.threads t).waiting_for = (st.threads t).waiting_for ∧
      (st2.threads t).status = (st.threads t).status) :
    ∀ (n : Nat) (temp : Tid), chain_holders n st2 temp = chain_holders n st temp := by
  intro n
  induction n with
  | zero =>
    intro temp
    simp only [chain_holders, (ht temp).1]
  | succ n ih =>
    intro temp
    simp only [chain_holders, (ht temp).1, hl]
    cases (st.threads temp).waiting_for with
    | none => rfl
    | some c =>
      simp only
      cases (st.locks c).holder with
      | none => rfl
      | some h => simp only [(ht h).2, ih h]

/-- On a chain of blocking locks that all have a holder, with no holder twice
on it and no negative array size, the donation loop of `lock_acquire` ends
within as many iterations as the chain has links, with the same result for
every larger bound; it pushes the caller's priority once on every holder of
the chain and leaves every other thread record and everything else alone. -/
theorem donation_walk_terminates :
    ∀ (n : Nat) (st : State) (temp : Tid) (hs : List Tid),
      chain_holders n st temp = some hs → hs.Nodup →
      (∀ t ∈ hs, 0 ≤ (st.threads t).size) →
      hs.length ≤ n ∧
      ∃ st1, (∀ fuel, hs.length ≤ fuel → donation_walk fuel st temp = some st1) ∧
        (∀ t, t ∉ hs → st1.threads t = st.threads t) ∧
        (∀ t, t ∈ hs →
          push_donation (st.threads t) (st.threads temp).priority = some (st1.threads t)) ∧
        st1.locks = st.locks ∧ st1.running = st.running := by
  intro n
  induction n with
  | zero =>
    intro st temp hs h _ _
    simp only [chain_holders] at h
    split at h
    · rename_i hw
      simp only [Option.some.injEq] at h
      subst h
      refine ⟨le_refl _, st, ?_, fun _ _ => rfl, ?_, rfl, rfl⟩
      · intro fuel _
        cases fuel <;> simp [donation_walk, hw]
      · intro t ht
        simp at ht
    · simp at h
  | succ n ih =>
    intro st temp hs h hnd hsz
    simp only [chain_holders] at h
    split at h
    · rename_i hw
      simp only [Option.some.injEq] at h
      subst h
      refine ⟨Nat.zero_le _, st, ?_, fun _ _ => rfl, ?_, rfl, rfl⟩
      · intro fuel _
        cases fuel <;> simp [donation_walk, hw]
      · intro t ht
        simp at ht
    · rename_i c hw
      split at h
      · simp at h
      · rename_i x hx
        have h0 := hsz x (by
          split at h
          · simp only [Option.some.injEq] at h
            subst h
            simp
          · split at h
            · simp at h
            · simp only [Option.some.injEq] at h
              subst h
              simp)
        obtain ⟨th, hp⟩ : ∃ th, push_donation (st.threads x) (st.threads temp).priority
            = some th := by
          unfold push_donation
          rw [if_neg (not_lt.2 h0)]
          exact ⟨_, rfl⟩
        obtain ⟨p1, p2, _, p4, _, _, _⟩ := push_donation_fields hp
        split at h
        · rename_i hready
          simp only [Option.some.injEq] at h
          subst h
          refine ⟨by simp, set_thread st x th, ?_, ?_, ?_, rfl, rfl⟩
          · intro fuel hf
            obtain ⟨f, rfl⟩ : ∃ f, fuel = f + 1 := ⟨fuel - 1, by simp at hf; omega⟩
            simp only [donation_walk, hw, hx, hp, p1, hready, if_true]
          · intro t ht
            have hne : t ≠ x := by simpa using ht
            simp [set_thread, Function.update_noteq hne]
          · intro t ht
            have hxt : t = x := by simpa using ht
            subst hxt
            rw [hp]
            simp [set_thread]
        · rename_i hready
          split at h
          · simp at h
          · rename_i hs2 hc
            simp only [Option.some.injEq] at h
            subst h
            have hx2 : x ∉ hs2 := (List.nodup_cons.1 hnd).1
            have hnd2 : hs2.Nodup := (List.nodup_cons.1 hnd).2
            have hth : ∀ t,
                ((set_thread st x th).threads t).waiting_for = (st.threads t).waiting_for ∧
                ((set_thread st x th).threads t).status = (st.threads t).status := by
              intro t
              by_cases ht : t = x
              · subst ht
                simp [set_thread, p1, p2]
              · simp [set_thread, Function.update_noteq ht]
            have hc2 : chain_holders n (set_thread st x th) x = some hs2 := by
              rw [@chain_holders_congr st (set_thread st x th) rfl hth n x]
              exact hc
            have hpx : ((set_thread st x th).threads x).priority = (st.threads temp).priority := by
              simp [set_thread, p4]
            obtain ⟨hlen, st1, w1, w2, w3, w4, w5⟩ := ih _ x hs2 hc2 hnd2 (by
              intro t ht
              have hne : t ≠ x := fun e => hx2 (e ▸ ht)
              simpa [set_thread, Function.update_noteq hne] using hsz t (by simp [ht]))
            rw [hpx] at w3
            refine ⟨by simpa using hlen, st1, ?_, ?_, ?_, w4, w5⟩
            · intro fuel hf
              obtain ⟨f, rfl⟩ : ∃ f, fuel = f + 1 := ⟨fuel - 1, by simp at hf; omega⟩
              simp only [donation_walk, hw, hx, hp, p1, hready, if_false]
              exact w1 f (by simpa using hf)
            · intro t ht
              have hne : t ≠ x := fun e => ht (by simp [e])
              have hn2 : t ∉ hs2 := fun e => ht (by simp [e])
              rw [w2 t hn2]
              simp [set_thread, Function.update_noteq hne]
            · intro t ht
              by_cases hxt : t = x
              · subst hxt
                rw [w2 t hx2, hp]
                simp [set_thread]
              · have ht2 : t ∈ hs2 := by
                  rcases List.mem_cons.1 ht with e | e
                  · exact absurd e hxt
                  · exact e
                have := w3 t ht2
                simpa [set_thread, Function.update_noteq hxt] using this

/-! ## The lock invariant at statement level -/

/-- C16 fails on the code: the run of `miscount_example` is an execution of the
lock functions, and at its end every call has returned (both threads stand in
no lock function); thread 0 holds no lock any more and has donation count 1 and
effective priority 5 above its base priority 1; thread 1 holds lock 0, whose
donated flag is set and whose queue is empty, and has donation count 0.  For
both threads the count differs from the number of donated locks held. -/
theorem preempted_donation_miscounts :
    stmt_run (boot_machine fun t => if t = 0 then 1 else 5)
      [.run 0, .acquire 0, .step, .step, .step, .step, .step, .preempt, .run 1, .acquire 0,
       .step, .step, .step, .step, .step, .step, .step, .step, .step, .step, .step, .step,
       .preempt, .run 0, .release 0, .step, .step, .step, .step, .step, .step,
       .run 1, .step, .step, .step, .step, .step] = some miscount_example ∧
    (miscount_example.st.running, miscount_example.pc 0, miscount_example.pc 1)
      = (some 1, .idle, .idle) ∧
    miscount_example.st.locks 0
      = { holder := some 1, semaphore := { value := 0, waiters := [] }, is_donated := true } ∧
    thread_view miscount_example.st 0 = (.THREAD_READY, 5, [1, 5], 1, none) ∧
    thread_view miscount_example.st 1 = (.THREAD_RUNNING, 5, [5], 0, none) ∧
    ((miscount_example.st.threads 0).donation_no, donated_held miscount_example.st 0 1) = (1, 0) ∧
    ((miscount_example.st.threads 1).donation_no, donated_held miscount_example.st 1 1) = (0, 1) :=
  ⟨option_eq_some_getD _ _ (by decide), by decide, by decide, by decide, by decide, by decide,
    by decide⟩

/-- C19 fails on the code: the run of `unqueued_example` is an execution of the
lock functions; at its end lock 0 is held by the running thread 0, which stands
in no lock function, its donated flag is set and its wait queue is empty,
because thread 1 stands at line 221, before the `sema_down` that would queue
it.  Thread 0 calls `lock_release`: four statements take it to line 262, where
`list_front` is applied to the empty queue, and the call has no result,
statement by statement or run without interruption.  The same happens with
every call returned: in `miscount_example` lock 0 is flagged with an empty
queue, and `lock_release` by its holder, thread 1, stops at line 262. -/
theorem preempted_donor_leaves_flag_without_waiter :
    stmt_run (boot_machine fun t => if t = 0 then 1 else 5)
      [.run 0, .acquire 0, .step, .step, .step, .step, .step, .preempt, .run 1, .acquire 0,
       .step, .step, .step, .step, .step, .step, .step, .step, .step, .step, .step, .step,
       .step, .step, .preempt, .run 0] = some unqueued_example ∧
    (unqueued_example.st.running, unqueued_example.pc 0, unqueued_example.pc 1)
      = (some 0, .idle, .acq_221 0) ∧
    unqueued_example.st.locks 0
      = { holder := some 0, semaphore := { value := 0, waiters := [] }, is_donated := true } ∧
    (stmt_run unqueued_example [.release 0, .step, .step, .step, .step]).map
        (fun m => (m.pc 0, (m.st.locks 0).is_donated, (m.st.locks 0).semaphore.waiters))
      = some (.rel_262 0, true, []) ∧
    (stmt_run unqueued_example [.release 0, .step, .step, .step, .step, .step]).isSome = false ∧
    (lock_release unqueued_example.st 0).isSome = false ∧
    (stmt_run miscount_example [.release 0, .step, .step, .step, .step]).map
        (fun m => (m.pc 0, m.pc 1, (m.st.locks 0).is_donated, (m.st.locks 0).semaphore.waiters))
      = some (.idle, .rel_262 0, true, []) ∧
    (stmt_run miscount_example [.release 0, .step, .step, .step, .step, .step]).isSome = false ∧
    (lock_release miscount_example.st 0).isSome = false :=
  ⟨option_eq_some_getD _ _ (by decide), by decide, by decide, by decide, by decide, by decide,
    by decide, by decide, by decide⟩

/-! ## Uninterrupted calls are statement-level executions

The functions `lock_acquire`, `lock_try_acquire` and `lock_release` compute
what the statements of `lock_stmt` compute when the calling thread executes them
in a row, and every run of `lock_run` is a run of `stmt_run`. -/

theorem stmt_run_append (a b : List stmt_event) :
    ∀ m : machine, stmt_run m (a ++ b) = (stmt_run m a).bind fun m1 => stmt_run m1 b := by
  induction a with
  | nil => intro m; rfl
  | cons e es ih =>
    intro m
    simp only [List.cons_append, stmt_run]
    cases stmt_event_step m e with
    | none => rfl
    | some m1 => exact ih m1

theorem stmt_steps_run (cur : Tid) :
    ∀ (n : Nat) (m : machine) (st1 : State) (p1 : lock_pc),
      stmt_steps cur n m.st (m.pc cur) = some (st1, p1) →
      stmt_run m (List.replicate n .step)
        = some { st := st1, pc := Function.update m.pc cur p1 } := by
  intro n
  induction n with
  | zero =>
    intro m st1 p1 h
    simp only [stmt_steps, Option.some.injEq, Prod.mk.injEq] at h
    obtain ⟨h1, h2⟩ := h
    subst h1
    subst h2
    simp [stmt_run]
  | succ n ih =>
    intro m st1 p1 h
    simp only [stmt_steps] at h
    split at h
    · rename_i hr
      cases hs : lock_stmt m.st cur (m.pc cur) with
      | none => simp [hs] at h
      | some r =>
        obtain ⟨st2, p2⟩ := r
        simp only [hs] at h
        have := ih { st := st2, pc := Function.update m.pc cur p2 } st1 p1
          (by simpa using h)
        simp only [List.replicate_succ, stmt_run, stmt_event_step, thread_current, hr, hs]
        rw [this]
        simp
    · simp at h

theorem stmt_steps_add (cur : Tid) (b : Nat) :
    ∀ (a : Nat) (st : State) (p : lock_pc),
      stmt_steps cur (a + b) st p
        = (stmt_steps cur a st p).bind fun r => stmt_steps cur b r.1 r.2 := by
  intro a
  induction a with
  | zero => intro st p; simp [stmt_steps]
  | succ a ih =>
    intro st p
    rw [Nat.add_right_comm]
    simp only [stmt_steps]
    split
    · cases lock_stmt st cur p with
      | none => rfl
      | some r => exact ih r.1 r.2
    · rfl

theorem stmt_steps_trans {cur : Tid} {a b : Nat} {st st1 st2 : State} {p p1 p2 : lock_pc}
    (h1 : stmt_steps cur a st p = some (st1, p1))
    (h2 : stmt_steps cur b st1 p1 = some (st2, p2)) :
    stmt_steps cur (a + b) st p = some (st2, p2) := by
  rw [stmt_steps_add, h1]
  exact h2

@[simp] theorem running_set_lock (st : State) (l : Lid) (lk : lock) :
    (set_lock st l lk).running = st.running := rfl

theorem lock_try_acquire_stmts {st st1 : State} {l : Lid} {b : Bool} {cur : Tid}
    (h : lock_try_acquire st l = some (st1, b)) (hr : st.running = some cur) :
    st1.threads = st.threads ∧
    ∃ n, stmt_steps cur n st (.try_238 l) = some (st1, .idle) := by
  unfold lock_try_acquire at h
  simp only [thread_current, hr] at h
  split at h
  · simp at h
  · rename_i hh
    cases hd : sema_try_down st (.of_lock l) with
    | mk s2 ok =>
      have hr2 : s2.running = some cur := by
        simp only [sema_try_down] at hd
        split at hd <;> simp only [Prod.mk.injEq] at hd <;> obtain ⟨hd, _⟩ := hd <;> subst hd <;>
          simp [hr]
      rw [hd] at h
      cases ok with
      | true =>
        simp only [Option.some.injEq, Prod.mk.injEq] at h
        obtain ⟨h, _⟩ := h
        subst h
        have ht2 : s2.threads = st.threads := by
          simp only [sema_try_down] at hd
          split at hd <;> simp only [Prod.mk.injEq] at hd <;> obtain ⟨hd, _⟩ := hd <;>
            subst hd <;> simp
        exact ⟨by simpa [set_lock] using ht2, 3, by simp [stmt_steps, lock_stmt, hr, hh, hd, hr2]⟩
      | false =>
        simp only [Option.some.injEq, Prod.mk.injEq] at h
        obtain ⟨h, _⟩ := h
        subst h
        have ht2 : s2.threads = st.threads := by
          simp only [sema_try_down] at hd
          split at hd <;> simp only [Prod.mk.injEq] at hd <;> obtain ⟨hd, _⟩ := hd <;>
            subst hd <;> simp
        exact ⟨ht2, 2, by simp [stmt_steps, lock_stmt, hr, hh, hd, hr2]⟩
theorem lock_release_enter_stmts {st st5 : State} {l : Lid} {cur : Tid}
    (he : lock_release_enter st l = some st5) (hr : st.running = some cur) :
    st5.running = some cur ∧
      (∀ t, (st5.threads t).waiting_for = (st.threads t).waiting_for) ∧
      ∃ n, stmt_steps cur n st (.rel_254 l) = some (st5, .rel_273 l) := by
  unfold lock_release_enter at he
  simp only [thread_current, hr] at he
  split at he
  · simp at he
  · rename_i hh
    simp only [ne_eq, not_not] at hh
    unfold release_donation at he
    by_cases hd : (st.locks l).is_donated = true
    · have hd2 : ((set_sema st (.of_lock l)
          { (st.locks l).semaphore with
            waiters := list_sort (compare_priority st) (st.locks l).semaphore.waiters }).locks l).is_donated
            = true := by simp [set_sema, set_lock, hd]
      simp only [hd2, if_true] at he
      cases hw : list_sort (compare_priority st) (st.locks l).semaphore.waiters with
      | nil => simp [set_sema, set_lock, hw] at he
      | cons front rest =>
        simp only [set_sema, set_lock, hw, Function.update_same] at he
        cases hdd : drop_donation (st.threads cur) (st.threads front).priority with
        | none => simp [hdd] at he
        | some t =>
          simp only [hdd, Option.some.injEq] at he
          subst he
          unfold drop_donation at hdd
          obtain ⟨t2, hg⟩ : ∃ t2, search_array
              { status := (st.threads cur).status, priority := (st.threads cur).priority,
                priorities := (st.threads cur).priorities, size := (st.threads cur).size,
                donation_no := (st.threads cur).donation_no - 1,
                waiting_for := (st.threads cur).waiting_for }
              (st.threads front).priority = t2 := ⟨_, rfl⟩
          simp only [hg] at hdd
          have hp : (Function.update st.threads cur
              { status := (st.threads cur).status, priority := (st.threads cur).priority,
                priorities := (st.threads cur).priorities, size := (st.threads cur).size,
                donation_no := (st.threads cur).donation_no - 1,
                waiting_for := (st.threads cur).waiting_for }
              front).priority = (st.threads front).priority := by
            by_cases hfc : front = cur
            · subst hfc; simp
            · simp [Function.update_noteq hfc]
          split at hdd
          · simp at hdd
          · rename_i hsz
            simp only [Option.some.injEq] at hdd
            subst hdd
            unfold reset_donations
            have f := search_array_fields
              { status := (st.threads cur).status, priority := (st.threads cur).priority,
                priorities := (st.threads cur).priorities, size := (st.threads cur).size,
                donation_no := (st.threads cur).donation_no - 1,
                waiting_for := (st.threads cur).waiting_for }
              (st.threads front).priority
            rw [hg] at f
            refine ⟨by simp [set_thread, hr], ?_, ?_⟩
            · intro t
              by_cases htc : t = cur
              · subst htc
                simp only [set_thread, Function.update_same]
                split <;> simp [f.2.2.2.2]
              · simp [set_thread, Function.update_noteq htc]
            have hsz2 : ¬ t2.size < 1 := by omega
            by_cases h0 : t2.donation_no = 0
            · refine ⟨12, ?_⟩
              simp [stmt_steps, lock_stmt, lock_release_stmt, hr, hh, hd, hw, hsz2, hg, hp, set_sema,
                set_lock, set_thread, h0]
            · refine ⟨10, ?_⟩
              simp [stmt_steps, lock_stmt, lock_release_stmt, hr, hh, hd, hw, hsz2, hg, hp, set_sema,
                set_lock, set_thread, h0]
    · simp only [Bool.not_eq_true] at hd
      have hd2 : ((set_sema st (.of_lock l)
          { (st.locks l).semaphore with
            waiters := list_sort (compare_priority st) (st.locks l).semaphore.waiters }).locks l).is_donated
            = false := by simp [set_sema, set_lock, hd]
      simp only [hd2] at he
      simp at he
      subst he
      unfold reset_donations
      refine ⟨by simp [set_sema, set_lock, set_thread, hr], ?_, ?_⟩
      · intro t
        by_cases htc : t = cur
        · subst htc
          simp only [set_thread, set_lock, set_sema, Function.update_same]
          split <;> simp
        · simp [set_thread, set_lock, set_sema, Function.update_noteq htc]
      by_cases h0 : (st.threads cur).donation_no = 0
      · refine ⟨7, ?_⟩
        simp [stmt_steps, lock_stmt, lock_release_stmt, hr, hh, hd, h0, set_sema, set_lock, set_thread]
      · refine ⟨5, ?_⟩
        simp [stmt_steps, lock_stmt, lock_release_stmt, hr, hh, hd, h0, set_sema, set_lock, set_thread]

theorem lock_release_stmts {st st1 : State} {l : Lid} {cur : Tid}
    (h : lock_release st l = some st1) (hr : st.running = some cur) :
    (∀ t, (st1.threads t).waiting_for = (st.threads t).waiting_for) ∧
    ∃ n, stmt_steps cur n st (.rel_254 l) = some (st1, .idle) := by
  unfold lock_release at h
  cases he : lock_release_enter st l with
  | none => simp [he] at h
  | some st5 =>
    simp only [he] at h
    obtain ⟨hr5, hf, n, hn⟩ := lock_release_enter_stmts he hr
    refine ⟨fun t => ((sema_up_threads h t).2.2.2.2).trans (hf t), n + 1, stmt_steps_trans hn ?_⟩
    simp [stmt_steps, lock_stmt, hr5, h]
theorem stmt_steps_cons {cur : Tid} {n : Nat} {st st1 st2 : State} {p p1 p2 : lock_pc}
    (hr : st.running = some cur) (h : lock_stmt st cur p = some (st1, p1))
    (h2 : stmt_steps cur n st1 p1 = some (st2, p2)) :
    stmt_steps cur (n + 1) st p = some (st2, p2) := by
  simp only [stmt_steps, hr, if_true, h]
  exact h2

theorem donation_walk_stmts (cur : Tid) (l : Lid) :
    ∀ (fuel : Nat) (st st1 : State) (temp : Tid),
      donation_walk fuel st temp = some st1 → st.running = some cur →
      ∃ n, stmt_steps cur n st (.acq_205 l temp) = some (st1, .acq_215 l) := by
  intro fuel
  induction fuel with
  | zero =>
    intro st st1 temp h hr
    simp only [donation_walk] at h
    cases hw : (st.threads temp).waiting_for with
    | none =>
      simp only [hw, Option.some.injEq] at h
      subst h
      exact ⟨1, by simp [stmt_steps, lock_stmt, lock_acquire_stmt, hr, hw]⟩
    | some cl => simp [hw] at h
  | succ fuel ih =>
    intro st st1 temp h hr
    simp only [donation_walk] at h
    cases hw : (st.threads temp).waiting_for with
    | none =>
      simp only [hw, Option.some.injEq] at h
      subst h
      exact ⟨1, by simp [stmt_steps, lock_stmt, lock_acquire_stmt, hr, hw]⟩
    | some cl =>
      simp only [hw] at h
      cases hh : (st.locks cl).holder with
      | none => simp [hh] at h
      | some x =>
        simp only [hh] at h
        cases hpd : push_donation (st.threads x) (st.threads temp).priority with
        | none => simp [hpd] at h
        | some th =>
          simp only [hpd] at h
          unfold push_donation at hpd
          split at hpd
          · simp at hpd
          · rename_i hsz
            simp only [Option.some.injEq] at hpd
            have hp : (Function.update st.threads x
                { status := (st.threads x).status, priority := (st.threads x).priority,
                  priorities := Function.update (st.threads x).priorities (st.threads x).size.toNat
                    (st.threads temp).priority,
                  size := (st.threads x).size + 1,
                  donation_no := (st.threads x).donation_no,
                  waiting_for := (st.threads x).waiting_for } temp).priority
                = (st.threads temp).priority := by
              by_cases hc : temp = x
              · subst hc; simp
              · simp [Function.update_noteq hc]
            have h5 : stmt_steps cur 5 st (.acq_205 l temp)
                = some (set_thread st x th, .acq_211 l temp cl) := by
              subst hpd
              simp [stmt_steps, lock_stmt, lock_acquire_stmt, hr, hw, hh, hsz, set_thread, hp]
            have hl : ((set_thread st x th).locks cl).holder = some x := hh
            have hr2 : (set_thread st x th).running = some cur := hr
            have hst : ((set_thread st x th).threads x).status = th.status := by
              simp [set_thread]
            split at h
            · rename_i hready
              simp only [Option.some.injEq] at h
              subst h
              refine ⟨5 + 1, stmt_steps_trans h5 ?_⟩
              simp [stmt_steps, lock_stmt, lock_acquire_stmt, hr, hr2, hl, hst, hready]
            · rename_i hready
              obtain ⟨n, hn⟩ := ih _ _ _ h hr2
              refine ⟨5 + (2 + n), stmt_steps_trans h5 ?_⟩
              rw [Nat.add_comm 2 n]
              refine @stmt_steps_cons cur _ _ _ _ _ (.acq_213 l temp cl) _ hr2 ?_
                (@stmt_steps_cons cur _ _ _ _ _ (.acq_205 l x) _ hr2 ?_ hn)
              · simp [lock_stmt, lock_acquire_stmt, hl, hst, hready]
              · simp [lock_stmt, lock_acquire_stmt, hl]

theorem lock_acquire_enter_stmts {fuel : Nat} {st st1 : State} {l : Lid} {cur : Tid}
    (h : lock_acquire_enter fuel st l = some st1) (hr : st.running = some cur) :
    (∃ n, stmt_steps cur n st (.acq_198 l) = some (st1, .acq_221 l)) ∧
    (∀ t, t ≠ cur → (st1.threads t).waiting_for = (st.threads t).waiting_for) ∧
    ((st.locks l).holder = none → st1 = st) ∧
    ((st.locks l).holder ≠ none → (st1.threads cur).waiting_for = some l) := by
  unfold lock_acquire_enter at h
  simp only [thread_current, hr] at h
  split at h
  · simp at h
  · rename_i hne
    cases hh : (st.locks l).holder with
    | none =>
      simp only [hh, Option.some.injEq] at h
      subst h
      refine ⟨⟨2, by simp [stmt_steps, lock_stmt, lock_acquire_stmt, hr, hh]⟩,
        fun _ _ => rfl, fun _ => rfl, fun hx => absurd rfl hx⟩
    | some x =>
      simp only [hh] at h
      have hr1 : (set_thread st cur { st.threads cur with waiting_for := some l }).running
          = some cur := hr
      have hl1 : ((set_thread st cur { st.threads cur with waiting_for := some l }).locks l).holder
          = some x := hh
      have hxc : ¬ x = cur := by
        rw [hh] at hne
        simpa using hne
      have h3 : stmt_steps cur 3 st (.acq_198 l)
          = some (set_thread st cur { st.threads cur with waiting_for := some l }, .acq_203 l) := by
        simp [stmt_steps, lock_stmt, lock_acquire_stmt, hr, hh, hxc, set_thread]
      split at h
      · rename_i hlt
        simp only [set_thread, Function.update_same, Function.update_noteq hxc] at hlt
        cases hdw : donation_walk fuel
            (set_thread st cur { st.threads cur with waiting_for := some l }) cur with
        | none => simp [hdw] at h
        | some st2 =>
          simp only [hdw, Option.some.injEq] at h
          obtain ⟨n, hn⟩ := donation_walk_stmts cur l _ _ _ _ hdw hr1
          obtain ⟨fl, fr, _, _, _⟩ := donation_walk_frame _ _ _ _ hdw
          have ft := donation_walk_threads _ _ _ _ hdw
          have hr2 : st2.running = some cur := by rw [fr]; exact hr1
          have hl2 : (st2.locks l).holder = some x := by rw [fl]; exact hl1
          have h4 : stmt_steps cur (3 + (1 + n)) st (.acq_198 l) = some (st2, .acq_215 l) := by
            refine stmt_steps_trans h3 ?_
            rw [Nat.add_comm 1 n]
            exact stmt_steps_cons hr1
              (by simp [lock_stmt, lock_acquire_stmt, hh, hlt, set_thread,
                Function.update_noteq hxc]) hn
          refine ⟨?_, ?_, fun hx => by simp at hx, fun _ => ?_⟩
          · by_cases hd : (st2.locks l).is_donated = true
            · simp only [hd, if_true] at h
              subst h
              refine ⟨(3 + (1 + n)) + 3, stmt_steps_trans h4 ?_⟩
              simp [stmt_steps, lock_stmt, lock_acquire_stmt, hr2, hd, set_lock]
            · simp only [hd] at h
              simp only [Bool.not_eq_true] at hd
              subst h
              refine ⟨(3 + (1 + n)) + 4, stmt_steps_trans h4 ?_⟩
              simp [stmt_steps, lock_stmt, lock_acquire_stmt, hr2, hd, hl2, set_lock, set_thread]
          · intro t ht
            subst h
            have := (ft t).2.1
            split
            · simp only [set_lock]
              rw [this]
              simp [set_thread, Function.update_noteq ht]
            · simp only [set_lock, set_thread]
              by_cases htx : t = x
              · subst htx
                simp only [Function.update_same]
                rw [this]
                simp [set_thread, Function.update_noteq ht]
              · simp only [Function.update_noteq htx]
                rw [this]
                simp [set_thread, Function.update_noteq ht]
          · subst h
            have := (ft cur).2.1
            split
            · simp only [set_lock]
              rw [this]
              simp [set_thread]
            · simp only [set_lock, set_thread]
              by_cases htx : cur = x
              · subst htx
                simp only [Function.update_same]
                rw [this]
                simp [set_thread]
              · simp only [Function.update_noteq htx]
                rw [this]
                simp [set_thread]
      · rename_i hlt
        simp only [set_thread, Function.update_same, Function.update_noteq hxc] at hlt
        simp only [Option.some.injEq] at h
        subst h
        refine ⟨⟨3 + 1, stmt_steps_trans h3 ?_⟩, ?_, fun hx => by simp at hx, fun _ => ?_⟩
        · simp [stmt_steps, lock_stmt, lock_acquire_stmt, hr, hh, hlt, set_thread,
            Function.update_noteq hxc]
        · intro t ht
          simp [set_thread, Function.update_noteq ht]
        · simp [set_thread]

theorem lock_acquire_wake_stmts {st st1 : State} {l : Lid} {cur : Tid}
    (h : lock_acquire_wake st l = some st1) (hr : st.running = some cur) :
    (∀ t, t ≠ cur → (st1.threads t).waiting_for = (st.threads t).waiting_for) ∧
    ((∃ n, stmt_steps cur n st (.acq_221 l) = some (st1, .idle) ∧
        (st1.threads cur).waiting_for = none) ∨
     (∃ n, stmt_steps cur n st (.acq_221 l) = some (st1, .acq_221 l) ∧
        (st.locks l).semaphore.value = 0 ∧
        (st1.threads cur).waiting_for = (st.threads cur).waiting_for)) := by
  unfold lock_acquire_wake at h
  simp only [thread_current, hr] at h
  cases hd : sema_down st (.of_lock l) with
  | none => simp [hd] at h
  | some r =>
    obtain ⟨s2, done⟩ := r
    obtain ⟨c2, hc2, hcase⟩ := sema_down_cases hd
    rw [hr] at hc2
    simp only [Option.some.injEq] at hc2
    subst hc2
    simp only [hd] at h
    rcases hcase with ⟨hdone, hv, hs2⟩ | ⟨hdone, hv, hs2⟩
    · subst hdone
      simp only [Option.some.injEq] at h
      subst h
      have hr2 : s2.running = some cur := by rw [hs2]; simpa using hr
      refine ⟨?_, Or.inl ⟨3, ?_, ?_⟩⟩
      · intro t ht
        simp [set_thread, set_lock, Function.update_noteq ht, hs2, set_sema]
      · simp [stmt_steps, lock_stmt, hr, hd, hr2, set_lock, set_thread]
      · simp [set_thread]
    · subst hdone
      simp only [Option.some.injEq] at h
      subst h
      refine ⟨?_, Or.inr ⟨1, ?_, by simpa [get_sema] using hv, ?_⟩⟩
      · intro t ht
        simp [hs2, set_thread, Function.update_noteq ht, set_sema, set_lock]
      · simp [stmt_steps, lock_stmt, hr, hd]
      · simp [hs2, set_thread, set_sema, set_lock]
theorem update_call_pc {st st1 : State} {cur : Tid} {p1 : lock_pc}
    (hf : ∀ t, t ≠ cur → (st1.threads t).waiting_for = (st.threads t).waiting_for)
    (hp : call_pc st1 cur = p1) : Function.update (call_pc st) cur p1 = call_pc st1 := by
  funext t
  by_cases ht : t = cur
  · subst ht
    simp [hp]
  · simp [Function.update_noteq ht, call_pc, hf t ht]

theorem call_pc_congr {st st1 : State}
    (h : ∀ t, (st1.threads t).waiting_for = (st.threads t).waiting_for) :
    call_pc st1 = call_pc st := by
  funext t
  simp [call_pc, h t]

theorem call_steps_run {st st1 : State} {cur : Tid} {n : Nat} {p p1 : lock_pc}
    (hs : stmt_steps cur n st p = some (st1, p1))
    (hf : ∀ t, t ≠ cur → (st1.threads t).waiting_for = (st.threads t).waiting_for)
    (hp : call_pc st1 cur = p1) :
    stmt_run { st := st, pc := Function.update (call_pc st) cur p } (List.replicate n .step)
      = some (call_machine st1) := by
  have := stmt_steps_run cur n { st := st, pc := Function.update (call_pc st) cur p } st1 p1
    (by simpa using hs)
  rw [this]
  simp [call_machine, update_call_pc hf hp]

theorem lock_call_run {st st1 : State} {cur : Tid} {n : Nat} {entry p1 : lock_pc}
    (e : stmt_event) (hr : st.running = some cur)
    (hidle : (st.threads cur).waiting_for = none)
    (he : stmt_event_step (call_machine st) e = lock_call (call_machine st) entry)
    (hs : stmt_steps cur n st entry = some (st1, p1))
    (hf : ∀ t, t ≠ cur → (st1.threads t).waiting_for = (st.threads t).waiting_for)
    (hp : call_pc st1 cur = p1) :
    stmt_run (call_machine st) (e :: List.replicate n .step) = some (call_machine st1) := by
  have hc : lock_call (call_machine st) entry
      = some { st := st, pc := Function.update (call_pc st) cur entry } := by
    simp [lock_call, call_machine, thread_current, hr, call_pc, hidle]
  simp only [stmt_run, he, hc]
  exact call_steps_run hs hf hp

theorem lock_event_step_stmt_run {st st1 : State} {e : lock_event}
    (h : lock_event_step st e = some st1) (hok : ∀ l, lock_ok (st.locks l)) :
    ∃ sevs, stmt_run (call_machine st) sevs = some (call_machine st1) := by
  cases e with
  | run t =>
    simp only [lock_event_step] at h
    refine ⟨[.run t], ?_⟩
    simp [stmt_run, stmt_event_step, call_machine, h,
      call_pc_congr fun u => (schedule_threads h u).2.1]
  | preempt =>
    simp only [lock_event_step] at h
    refine ⟨[.preempt], ?_⟩
    simp [stmt_run, stmt_event_step, call_machine, h,
      call_pc_congr fun u => (thread_yield_threads h u).2.1]
  | acquire l fuel =>
    simp only [lock_event_step, thread_current] at h
    cases hr : st.running with
    | none => simp [hr] at h
    | some cur =>
      simp only [hr] at h
      cases hw : (st.threads cur).waiting_for with
      | some l2 => simp [hw] at h
      | none =>
        simp only [hw] at h
        unfold lock_acquire at h
        cases hen : lock_acquire_enter fuel st l with
        | none => simp [hen] at h
        | some se =>
          simp only [hen] at h
          obtain ⟨⟨n1, hn1⟩, hf1, _, hsome⟩ := lock_acquire_enter_stmts hen hr
          obtain ⟨hre, hle, _⟩ := lock_acquire_enter_frame hen
          have hr2 : se.running = some cur := by rw [hre]; exact hr
          obtain ⟨hf2, hc⟩ := lock_acquire_wake_stmts h hr2
          have hf : ∀ t, t ≠ cur → (st1.threads t).waiting_for = (st.threads t).waiting_for :=
            fun t ht => (hf2 t ht).trans (hf1 t ht)
          rcases hc with ⟨n2, hn2, hnone⟩ | ⟨n2, hn2, hv, hsame⟩
          · exact ⟨_, lock_call_run (.acquire l) hr hw rfl (stmt_steps_trans hn1 hn2) hf
              (by simp [call_pc, hnone])⟩
          · have hv0 : (st.locks l).semaphore.value = 0 := by
              rw [← (hle l).2]; exact hv
            have hhold : (st.locks l).holder ≠ none := by
              rcases hok l with ⟨_, h1⟩ | ⟨h1, _⟩
              · omega
              · exact h1
            exact ⟨_, lock_call_run (.acquire l) hr hw rfl (stmt_steps_trans hn1 hn2) hf
              (by simp [call_pc, hsame, hsome hhold])⟩
  | wake =>
    simp only [lock_event_step, thread_current] at h
    cases hr : st.running with
    | none => simp [hr] at h
    | some cur =>
      simp only [hr] at h
      cases hw : (st.threads cur).waiting_for with
      | none => simp [hw] at h
      | some l =>
        simp only [hw] at h
        obtain ⟨hf, hc⟩ := lock_acquire_wake_stmts h hr
        have hm : call_machine st
            = { st := st, pc := Function.update (call_pc st) cur (.acq_221 l) } := by
          simp only [call_machine]
          congr 1
          funext t
          by_cases ht : t = cur
          · subst ht; simp [call_pc, hw]
          · simp [Function.update_noteq ht]
        rw [hm]
        rcases hc with ⟨n2, hn2, hnone⟩ | ⟨n2, hn2, _, hsame⟩
        · exact ⟨_, call_steps_run hn2 hf (by simp [call_pc, hnone])⟩
        · exact ⟨_, call_steps_run hn2 hf (by simp [call_pc, hsame, hw])⟩
  | try_acquire l =>
    simp only [lock_event_step, thread_current] at h
    cases hr : st.running with
    | none => simp [hr] at h
    | some cur =>
      simp only [hr] at h
      cases hw : (st.threads cur).waiting_for with
      | some l2 => simp [hw] at h
      | none =>
        simp only [hw] at h
        cases ht : lock_try_acquire st l with
        | none => simp [ht] at h
        | some r =>
          obtain ⟨s2, b⟩ := r
          simp only [ht, Option.some.injEq] at h
          subst h
          obtain ⟨hth, n, hn⟩ := lock_try_acquire_stmts ht hr
          exact ⟨_, lock_call_run (.try_acquire l) hr hw rfl hn (fun t _ => by rw [hth])
            (by simp [call_pc, hth, hw])⟩
  | release l =>
    simp only [lock_event_step, thread_current] at h
    cases hr : st.running with
    | none => simp [hr] at h
    | some cur =>
      simp only [hr] at h
      cases hw : (st.threads cur).waiting_for with
      | some l2 => simp [hw] at h
      | none =>
        simp only [hw] at h
        obtain ⟨hf, n, hn⟩ := lock_release_stmts h hr
        exact ⟨_, lock_call_run (.release l) hr hw rfl hn (fun t _ => hf t)
          (by simp [call_pc, hf, hw])⟩

theorem lock_run_stmt_run_from (evs : List lock_event) :
    ∀ {st st1 : State}, lock_run st evs = some st1 → (∀ l, lock_ok (st.locks l)) →
      ∃ sevs, stmt_run (call_machine st) sevs = some (call_machine st1) := by
  induction evs with
  | nil =>
    intro st st1 h _
    simp only [lock_run, Option.some.injEq] at h
    subst h
    exact ⟨[], rfl⟩
  | cons e es ih =>
    intro st st1 h hok
    simp only [lock_run] at h
    cases h2 : lock_event_step st e with
    | none => simp [h2] at h
    | some s2 =>
      simp only [h2] at h
      obtain ⟨a, ha⟩ := lock_event_step_stmt_run h2 hok
      obtain ⟨b, hb⟩ := ih h (lock_event_step_ok h2 hok)
      exact ⟨a ++ b, by rw [stmt_run_append, ha]; exact hb⟩

/-- Every run of calls that are not interrupted is an execution at statement
level: a state that `lock_run` reaches from `boot base` is reached by
`stmt_run` from `boot_machine base`, every thread standing in no lock function
or, when it is blocked inside `lock_acquire`, at the `sema_down` of line 221. -/
theorem lock_run_stmt_run (base : Tid → Int) (evs : List lock_event) (st : State)
    (h : lock_run (boot base) evs = some st) :
    ∃ sevs, stmt_run (boot_machine base) sevs = some { st := st, pc := call_pc st } := by
  have hb : boot_machine base = call_machine (boot base) := by
    simp only [boot_machine, call_machine]
    congr 1
  rw [hb]
  exact lock_run_stmt_run_from evs h (fun l => Or.inl ⟨rfl, rfl⟩)

end Synch
